import Mathlib

/-!
Verification development for the ClaudeCode-Debugger core: the multi-label
error detector (`claudecode_debugger/core/advanced_detector.py`) and the
template system (`claudecode_debugger/core/template_system.py`).

The Python sources are shallowly embedded: pure functions become Lean
functions, the regular-expression primitives of the `re` module are embedded
by a small backtracking engine over an abstract syntax of the regexes that
actually occur in the source, floats used for weights/confidences become
rationals, and the stateful template system becomes explicit state passing
with fuel for the unbounded recursions of the source.
-/

namespace CCDbg

/-- Items of a regex character class, e.g. the pieces of `[A-Za-z \d \w \s]`.
`digit`, `word`, `space` embed the `re` classes `\d`, `\w`, `\s` (ASCII view,
which is all the source's inputs exercise). -/
inductive ClsItem where
  | ch (c : Char)
  | range (lo hi : Char)
  | digit
  | word
  | space
  deriving Repr, DecidableEq

/-- Does a single class item accept character `c`? Mirrors the `re` module's
meaning of the item. `\w` is letters, digits and underscore; `\s` is
whitespace. -/
def ClsItem.accepts (i : ClsItem) (c : Char) : Bool :=
  match i with
  | .ch d => c = d
  | .range lo hi => lo ≤ c ∧ c ≤ hi
  | .digit => c.isDigit
  | .word => c.isAlphanum || c = Char.ofNat 95
  | .space => c.isWhitespace

/-- Abstract syntax of the regular expressions occurring in the source.
Quantifiers carry a `lazy` flag (`*?`/`+?`/`??`); `grp` is a numbered capture
group; `bol`/`eol` are `^`/`$` under `re.MULTILINE`, `eolS` is `$` without it
(end of text, or just before one trailing newline); `look` is a lookahead
`(?=...)`. -/
inductive RE where
  | eps
  | lit (c : Char)
  | cls (neg : Bool) (items : List ClsItem)
  | dot
  | seq (a b : RE)
  | alt (a b : RE)
  | star (lazy : Bool) (a : RE)
  | plus (lazy : Bool) (a : RE)
  | opt (lazy : Bool) (a : RE)
  | grp (idx : Nat) (a : RE)
  | bol
  | eol
  | eolS
  | look (a : RE)
  deriving Repr, DecidableEq

/-- Sequence of a list of regexes (left to right). -/
def RE.cat (l : List RE) : RE :=
  match l with
  | [] => .eps
  | [r] => r
  | r :: rs => .seq r (RE.cat rs)

/-- First-alternative-preferred alternation of a list of regexes, as in the
`re` module's `a|b|c`. -/
def RE.alts (l : List RE) : RE :=
  match l with
  | [] => .cls false []
  | [r] => r
  | r :: rs => .alt r (RE.alts rs)

/-- Literal string as a regex. -/
def RE.str (s : String) : RE :=
  RE.cat (s.data.map RE.lit)

/-- Exactly `n` repetitions, embedding `r{n}`. -/
def RE.repN (n : Nat) (r : RE) : RE :=
  RE.cat (List.replicate n r)

/-- Number of capture groups, used to embed `re.findall`'s convention of
returning strings (0 or 1 group) versus tuples (2 or more groups). -/
def RE.groupCount (r : RE) : Nat :=
  match r with
  | .eps | .lit _ | .cls _ _ | .dot | .bol | .eol | .eolS => 0
  | .seq a b | .alt a b => a.groupCount + b.groupCount
  | .star _ a | .plus _ a | .opt _ a | .look a => a.groupCount
  | .grp _ a => a.groupCount + 1

/-- Compilation flags relevant to the embedded regexes: `re.IGNORECASE` and
`re.DOTALL`. (`re.MULTILINE` is baked into `bol`/`eol`.) -/
structure Flags where
  ci : Bool
  dotAll : Bool
  deriving Repr, DecidableEq

/-- Case-insensitive-aware literal character test. -/
def litAccepts (fl : Flags) (c t : Char) : Bool :=
  t = c || (fl.ci && t.toLower = c.toLower)

/-- Class membership with `re.IGNORECASE` case folding (a character matches a
class if it or a case variant is in the class). -/
def clsAccepts (fl : Flags) (neg : Bool) (items : List ClsItem) (t : Char) : Bool :=
  let hit := fun d => items.any (fun i => i.accepts d)
  let b := hit t || (fl.ci && (hit t.toLower || hit t.toUpper))
  if neg then !b else b

/-- Captured groups of a match: slot `i` holds the text last captured by group
`i`, `none` if the group did not participate. -/
def Caps := List (Option String)
  deriving DecidableEq, Repr

/-- The text captured between two positions. -/
def capSlice (text : List Char) (s e : Nat) : String :=
  String.mk ((text.drop s).take (e - s))

/-- Node count of a regex, used to size the matcher's fuel. -/
def RE.size : RE → Nat
  | .eps | .lit _ | .cls _ _ | .dot | .bol | .eol | .eolS => 1
  | .seq a b | .alt a b => a.size + b.size + 1
  | .star _ a | .plus _ a | .opt _ a | .grp _ a | .look a => a.size + 1

/-- Backtracking matcher: all ways `r` can match `text` starting at `pos`, as
a list of (end position, captures) in the `re` module's backtracking priority
order (the head is the match `re.search`/`re.match` would produce at `pos`).
`fuel` bounds the recursion depth (structurally, so that evaluation runs in
the kernel); `matchFuel` below supplies more than any evaluation on the
source's regexes can consume, since a repetition is only re-entered after
consuming at least one character (the repeated bodies in the source are never
nullable, matching the `re` module's behaviour on them).  A `plus` is `a`
followed by `a*`, exactly the `re` module's `a+`. -/
def mmatch (fl : Flags) (text : List Char) : Nat → RE → Nat → Caps → List (Nat × Caps)
  | 0, _, _, _ => []
  | fuel + 1, r, pos, caps =>
    match r with
    | .eps => [(pos, caps)]
    | .lit c =>
      match text.get? pos with
      | some t => if litAccepts fl c t then [(pos + 1, caps)] else []
      | none => []
    | .cls neg items =>
      match text.get? pos with
      | some t => if clsAccepts fl neg items t then [(pos + 1, caps)] else []
      | none => []
    | .dot =>
      match text.get? pos with
      | some t => if t = Char.ofNat 10 && !fl.dotAll then [] else [(pos + 1, caps)]
      | none => []
    | .seq a b =>
      (mmatch fl text fuel a pos caps).flatMap fun pc => mmatch fl text fuel b pc.1 pc.2
    | .alt a b => mmatch fl text fuel a pos caps ++ mmatch fl text fuel b pos caps
    | .star lz a =>
      let cont :=
        ((mmatch fl text fuel a pos caps).filter fun pc => pos < pc.1).flatMap
          fun pc => mmatch fl text fuel (.star lz a) pc.1 pc.2
      if lz then (pos, caps) :: cont else cont ++ [(pos, caps)]
    | .plus lz a =>
      (mmatch fl text fuel a pos caps).flatMap fun pc =>
        mmatch fl text fuel (.star lz a) pc.1 pc.2
    | .opt lz a =>
      if lz then (pos, caps) :: mmatch fl text fuel a pos caps
      else mmatch fl text fuel a pos caps ++ [(pos, caps)]
    | .grp idx a =>
      (mmatch fl text fuel a pos caps).map fun pc =>
        (pc.1, pc.2.set idx (some (capSlice text pos pc.1)))
    | .bol =>
      if pos = 0 || text.get? (pos - 1) = some (Char.ofNat 10) then [(pos, caps)] else []
    | .eol =>
      if pos = text.length || text.get? pos = some (Char.ofNat 10) then [(pos, caps)]
      else []
    | .eolS =>
      if pos = text.length ||
          (pos + 1 = text.length && text.get? pos = some (Char.ofNat 10)) then
        [(pos, caps)]
      else []
    | .look a =>
      if (mmatch fl text fuel a pos caps).isEmpty then [] else [(pos, caps)]

/-- Fuel that no evaluation on the source's regexes can exhaust: recursion
depth is bounded by the star-iteration count (at most the text length, by the
progress requirement) times the regex size, and no source regex nests
repetitions more than two deep. -/
def matchFuel (r : RE) (text : List Char) : Nat :=
  (text.length + 2) * (text.length + 2) * (r.size + 2)

/-- Initial captures: one empty slot per group. -/
def initCaps (r : RE) : Caps :=
  List.replicate r.groupCount none

/-- A complete match: the full matched text and the group captures, with
unset groups rendered as the empty string the way `re.findall`/`group`
default them. -/
structure MatchData where
  full : String
  groups : List String
  deriving Repr, DecidableEq

/-- The match attempt at one position: the highest-priority way `r` matches
at `pos`, if any. -/
def tryMatchAt (fl : Flags) (r : RE) (text : List Char) (pos : Nat) :
    Option (Nat × MatchData) :=
  match (mmatch fl text (matchFuel r text) r pos (initCaps r)).head? with
  | some (e, caps) =>
    some (e, ⟨capSlice text pos e, caps.map (fun o => o.getD "")⟩)
  | none => none

/-- Scan helper for `re.search`: leftmost position at which `r` matches.  The
fuel counts the remaining scan steps; every caller supplies
`text.length + 1`, one per candidate position. -/
def searchFrom (fl : Flags) (r : RE) (text : List Char) : Nat → Nat →
    Option (Nat × Nat × MatchData)
  | 0, _ => none
  | fuel + 1, pos =>
    if text.length < pos then none
    else
      match tryMatchAt fl r text pos with
      | some (e, md) => some (pos, e, md)
      | none => searchFrom fl r text fuel (pos + 1)

/-- Embeds `pattern.search(text)`: the leftmost match. -/
def reSearch (fl : Flags) (r : RE) (text : List Char) : Option (Nat × Nat × MatchData) :=
  searchFrom fl r text (text.length + 1) 0

/-- Scan helper for `re.findall`/`re.finditer`: all non-overlapping matches
left to right, advancing past each match (or by one position after an empty
match).  The fuel counts scan steps as in `searchFrom`. -/
def findAllFrom (fl : Flags) (r : RE) (text : List Char) : Nat → Nat →
    List (Nat × Nat × MatchData)
  | 0, _ => []
  | fuel + 1, pos =>
    if text.length < pos then []
    else
      match tryMatchAt fl r text pos with
      | some (e, md) =>
        (pos, e, md) :: findAllFrom fl r text fuel (if pos < e then e else pos + 1)
      | none => findAllFrom fl r text fuel (pos + 1)

/-- Embeds `pattern.finditer(text)` (spans and match data of all matches). -/
def reFindIter (fl : Flags) (r : RE) (text : List Char) : List (Nat × Nat × MatchData) :=
  findAllFrom fl r text (text.length + 1) 0

/-- One element of a `re.findall` result: a plain string when the pattern has
at most one group, a tuple of group strings otherwise.  `PyFound.mobj`
stands for the `re.Match` object stored by `detect_multi_label` when it falls
back to `pattern.search`. -/
inductive PyFound where
  | str (s : String)
  | tup (gs : List String)
  | mobj (full : String)
  deriving Repr, DecidableEq

/-- Embeds `pattern.findall(text)` with the `re` module's string/tuple
convention. -/
def reFindAll (fl : Flags) (r : RE) (text : List Char) : List PyFound :=
  (reFindIter fl r text).map fun x =>
    match r.groupCount, x.2.2.groups with
    | 0, _ => .str x.2.2.full
    | 1, g :: _ => .str g
    | 1, [] => .str ""
    | _ + 2, gs => .tup gs

/-! Shorthands for the regex fragments that recur throughout the source's
pattern catalog. -/

/-- The regex `\d`. -/
def rd : RE := .cls false [.digit]

/-- The regex `\w`. -/
def rw : RE := .cls false [.word]

/-- The regex `\s`. -/
def rs : RE := .cls false [.space]

/-- Apostrophe character. -/
def sqc : Char := Char.ofNat 39

/-- Backquote character. -/
def btc : Char := Char.ofNat 96

/-- Double-quote character. -/
def dqc : Char := Char.ofNat 34

/-- Newline character. -/
def nlc : Char := Char.ofNat 10

/-- The character class of the three quote characters, as in the source's
recurring bracket expression quote-class. -/
def q3 : RE := .cls false [.ch sqc, .ch dqc, .ch btc]

/-- The regex `(?:\n|$)`. -/
def nlOrEnd : RE := .alt (.lit nlc) .eol

/-- The regex `.+?`. -/
def anyLazyPlus : RE := .plus true .dot

/-- The regex `.+`. -/
def anyPlus : RE := .plus false .dot

/-- The regex `.*?`. -/
def anyLazyStar : RE := .star true .dot

/-- The regex `\s*`. -/
def wsStar : RE := .star false rs

/-- The regex `\s+`. -/
def wsPlus : RE := .plus false rs

/-- The regex `\w+`. -/
def wPlus : RE := .plus false rw

/-- The regex `\d+`. -/
def dPlus : RE := .plus false rd

/-- Error categories of `ErrorCategory` in `advanced_detector.py`. -/
inductive ErrorCategory where
  | typescript
  | javascript
  | python
  | memory
  | network
  | react
  | vue
  | angular
  | django
  | fastapi
  | database
  | docker
  | cicd
  | build
  | security
  | async
  | general
  deriving Repr, DecidableEq

/-- The `.value` string of a category. -/
def ErrorCategory.value : ErrorCategory → String
  | .typescript => "typescript"
  | .javascript => "javascript"
  | .python => "python"
  | .memory => "memory"
  | .network => "network"
  | .react => "react"
  | .vue => "vue"
  | .angular => "angular"
  | .django => "django"
  | .fastapi => "fastapi"
  | .database => "database"
  | .docker => "docker"
  | .cicd => "cicd"
  | .build => "build"
  | .security => "security"
  | .async => "async"
  | .general => "general"

/-- Embeds the `ErrorPattern` dataclass: a compiled regex with category,
weight, capture-group names and the `multiline` flag (which adds `re.DOTALL`
on top of the always-present `re.IGNORECASE | re.MULTILINE`). -/
structure ErrorPattern where
  re : RE
  category : ErrorCategory
  weight : ℚ
  extractGroups : List String
  multiline : Bool
  deriving Repr, DecidableEq

/-- Compilation flags of a pattern, as in `ErrorPattern.__post_init__`. -/
def ErrorPattern.flags (p : ErrorPattern) : Flags :=
  ⟨true, p.multiline⟩

/-- Embeds `ErrorPattern.findall`. -/
def ErrorPattern.findall (p : ErrorPattern) (text : List Char) : List PyFound :=
  reFindAll p.flags p.re text

/-- Embeds `ErrorPattern.search`. -/
def ErrorPattern.search (p : ErrorPattern) (text : List Char) : Option MatchData :=
  (reSearch p.flags p.re text).map fun x => x.2.2

/-- Embeds `AdvancedErrorDetector._initialize_patterns`: the full pattern
catalog, in declaration order; each `RE` transcribes the regex literal of the
corresponding `ErrorPattern` entry of the source. -/
def initPatterns : List ErrorPattern := [
  -- r"(?:error )?TS(\d{4}):\s*(.+?)(?:\n|$)"
  ⟨.cat [.opt false (.str "error "), .str "TS", .grp 0 (.repN 4 rd), .lit ':', wsStar,
     .grp 1 anyLazyPlus, nlOrEnd], .typescript, 2, ["error_code", "message"], false⟩,
  -- Type quoted-name is not assignable to type quoted-name
  ⟨.cat [.str "Type", wsPlus, q3, .grp 0 anyLazyPlus, q3, wsPlus,
     .str "is not assignable to type", wsPlus, q3, .grp 1 anyLazyPlus, q3],
   .typescript, 1.5, ["source_type", "target_type"], false⟩,
  -- Cannot find module quoted-name
  ⟨.cat [.str "Cannot find module", wsPlus, q3, .grp 0 anyLazyPlus, q3],
   .typescript, 1.5, ["module_name"], false⟩,
  -- Property quoted-word does not exist on type quoted-name
  ⟨.cat [.str "Property", wsPlus, q3, .grp 0 wPlus, q3, wsPlus,
     .str "does not exist on type", wsPlus, q3, .grp 1 anyLazyPlus, q3],
   .typescript, 1.5, ["property", "type"], false⟩,
  -- r"(TypeError|ReferenceError|SyntaxError|RangeError):\s*(.+?)(?:\n|$)"
  ⟨.cat [.grp 0 (.alts [.str "TypeError", .str "ReferenceError", .str "SyntaxError",
     .str "RangeError"]), .lit ':', wsStar, .grp 1 anyLazyPlus, nlOrEnd],
   .javascript, 2, ["error_type", "message"], false⟩,
  -- Cannot read prop(erty)? optionally-quoted word of (undefined|null)
  ⟨.cat [.str "Cannot read prop", .opt false (.str "erty"), wsPlus, .opt false q3,
     .grp 0 wPlus, .opt false q3, wsPlus, .str "of", wsPlus,
     .grp 1 (.alt (.str "undefined") (.str "null"))],
   .javascript, 1.8, ["property", "object_type"], false⟩,
  -- r"UnhandledPromiseRejectionWarning:\s*(.+)"
  ⟨.cat [.str "UnhandledPromiseRejectionWarning:", wsStar, .grp 0 anyPlus],
   .javascript, 1.7, ["message"], false⟩,
  -- r"Traceback \(most recent call last\):(.*?)(?=\n(?:[A-Z]\w+Error:|$))"  (DOTALL)
  ⟨.cat [.str "Traceback (most recent call last):", .grp 0 anyLazyStar,
     .look (.cat [.lit nlc,
       .alt (.cat [.cls false [.range (Char.ofNat 65) (Char.ofNat 90)], wPlus, .str "Error:"]) .eol])],
   .python, 2, ["traceback"], true⟩,
  -- File "path", line N, in name  (Python traceback frame)
  ⟨.cat [.str "File", wsPlus, .lit dqc, .grp 0 (.plus false (.cls true [.ch dqc])), .lit dqc,
     .lit ',', wsPlus, .str "line", wsPlus, .grp 1 dPlus, .lit ',', wsPlus, .str "in",
     wsPlus, .grp 2 wPlus], .python, 1.5, ["file", "line", "function"], false⟩,
  -- r"(\w+Error):\s*(.+?)(?:\n|$)"
  ⟨.cat [.grp 0 (.cat [wPlus, .str "Error"]), .lit ':', wsStar, .grp 1 anyLazyPlus, nlOrEnd],
   .python, 1.8, ["error_type", "message"], false⟩,
  -- r"async def\s+\w+.*?await.*?(?:asyncio\.)?(?:TimeoutError|CancelledError)"  (DOTALL)
  ⟨.cat [.str "async def", wsPlus, wPlus, anyLazyStar, .str "await", anyLazyStar,
     .opt false (.str "asyncio."), .alt (.str "TimeoutError") (.str "CancelledError")],
   .async, 1.6, [], true⟩,
  -- r"JavaScript heap out of memory"
  ⟨.str "JavaScript heap out of memory", .memory, 2.5, [], false⟩,
  -- r"FATAL ERROR:.*?Allocation failed.*?process out of memory"  (DOTALL)
  ⟨.cat [.str "FATAL ERROR:", anyLazyStar, .str "Allocation failed", anyLazyStar,
     .str "process out of memory"], .memory, 2.5, [], true⟩,
  -- r"Maximum call stack size exceeded"
  ⟨.str "Maximum call stack size exceeded", .memory, 2, [], false⟩,
  -- r"java\.lang\.OutOfMemoryError:\s*(.+)"
  ⟨.cat [.str "java.lang.OutOfMemoryError:", wsStar, .grp 0 anyPlus],
   .memory, 2.5, ["heap_space"], false⟩,
  -- r"CORS (?:policy|error):.*?(?:Access-Control-Allow-Origin|blocked)"  (DOTALL)
  ⟨.cat [.str "CORS ", .alt (.str "policy") (.str "error"), .lit ':', anyLazyStar,
     .alt (.str "Access-Control-Allow-Origin") (.str "blocked")],
   .network, 2, [], true⟩,
  -- r"(ERR_CONNECTION_REFUSED|ECONNREFUSED|ETIMEDOUT|ENOTFOUND)"
  ⟨.grp 0 (.alts [.str "ERR_CONNECTION_REFUSED", .str "ECONNREFUSED", .str "ETIMEDOUT",
     .str "ENOTFOUND"]), .network, 2, ["error_code"], false⟩,
  -- r"fetch failed.*?(?:reason:\s*(.+))?"
  ⟨.cat [.str "fetch failed", anyLazyStar, .opt false (.cat [.str "reason:", wsStar,
     .grp 0 anyPlus])], .network, 1.8, ["reason"], false⟩,
  -- WebSocket connection to quoted-url failed
  ⟨.cat [.str "WebSocket connection to", wsPlus, q3, .grp 0 anyLazyPlus, q3, wsPlus,
     .str "failed"], .network, 1.8, ["url"], false⟩,
  -- r"Invalid hook call.*?Hooks can only be called inside"  (DOTALL)
  ⟨.cat [.str "Invalid hook call", anyLazyStar, .str "Hooks can only be called inside"],
   .react, 2, [], true⟩,
  -- r"Too many re-renders\.\s*React limits"
  ⟨.cat [.str "Too many re-renders.", wsStar, .str "React limits"], .react, 2, [], false⟩,
  -- r"Objects are not valid as a React child.*?found:\s*(.+)"
  ⟨.cat [.str "Objects are not valid as a React child", anyLazyStar, .str "found:", wsStar,
     .grp 0 anyPlus], .react, 1.8, ["object_type"], false⟩,
  -- r"\[Vue warn\]:\s*(.+?)(?:\n|$)"
  ⟨.cat [.str "[Vue warn]:", wsStar, .grp 0 anyLazyPlus, nlOrEnd],
   .vue, 1.8, ["message"], false⟩,
  -- r"Unknown custom element:\s*<(.+?)>"
  ⟨.cat [.str "Unknown custom element:", wsStar, .lit '<', .grp 0 anyLazyPlus, .lit '>'],
   .vue, 1.7, ["component"], false⟩,
  -- r"ERROR\s+(?:in|Error):\s*(.+?)(?:\n|$)"
  ⟨.cat [.str "ERROR", wsPlus, .alt (.str "in") (.str "Error"), .lit ':', wsStar,
     .grp 0 anyLazyPlus, nlOrEnd], .angular, 1.8, ["message"], false⟩,
  -- r"NG\d{4}:\s*(.+)"
  ⟨.cat [.str "NG", .repN 4 rd, .lit ':', wsStar, .grp 0 anyPlus],
   .angular, 2, ["message"], false⟩,
  -- r"django\.(?:core|db|utils)\.exceptions\.(\w+):\s*(.+)"
  ⟨.cat [.str "django.", .alts [.str "core", .str "db", .str "utils"], .str ".exceptions.",
     .grp 0 wPlus, .lit ':', wsStar, .grp 1 anyPlus],
   .django, 2, ["exception_type", "message"], false⟩,
  -- r"OperationalError:.*?no such table:\s*(\w+)"
  ⟨.cat [.str "OperationalError:", anyLazyStar, .str "no such table:", wsStar, .grp 0 wPlus],
   .django, 1.8, ["table_name"], false⟩,
  -- r"fastapi\.exceptions\.(\w+):\s*(.+)"
  ⟨.cat [.str "fastapi.exceptions.", .grp 0 wPlus, .lit ':', wsStar, .grp 1 anyPlus],
   .fastapi, 2, ["exception_type", "message"], false⟩,
  -- r"pydantic\.error_wrappers\.ValidationError.*?(\d+)\s+validation errors?"
  ⟨.cat [.str "pydantic.error_wrappers.ValidationError", anyLazyStar, .grp 0 dPlus, wsPlus,
     .str "validation error", .opt false (.lit 's')], .fastapi, 1.8, ["error_count"], false⟩,
  -- r"(?:psycopg2|mysql|sqlite3)\.(?:\w+\.)?(\w+Error):\s*(.+)"
  ⟨.cat [.alts [.str "psycopg2", .str "mysql", .str "sqlite3"], .lit '.',
     .opt false (.cat [wPlus, .lit '.']), .grp 0 (.cat [wPlus, .str "Error"]), .lit ':',
     wsStar, .grp 1 anyPlus], .database, 2, ["error_type", "message"], false⟩,
  -- r"SQLSTATE\[(\w+)\].*?:\s*(.+)"
  ⟨.cat [.str "SQLSTATE[", .grp 0 wPlus, .lit ']', anyLazyStar, .lit ':', wsStar,
     .grp 1 anyPlus], .database, 2, ["sql_state", "message"], false⟩,
  -- r"MongoError:\s*(.+)"
  ⟨.cat [.str "MongoError:", wsStar, .grp 0 anyPlus], .database, 1.8, ["message"], false⟩,
  -- r"docker:\s*Error response from daemon:\s*(.+)"
  ⟨.cat [.str "docker:", wsStar, .str "Error response from daemon:", wsStar, .grp 0 anyPlus],
   .docker, 2, ["message"], false⟩,
  -- ERROR: Service quoted-word failed to build: reason
  ⟨.cat [.str "ERROR:", wsStar, .str "Service", wsPlus, q3, .grp 0 wPlus, q3, wsPlus,
     .str "failed to build:", wsStar, .grp 1 anyPlus],
   .docker, 2, ["service", "reason"], false⟩,
  -- r"container_linux\.go:\d+:.*?(?:starting container process|exec).*?:\s*(.+)"
  ⟨.cat [.str "container_linux.go:", dPlus, .lit ':', anyLazyStar,
     .alt (.str "starting container process") (.str "exec"), anyLazyStar, .lit ':', wsStar,
     .grp 0 anyPlus], .docker, 1.8, ["message"], false⟩,
  -- r"##\[error\](.+)"
  ⟨.cat [.str "##[error]", .grp 0 anyPlus], .cicd, 2, ["message"], false⟩,
  -- The job was canceled because "reason"
  ⟨.cat [.str "The job was canceled because", wsPlus, .lit dqc, .grp 0 anyLazyPlus, .lit dqc],
   .cicd, 1.8, ["reason"], false⟩,
  -- r"npm ERR!\s+(.+?)(?:\n|$)"
  ⟨.cat [.str "npm ERR!", wsPlus, .grp 0 anyLazyPlus, nlOrEnd],
   .build, 1.8, ["message"], false⟩,
  -- r"ERROR:\s*Failed to build\s+(.+)"
  ⟨.cat [.str "ERROR:", wsStar, .str "Failed to build", wsPlus, .grp 0 anyPlus],
   .build, 2, ["target"], false⟩]

/-- Embeds the `ErrorMatch` dataclass. `matches` holds what the source stores
in the `matches` list: `findall` results, or the fallback `search` match
object. -/
structure ErrorMatch where
  category : ErrorCategory
  confidence : ℚ
  matchList : List PyFound
  extractedInfo : List (String × List String)
  severity : String
  deriving Repr, DecidableEq

/-- Hit test of one severity keyword regex against the lowercased text, as in
`re.search(pattern, lower_text)` inside `_calculate_severity`. -/
def sevHit (rx : RE) (lower : List Char) : Bool :=
  (reSearch ⟨false, false⟩ rx lower).isSome

/-- The `critical_patterns` list of `_calculate_severity`. -/
def criticalPatterns : List (RE × ℚ) := [
  (.alts [.str "fatal", .str "crash", .str "panic", .str "critical"], 0.3),
  (.alts [.str "data loss", .str "corruption", .str "security breach"], 0.4),
  (.alts [.str "out of memory", .str "heap overflow", .str "stack overflow"], 0.3),
  (.alts [.str "authentication failed", .str "unauthorized", .str "forbidden"], 0.25)]

/-- The `high_patterns` list of `_calculate_severity`. -/
def highPatterns : List (RE × ℚ) := [
  (.alts [.str "error", .str "exception", .str "failure"], 0.2),
  (.alts [.str "cannot", .str "unable", .str "failed to"], 0.15),
  (.alts [.str "undefined", .str "null reference", .str "type error"], 0.15),
  (.alts [.str "timeout", .str "connection refused", .str "network error"], 0.15)]

/-- Embeds `AdvancedErrorDetector._calculate_severity`. -/
def calcSeverity (text : List Char) (category : ErrorCategory) (confidence : ℚ) : String :=
  let lower := text.map Char.toLower
  let s1 := criticalPatterns.foldl
    (fun acc pw => if sevHit pw.1 lower then acc + pw.2 else acc) confidence
  let s2 := highPatterns.foldl
    (fun acc pw => if sevHit pw.1 lower then acc + pw.2 * 0.7 else acc) s1
  let s3 :=
    if category = .memory ∨ category = .security then s2 + 0.2
    else if category = .build ∨ category = .docker then s2 + 0.15
    else if category = .database ∨ category = .network then s2 + 0.1
    else s2
  if 0.8 ≤ s3 then "critical"
  else if 0.6 ≤ s3 then "high"
  else if 0.4 ≤ s3 then "medium"
  else "low"

/-- Per-category accumulator of `detect_multi_label`: the `score`, `matches`
and `info` slots of the `category_scores` defaultdict entry. -/
structure CatData where
  score : ℚ
  matchList : List PyFound
  info : List (String × List String)
  deriving Repr, DecidableEq

/-- Append values under a key of an insertion-ordered string-keyed dict (the
`info[group_name]` create-then-extend of `detect_multi_label`). -/
def infoAppend (info : List (String × List String)) (key : String) (vals : List String) :
    List (String × List String) :=
  match info with
  | [] => [(key, vals)]
  | (k, v) :: rest =>
    if k = key then (k, v ++ vals) :: rest else (k, v) :: infoAppend rest key vals

/-- The `matches` list the source computes for one pattern: `findall` when the
pattern declares capture names, else (or when empty) the single `search`
match. -/
def patternMatches (p : ErrorPattern) (text : List Char) : List PyFound :=
  let ms := if p.extractGroups ≠ [] then p.findall text else []
  if ms = [] then
    match p.search text with
    | some md => [.mobj md.full]
    | none => []
  else ms

/-- The named-group extraction step of `detect_multi_label`: for each capture
name in order, when the first match is a tuple wide enough, extend the info
entry with that component of every tuple match. -/
def updateInfo (p : ErrorPattern) (ms : List PyFound) (info : List (String × List String)) :
    List (String × List String) :=
  if p.extractGroups ≠ [] ∧ ms ≠ [] then
    p.extractGroups.enum.foldl
      (fun info ig =>
        match ms.head? with
        | some (.tup gs) =>
          if ig.1 < gs.length then
            infoAppend info ig.2
              (ms.filterMap fun m => match m with | .tup t => some (t.getD ig.1 "") | _ => none)
          else info
        | _ => info)
      info
  else info

/-- Find-or-create-then-update on the insertion-ordered `category_scores`
dict (`defaultdict` semantics: a fresh zero entry is appended on first
access). -/
def upsertCat (acc : List (ErrorCategory × CatData)) (cat : ErrorCategory)
    (f : CatData → CatData) : List (ErrorCategory × CatData) :=
  match acc with
  | [] => [(cat, f ⟨0, [], []⟩)]
  | (c, d) :: rest =>
    if c = cat then (c, f d) :: rest else (c, d) :: upsertCat rest cat f

/-- One iteration of the scoring loop of `detect_multi_label`. -/
def accumPattern (text : List Char) (acc : List (ErrorCategory × CatData))
    (p : ErrorPattern) : List (ErrorCategory × CatData) :=
  let ms := patternMatches p text
  if ms = [] then acc
  else
    upsertCat acc p.category fun d =>
      ⟨d.score + p.weight * ms.length, d.matchList ++ ms, updateInfo p ms d.info⟩

/-- Stable descending insertion by confidence: the new element goes before
the first element of confidence not above its own.  Any stable sort computes
the list `list.sort(key=..., reverse=True)` produces, since a stable sort is
determined by the (key, original position) lexicographic order. -/
def insertDesc (m : ErrorMatch) : List ErrorMatch → List ErrorMatch
  | [] => [m]
  | x :: xs => if m.confidence < x.confidence then x :: insertDesc m xs else m :: x :: xs

/-- Stable sort by descending confidence, embedding
`results.sort(key=lambda x: x.confidence, reverse=True)`. -/
def sortByConfDesc : List ErrorMatch → List ErrorMatch
  | [] => []
  | x :: xs => insertDesc x (sortByConfDesc xs)

/-- Embeds `AdvancedErrorDetector.detect_multi_label` over a pattern list
(the source's `self.patterns`).  The result cache is semantically transparent
(it stores only results this same computation produced) and the ML-classifier
hook is `None` in the source, so both are elided. -/
def detectML (patterns : List ErrorPattern) (errorText : String) (threshold : ℚ) :
    List ErrorMatch :=
  if errorText = "" then []
  else
    let text := errorText.data
    let scores := patterns.foldl (accumPattern text) []
    let total := (scores.map fun cd => cd.2.score).sum
    let results :=
      if 0 < total then
        scores.filterMap fun cd =>
          let conf := cd.2.score / total
          if threshold ≤ conf then
            some ⟨cd.1, conf, cd.2.matchList, cd.2.info, calcSeverity errorText.data cd.1 conf⟩
          else none
      else []
    sortByConfDesc results

/-- The default `confidence_threshold` of `detect_multi_label`. -/
def defaultThreshold : ℚ := 0.3

/-- `detect_multi_label` of a detector built with the default catalog. -/
def detectMultiLabel (errorText : String) (threshold : ℚ) : List ErrorMatch :=
  detectML initPatterns errorText threshold

/-! The structural extractors of `AdvancedErrorDetector`. Python `set`s are
modelled as first-seen-ordered duplicate-free lists; the theorems below rely
only on membership. -/

/-- Deduplication helper carrying the set of already-seen elements. -/
def dedupFirstAux {α : Type} [DecidableEq α] (seen : List α) : List α → List α
  | [] => []
  | x :: xs =>
    if x ∈ seen then dedupFirstAux seen xs else x :: dedupFirstAux (seen ++ [x]) xs

/-- Deduplicate keeping first occurrences, as `list(dict.fromkeys(...))` and
as the de-duplication implicit in a Python `set`. -/
def dedupFirst {α : Type} [DecidableEq α] (l : List α) : List α :=
  dedupFirstAux [] l

/-- Case-insensitive prefix test (character-wise `toLower` equality, the way
`re.IGNORECASE` compares literal characters). -/
def ciPre (pat s : List Char) : Bool :=
  match pat, s with
  | [], _ => true
  | _ :: _, [] => false
  | p :: ps, c :: cs => (c.toLower = p.toLower) && ciPre ps cs

/-- Case-insensitive suffix test. -/
def ciSuffix (pat s : List Char) : Bool :=
  decide (pat.length ≤ s.length) && ciPre pat (s.drop (s.length - pat.length))

/-- Direct matcher for the regex `File\s+"([^"]+\.py)"` (with
`re.IGNORECASE`) at the start of `s`: literal `File`, then a maximal
non-empty whitespace run that must be followed by a double quote, then the
group `[^"]+\.py` — which, because `[^"]` cannot cross a quote and the
closing `"` must follow the group, is exactly the text up to the next quote,
required non-empty before a case-insensitive `.py` suffix.  Returns the
captured group and the number of characters consumed. -/
def tryPyFile (s : List Char) : Option (String × Nat) :=
  if ciPre "File".data s then
    let rest := s.drop 4
    let w := (rest.takeWhile Char.isWhitespace).length
    if 0 < w then
      match rest.drop w with
      | c :: rest2 =>
        if c = dqc then
          let seg := rest2.takeWhile fun d => d ≠ dqc
          match rest2.drop seg.length with
          | q :: _ =>
            if q = dqc && decide (4 ≤ seg.length) && ciSuffix ".py".data seg then
              some (String.mk seg, 4 + w + 1 + seg.length + 1)
            else none
          | [] => none
        else none
      | [] => none
    else none
  else none

/-- Fuelled scan loop for `pyFileScan` (the fuel counts scan steps; each step
consumes at least one character, so `s.length + 1` is always enough). -/
def pyFileScanAux : Nat → List Char → List String
  | 0, _ => []
  | _, [] => []
  | fuel + 1, c :: rest =>
    match tryPyFile (c :: rest) with
    | some gn => gn.1 :: pyFileScanAux fuel ((c :: rest).drop gn.2)
    | none => pyFileScanAux fuel rest

/-- `re.findall` of `File\s+"([^"]+\.py)"`: scan left to right, emitting each
match's group and resuming after it. -/
def pyFileScan (s : List Char) : List String :=
  pyFileScanAux (s.length + 1) s

/-- Direct matcher for the regex `line\s+(\d+)` (with `re.IGNORECASE`) at the
start of `s`: literal `line`, a maximal non-empty whitespace run, then the
maximal non-empty digit run as the group. -/
def tryLineNum (s : List Char) : Option (String × Nat) :=
  if ciPre "line".data s then
    let rest := s.drop 4
    let w := (rest.takeWhile Char.isWhitespace).length
    if 0 < w then
      let ds := (rest.drop w).takeWhile Char.isDigit
      if 0 < ds.length then some (String.mk ds, 4 + w + ds.length) else none
    else none
  else none

/-- Fuelled scan loop for `lineNumScan`. -/
def lineNumScanAux : Nat → List Char → List String
  | 0, _ => []
  | _, [] => []
  | fuel + 1, c :: rest =>
    match tryLineNum (c :: rest) with
    | some gn => gn.1 :: lineNumScanAux fuel ((c :: rest).drop gn.2)
    | none => lineNumScanAux fuel rest

/-- `re.findall` of `line\s+(\d+)`. -/
def lineNumScan (s : List Char) : List String :=
  lineNumScanAux (s.length + 1) s

/-- The source-file extension alternation shared by the path regexes of
`_extract_files_advanced`. -/
def extAlts : RE :=
  .alts [.str "ts", .str "tsx", .str "js", .str "jsx", .str "py", .str "java",
    .str "cpp", .str "c", .str "h", .str "rs", .str "go", .str "rb", .str "php",
    .str "swift", .str "kt", .str "scala", .str "r", .str "m", .str "mm", .str "vue",
    .str "svelte", .str "astro"]

/-- The class `[\w\-\.]`. -/
def fnCls : RE := .cls false [.word, .ch '-', .ch '.']

/-- The class `[/\\]`. -/
def slashCls : RE := .cls false [.ch '/', .ch (Char.ofNat 92)]

/-- The first five path regexes of `_extract_files_advanced` (the sixth,
the Python-traceback one, is `pyFileScan` above). All are applied with
`re.MULTILINE | re.IGNORECASE`. -/
def filePatterns : List RE := [
  -- standard file paths
  .cat [.alts [.str "File", .str "at", .str "from", .str "in"], wsStar,
    .opt false (.cls false [.ch dqc, .ch sqc]),
    .grp 0 (.cat [.plus false (.cls true [.space, .ch dqc, .ch sqc]), .lit '.', extAlts]),
    .opt false (.cls false [.ch dqc, .ch sqc])],
  -- absolute paths
  .grp 0 (.cat [slashCls, .star false (.cat [.plus false fnCls, slashCls]),
    .plus false fnCls, .lit '.', extAlts]),
  -- relative paths
  .grp 0 (.cat [.star false (.cat [.lit '.', .opt false (.lit '.'), slashCls]),
    .star false (.cat [.plus false fnCls, slashCls]), .plus false fnCls, .lit '.', extAlts]),
  -- Windows paths
  .grp 0 (.cat [.cls false [.range (Char.ofNat 65) (Char.ofNat 90),
      .range (Char.ofNat 97) (Char.ofNat 122)], .lit ':', .lit (Char.ofNat 92),
    .star false (.cat [.plus false fnCls, .lit (Char.ofNat 92)]), .plus false fnCls,
    .lit '.', extAlts]),
  -- stack-trace specific
  .cat [.bol, wsStar, .str "at", wsPlus, anyLazyStar, .lit '(',
    .grp 0 (.cat [.plus false (.cls true [.ch ':', .ch ')']), .lit '.',
      .alts [.str "ts", .str "tsx", .str "js", .str "jsx"]]),
    .lit ':', .grp 1 dPlus, .lit ':', .grp 2 dPlus, .lit ')']]

/-- First component of a `findall` element, as the source's
`match[0] if isinstance(match, tuple) else match`. -/
def foundFirst (f : PyFound) : String :=
  match f with
  | .str s => s
  | .tup gs => gs.getD 0 ""
  | .mobj s => s

/-- Embeds `AdvancedErrorDetector._extract_files_advanced`. -/
def extractFilesAdvanced (text : List Char) : List String :=
  let raw :=
    (filePatterns.flatMap fun rx => (reFindAll ⟨true, false⟩ rx text).map foundFirst) ++
      pyFileScan text
  (dedupFirst raw).filter fun f => decide (3 < f.length) && !f.startsWith "..."

/-- The remaining five regexes of `_extract_line_numbers_advanced` (the
first, `line\s+(\d+)`, is `lineNumScan` above). Applied with
`re.IGNORECASE`. -/
def lineNumPatterns : List RE := [
  .cat [.lit ':', .grp 0 dPlus, .lit ':', .opt false dPlus],
  .cat [.str "at", wsPlus, .str "line", wsPlus, .grp 0 dPlus],
  .cat [.str "on", wsPlus, .str "line", wsPlus, .grp 0 dPlus],
  .cat [.lit '[', .grp 0 dPlus, .lit ',', wsStar, dPlus, .lit ']'],
  .cat [.lit 'L', .grp 0 dPlus]]

/-- Embeds `AdvancedErrorDetector._extract_line_numbers_advanced`: collect
digit captures, keep those `int()`-parseable into the open range
(0, 100000). -/
def extractLineNumbersAdvanced (text : List Char) : List Nat :=
  let raw :=
    lineNumScan text ++
      lineNumPatterns.flatMap fun rx => (reFindAll ⟨true, false⟩ rx text).map foundFirst
  dedupFirst (raw.filterMap fun s =>
    match s.toNat? with
    | some n => if 0 < n ∧ n < 100000 then some n else none
    | none => none)

/-- The six regexes of `_extract_functions`, applied with `re.MULTILINE`
only (no `re.IGNORECASE`). -/
def functionPatterns : List RE := [
  .cat [.str "at", wsPlus, .grp 0 (.cat [wPlus, .star false (.cat [.lit '.', wPlus])]),
    wsStar, .lit '('],
  .cat [.str "in", wsPlus, .grp 0 wPlus, wsStar, .lit nlc],
  .cat [.str "File", wsPlus, .lit dqc, .plus false (.cls true [.ch dqc]), .lit dqc,
    .lit ',', wsPlus, .str "line", wsPlus, dPlus, .lit ',', wsPlus, .str "in", wsPlus,
    .grp 0 wPlus],
  .cat [.grp 0 (.cat [wPlus, .star false (.cat [.lit '.', wPlus])]), wsStar, .lit '(',
    .star false (.cls true [.ch ')']), .lit ')', wsStar, .str "at"],
  .cat [.str "function", wsPlus, .grp 0 wPlus],
  .cat [.str "def", wsPlus, .grp 0 wPlus]]

/-- Embeds `AdvancedErrorDetector._extract_functions`: union of captures,
keeping only names of length greater than one. -/
def extractFunctions (text : List Char) : List String :=
  dedupFirst (functionPatterns.flatMap fun rx =>
    (((reFindAll ⟨false, false⟩ rx text).map foundFirst).filter fun m =>
      decide (m ≠ "") && decide (1 < m.length)))

/-- The class of a single or double quote. -/
def q2 : RE := .cls false [.ch sqc, .ch dqc]

/-- The six regexes of `_extract_variables`, applied with `re.IGNORECASE`. -/
def variablePatterns : List RE := [
  .cat [q2, .grp 0 wPlus, q2, .str " is not defined"],
  .cat [.str "Cannot read ", .alt (.str "property") (.str "prop"), .str " ", q2,
    .grp 0 wPlus, q2],
  .cat [.str "Cannot access ", q2, .grp 0 wPlus, q2, .str " before initialization"],
  .cat [.str "Property ", q2, .grp 0 wPlus, q2, .str " does not exist"],
  .cat [.str "undefined variable ", q2, .grp 0 wPlus, q2],
  .cat [.str "name ", q2, .grp 0 wPlus, q2, .str " is not defined"]]

/-- Python's `str.isidentifier` over the ASCII alphabet. -/
def pyIsIdent (s : String) : Bool :=
  match s.data with
  | [] => false
  | c :: cs =>
    (c.isAlpha || c = Char.ofNat 95) &&
      cs.all fun d => d.isAlphanum || d = Char.ofNat 95

/-- Embeds `AdvancedErrorDetector._extract_variables`. -/
def extractVariables (text : List Char) : List String :=
  dedupFirst (variablePatterns.flatMap fun rx =>
    (((reFindAll ⟨true, false⟩ rx text).map foundFirst).filter fun m =>
      decide (m ≠ "") && pyIsIdent m))

/-- Embeds `AdvancedErrorDetector._extract_urls` (the URL regex plus the API
endpoint regexes, no flags). -/
def extractUrls (text : List Char) : List String :=
  let urlRx : RE := .cat [.str "http", .opt false (.lit 's'), .str "://",
    .plus false (.cls true [.space, .ch sqc, .ch dqc, .ch '<', .ch '>'])]
  let apiRxs : List RE := [
    .cat [.str "/api/", .plus false (.cls false [.word, .ch '/'])],
    .cat [.str "/v", dPlus, .lit '/', .plus false (.cls false [.word, .ch '/'])],
    .cat [.str "localhost:", dPlus, .star false (.cls false [.word, .ch '/'])]]
  dedupFirst ((urlRx :: apiRxs).flatMap fun rx =>
    (reFindAll ⟨false, false⟩ rx text).map foundFirst)

/-- A Python-traceback frame as built by `_extract_stack_traces`. -/
structure PyFrame where
  file : String
  line : Nat
  function : String
  code : String
  deriving Repr, DecidableEq

/-- A JavaScript stack frame as built by `_extract_stack_traces`. -/
structure JsFrame where
  function : String
  file : String
  line : Nat
  column : Nat
  deriving Repr, DecidableEq

/-- One structured stack trace (the source's per-trace dict, tagged by its
`type` entry). -/
inductive StackTrace where
  | python (frames : List PyFrame) (raw : String)
  | javascript (frames : List JsFrame) (raw : String)
  deriving Repr, DecidableEq

/-- `int()` on a `\d+` capture: always a digit string, so the conversion
cannot fail; modelled totally. -/
def parseNatD (s : String) : Nat :=
  s.toNat?.getD 0

/-- Embeds `AdvancedErrorDetector._extract_stack_traces`. -/
def extractStackTraces (text : List Char) : List StackTrace :=
  -- Python tracebacks: r"Traceback \(most recent call last\):(.*?)(?=\n(?:[A-Z]\w+Error:|Traceback|$))" (DOTALL)
  let pyRx : RE := .cat [.str "Traceback (most recent call last):", .grp 0 anyLazyStar,
    .look (.cat [.lit nlc,
      .alts [.cat [.cls false [.range (Char.ofNat 65) (Char.ofNat 90)], wPlus, .str "Error:"],
        .str "Traceback", .eolS]])]
  -- frame: File "f", line N, in g then the code line
  let pyFrameRx : RE := .cat [.str "File", wsPlus, .lit dqc,
    .grp 0 (.plus false (.cls true [.ch dqc])), .lit dqc, .lit ',', wsPlus, .str "line",
    wsPlus, .grp 1 dPlus, .lit ',', wsPlus, .str "in", wsPlus, .grp 2 wPlus, .lit nlc,
    wsStar, .grp 3 anyPlus]
  let pyTraces := (reFindIter ⟨false, true⟩ pyRx text).filterMap fun x =>
    let traceText := (x.2.2.groups.getD 0 "").trim
    let frames := (reFindIter ⟨false, false⟩ pyFrameRx traceText.data).map fun f =>
      let gs := f.2.2.groups
      PyFrame.mk (gs.getD 0 "") (parseNatD (gs.getD 1 "")) (gs.getD 2 "")
        (gs.getD 3 "").trim
    if frames ≠ [] then some (StackTrace.python frames traceText) else none
  -- JavaScript: r"(?:Error:|TypeError:|ReferenceError:).*?\n((?:\s*at\s+.*\n)+)" (MULTILINE)
  let jsRx : RE := .cat [.alts [.str "Error:", .str "TypeError:", .str "ReferenceError:"],
    anyLazyStar, .lit nlc,
    .grp 0 (.plus false (.cat [wsStar, .str "at", wsPlus, .star false .dot, .lit nlc]))]
  let jsFrameRx : RE := .cat [.str "at", wsPlus,
    .opt false (.cat [.grp 0 (.cat [wPlus, .star false (.cat [.lit '.', wPlus])]), wsPlus,
      .lit '(']),
    .grp 1 (.plus false (.cls true [.ch ':', .ch ')'])), .lit ':', .grp 2 dPlus, .lit ':',
    .grp 3 dPlus, .opt false (.lit ')')]
  let jsTraces := (reFindIter ⟨false, false⟩ jsRx text).filterMap fun x =>
    let traceText := x.2.2.groups.getD 0 ""
    let frames := (reFindIter ⟨false, false⟩ jsFrameRx traceText.data).map fun f =>
      let gs := f.2.2.groups
      JsFrame.mk (if gs.getD 0 "" = "" then "<anonymous>" else gs.getD 0 "")
        (gs.getD 1 "") (parseNatD (gs.getD 2 "")) (parseNatD (gs.getD 3 ""))
    if frames ≠ [] then some (StackTrace.javascript frames traceText) else none
  pyTraces ++ jsTraces

/-- Embeds `AdvancedErrorDetector._extract_error_codes_advanced`. -/
def extractErrorCodesAdvanced (text : List Char) : List String :=
  let tsRx : RE := .cat [.str "TS", .grp 0 (.repN 4 rd)]
  let httpRx : RE := .cat [.alt (.str "status") (.str "code"), .lit ':', wsStar,
    .grp 0 (.repN 3 rd)]
  let sysRx : RE := .cat [.alt (.str "errno") (.str "code"), .lit ':', wsStar,
    .grp 0 (.plus false (.cls false [.range (Char.ofNat 65) (Char.ofNat 90), .ch '_']))]
  let sqlRx : RE := .cat [.str "SQLSTATE[", .grp 0 wPlus, .lit ']']
  let customRx : RE := .cat [.alt (.str "ERROR") (.str "ERR"),
    .cls false [.ch '_', .ch '-'], .grp 0 wPlus]
  dedupFirst (
    ((reFindAll ⟨false, false⟩ tsRx text).map foundFirst) ++
    ((reFindAll ⟨true, false⟩ httpRx text).map foundFirst) ++
    ((reFindAll ⟨false, false⟩ sysRx text).map foundFirst) ++
    ((reFindAll ⟨false, false⟩ sqlRx text).map foundFirst) ++
    ((reFindAll ⟨false, false⟩ customRx text).map foundFirst))

/-- Embeds `AdvancedErrorDetector._extract_timestamps` (no flags). -/
def extractTimestamps (text : List Char) : List String :=
  let rxs : List RE := [
    .cat [.repN 4 rd, .lit '-', .repN 2 rd, .lit '-', .repN 2 rd,
      .cls false [.ch 'T', .space], .repN 2 rd, .lit ':', .repN 2 rd, .lit ':', .repN 2 rd],
    .cat [.repN 2 rd, .lit '/', .repN 2 rd, .lit '/', .repN 4 rd, wsPlus,
      .repN 2 rd, .lit ':', .repN 2 rd, .lit ':', .repN 2 rd],
    .cat [.lit '[', .repN 2 rd, .lit ':', .repN 2 rd, .lit ':', .repN 2 rd, .lit ']']]
  dedupFirst (rxs.flatMap fun rx => (reFindAll ⟨false, false⟩ rx text).map foundFirst)

/-- The environment-information record of `_extract_environment_info`. -/
structure EnvInfo where
  nodeVersion : Option String
  pythonVersion : Option String
  os : Option String
  envVariables : Option (List String)
  deriving Repr, DecidableEq

/-- Embeds `AdvancedErrorDetector._extract_environment_info`. -/
def extractEnvironmentInfo (text : List Char) : EnvInfo :=
  let verCls : RE := .plus false (.cls false [.digit, .ch '.'])
  let nodeRx : RE := .cat [.str "node", .plus false (.cls false [.ch ':', .space]),
    .opt false (.lit 'v'), .grp 0 verCls]
  let pyRx : RE := .cat [.str "python", .plus false (.cls false [.ch ':', .space]),
    .opt false (.lit 'v'), .grp 0 verCls]
  let osPats : List (RE × String) := [
    (.alts [.str "darwin", .str "macos", .str "mac os"], "macos"),
    (.alts [.str "windows", .str "win32", .str "win64"], "windows"),
    (.alts [.str "linux", .str "ubuntu", .str "debian", .str "centos", .str "fedora"],
      "linux")]
  let envVarRx : RE := .cat [.alts [.str "process.env.", .str "ENV[", .str "os.environ["],
    q2, .grp 0 wPlus, q2]
  let envVars := (reFindAll ⟨false, false⟩ envVarRx text).map foundFirst
  { nodeVersion := (reSearch ⟨true, false⟩ nodeRx text).map fun x => x.2.2.groups.getD 0 ""
    pythonVersion := (reSearch ⟨true, false⟩ pyRx text).map fun x => x.2.2.groups.getD 0 ""
    os := (osPats.find? fun p => (reSearch ⟨true, false⟩ p.1 text).isSome).map fun p => p.2
    envVariables := if envVars ≠ [] then some (dedupFirst envVars) else none }

/-- Embeds `AdvancedErrorDetector._generate_suggestions`.  The
`match.extracted_info["error_code"][0]` subscript is a raising site, modelled
in `Except`. -/
def genSuggestions (errorMatches : List ErrorMatch) : Except String (List String) := do
  let mut suggestions : List String := []
  for m in errorMatches.take 3 do
    match m.category with
    | .typescript =>
      match m.extractedInfo.lookup "error_code" with
      | some codes =>
        match codes.head? with
        | some code =>
          suggestions := suggestions ++
            ["Check TypeScript error TS" ++ code ++ " documentation"]
        | none => throw "IndexError: list index out of range"
      | none => pure ()
    | .memory =>
      suggestions := suggestions ++
        ["Increase heap size with --max-old-space-size",
         "Check for memory leaks and infinite loops",
         "Profile memory usage with debugging tools"]
    | .network =>
      suggestions := suggestions ++
        ["Check network connectivity and firewall settings",
         "Verify API endpoints and CORS configuration",
         "Review timeout settings and retry logic"]
    | .database =>
      suggestions := suggestions ++
        ["Check database connection string",
         "Verify database permissions and credentials",
         "Review SQL queries for syntax errors"]
    | _ => pure ()
  return (dedupFirst suggestions).take 5

/-- The aggregate dictionary built by `extract_comprehensive_info`: the
twelve fixed keys, plus `extra` for the dynamically merged per-pattern
capture keys. -/
structure ExtractedInfo where
  errorCategories : List (String × ℚ)
  severity : String
  files : List String
  lineNumbers : List Nat
  functions : List String
  varNames : List String
  urls : List String
  stackTraces : List StackTrace
  errorCodes : List String
  timestamps : List String
  environment : EnvInfo
  suggestions : List String
  extra : List (String × List String)
  deriving Repr, DecidableEq

/-- The fixed key names of the `info` dict of `extract_comprehensive_info`. -/
def fixedInfoKeys : List String :=
  ["error_categories", "severity", "files", "line_numbers", "functions", "variables",
   "urls", "stack_traces", "error_codes", "timestamps", "environment", "suggestions"]

/-- The `key not in info`-guarded create-then-extend of
`extract_comprehensive_info`'s merge loop.  For the shipped catalog no
capture-group name collides with a fixed key, so the colliding branch (where
Python would extend the heterogeneous fixed list) is unreachable and modelled
as the identity. -/
def mergeInfoKey (info : ExtractedInfo) (key : String) (vals : List String) :
    ExtractedInfo :=
  if key ∈ fixedInfoKeys then info
  else { info with extra := infoAppend info.extra key vals }

/-- `list(dict.fromkeys(...))` on the `stack_traces` list: its elements are
dicts, which are unhashable, so any non-empty list raises `TypeError` — the
empty list alone survives. -/
def dedupStackTracesPy (l : List StackTrace) : Except String (List StackTrace) :=
  match l with
  | [] => .ok []
  | _ => .error "TypeError: unhashable type: dict"

/-- Embeds `AdvancedErrorDetector.extract_comprehensive_info`: classify,
run every structural extractor, merge the per-pattern captures, then
de-duplicate every list entry of the dict (which raises on a non-empty
`stack_traces` list). -/
def extractComprehensiveInfo (errorText : String) : Except String ExtractedInfo := do
  let text := errorText.data
  let errorMatches := detectMultiLabel errorText defaultThreshold
  let sugg ← genSuggestions errorMatches
  let info : ExtractedInfo := {
    errorCategories := errorMatches.map fun m => (m.category.value, m.confidence)
    severity := match errorMatches with | [] => "unknown" | m :: _ => m.severity
    files := extractFilesAdvanced text
    lineNumbers := extractLineNumbersAdvanced text
    functions := extractFunctions text
    varNames := extractVariables text
    urls := extractUrls text
    stackTraces := extractStackTraces text
    errorCodes := extractErrorCodesAdvanced text
    timestamps := extractTimestamps text
    environment := extractEnvironmentInfo text
    suggestions := sugg
    extra := [] }
  let info := errorMatches.foldl
    (fun acc m => m.extractedInfo.foldl (fun acc kv => mergeInfoKey acc kv.1 kv.2) acc)
    info
  -- the final de-duplication pass over every list-valued dict entry
  let dedupedTraces ← dedupStackTracesPy info.stackTraces
  return { info with
    errorCategories := dedupFirst info.errorCategories
    files := dedupFirst info.files
    lineNumbers := dedupFirst info.lineNumbers
    functions := dedupFirst info.functions
    varNames := dedupFirst info.varNames
    urls := dedupFirst info.urls
    stackTraces := dedupedTraces
    errorCodes := dedupFirst info.errorCodes
    timestamps := dedupFirst info.timestamps
    suggestions := dedupFirst info.suggestions
    extra := info.extra.map fun kv => (kv.1, dedupFirst kv.2) }

/-! Streaming detection (`stream_detect`) and its merge step
(`_merge_matches`). -/

/-- Severity rank by position in `["low", "medium", "high", "critical"]`,
the `.index(s)` key function of `_merge_matches` (a `.index` on a string
outside the list would raise `ValueError`; the detector only produces these
four, so this is modelled totally via `indexOf`). -/
def sevRank (s : String) : Nat :=
  (["low", "medium", "high", "critical"]).indexOf s

/-- Python `max(..., key=k)`: the first element attaining the maximal key. -/
def pyMaxBy {α : Type} (key : α → Nat) : List α → Option α
  | [] => none
  | x :: xs => some (xs.foldl (fun acc y => if key acc < key y then y else acc) x)

/-- Group an element under its category in an insertion-ordered dict of
lists (`defaultdict(list)` append). -/
def groupAppend (acc : List (ErrorCategory × List ErrorMatch)) (m : ErrorMatch) :
    List (ErrorCategory × List ErrorMatch) :=
  match acc with
  | [] => [(m.category, [m])]
  | (c, l) :: rest =>
    if c = m.category then (c, l ++ [m]) :: rest else (c, l) :: groupAppend rest m

/-- The per-category merge step of `AdvancedErrorDetector._merge_matches`
(the body of its `for category, matches in grouped.items()` loop): mean
confidence, first maximal severity, de-duplicated concatenation of the
extracted infos and an empty raw-match list; `None` on an empty group
(`grouped` never stores one). -/
def mergeOne (cm : ErrorCategory × List ErrorMatch) : Option ErrorMatch :=
  match cm.2 with
  | [] => none
  | catMs =>
    let avg := (catMs.map fun m => m.confidence).sum / (catMs.length : ℚ)
    let mergedInfo := catMs.foldl
      (fun mi m => m.extractedInfo.foldl (fun mi kv => infoAppend mi kv.1 kv.2) mi) []
    let mergedInfo := mergedInfo.map fun kv => (kv.1, dedupFirst kv.2)
    match pyMaxBy sevRank (catMs.map fun m => m.severity) with
    | some sev => some (ErrorMatch.mk cm.1 avg [] mergedInfo sev)
    | none => none

/-- Embeds `AdvancedErrorDetector._merge_matches`: group by category in
first-seen order, merge each group with `mergeOne`, sort by descending
confidence. -/
def mergeMatches (ms : List ErrorMatch) : List ErrorMatch :=
  sortByConfDesc ((ms.foldl groupAppend []).filterMap mergeOne)

/-- Fuelled chunking loop (each step consumes at least one element when
`0 < n`, so `l.length + 1` steps always suffice). -/
def chunkedAux {α : Type} (n : Nat) : Nat → List α → List (List α)
  | 0, _ => []
  | _, [] => []
  | fuel + 1, a :: as => (a :: as).take n :: chunkedAux n fuel ((a :: as).drop n)

/-- Split a list into chunks of `n` (the successive `f.read(chunk_size)`
results; `read(0)` returns the empty string, ending the loop at once). -/
def chunked {α : Type} (l : List α) (n : Nat) : List (List α) :=
  if n = 0 then [] else chunkedAux n (l.length + 1) l

/-- Embeds `AdvancedErrorDetector.stream_detect`, with the file modelled by
its text content: detect on each chunk prefixed by the last `overlap = 1024`
characters of the previous chunk, then merge. -/
def streamDetect (content : String) (chunkSize : Nat) : List ErrorMatch :=
  let overlap := 1024
  let step := fun (acc : List ErrorMatch × List Char) (chunk : List Char) =>
    let combined := acc.2.drop (acc.2.length - overlap) ++ chunk
    (acc.1 ++ detectMultiLabel (String.mk combined) defaultThreshold, chunk)
  let allMatches := ((chunked content.data chunkSize).foldl step ([], [])).1
  mergeMatches allMatches

/-! The template system (`template_system.py`), embedded as explicit state
passing.  File contents are parameters where the source reads files; the
md5 content hash is modelled by an injective stand-in (the content itself). -/

/-- The template keys read by resolution and rendering; a key absent from
the parsed YAML dict is `none`. -/
structure TData where
  extendsKey : Option String
  includesKey : Option (List String)
  templateKey : Option String
  versionKey : Option String
  agentKey : Option String
  languageKey : Option String
  deriving Repr, DecidableEq

/-- Python truthiness of the template dict (`if not template_data`,
`if parent`): true when some modelled key is present. -/
def TData.truthy (d : TData) : Bool :=
  d.extendsKey.isSome || d.includesKey.isSome || d.templateKey.isSome ||
    d.versionKey.isSome || d.agentKey.isSome || d.languageKey.isSome

/-- `d.copy(); d.update(child)`: the child's keys override where present. -/
def TData.update (parent child : TData) : TData :=
  { extendsKey := child.extendsKey.orElse (fun _ => parent.extendsKey)
    includesKey := child.includesKey.orElse (fun _ => parent.includesKey)
    templateKey := child.templateKey.orElse (fun _ => parent.templateKey)
    versionKey := child.versionKey.orElse (fun _ => parent.versionKey)
    agentKey := child.agentKey.orElse (fun _ => parent.agentKey)
    languageKey := child.languageKey.orElse (fun _ => parent.languageKey) }

/-- A cached value of the single `TemplateCache` dict: resolved template
data under `resolved_`-prefixed keys, compiled templates under
`compiled_`-prefixed keys.  Compilation by the external Jinja2 engine is
modelled as carrying the template source string. -/
inductive CVal where
  | resolved (d : TData)
  | compiled (s : String)
  deriving Repr, DecidableEq

/-- One `TemplateCache` entry: `(data, timestamp, version)`. -/
structure CacheEntry where
  value : CVal
  timestamp : Nat
  version : String
  deriving Repr, DecidableEq

/-- Dict assignment: replace in place, or append a new key. -/
def assocSet {β : Type} (l : List (String × β)) (k : String) (v : β) :
    List (String × β) :=
  match l with
  | [] => [(k, v)]
  | (k0, v0) :: rest => if k0 = k then (k0, v) :: rest else (k0, v0) :: assocSet rest k v

/-- Set insertion on a list-modelled Python set. -/
def setAdd (l : List String) (x : String) : List String :=
  if x ∈ l then l else l ++ [x]

/-- The mutable state of an `AdvancedTemplateSystem`: cache dict with its
TTL, `templates`, `template_versions` and `dependencies`. -/
structure TSysState where
  cache : List (String × CacheEntry)
  ttl : Nat
  templates : List (String × TData)
  versions : List (String × String)
  deps : List (String × List String)
  deriving Repr, DecidableEq

/-- Embeds `TemplateCache.get`: the entry must exist, carry the requested
version, and be younger than the TTL. -/
def cacheGet (st : TSysState) (key version : String) (now : Nat) : Option CVal :=
  match st.cache.lookup key with
  | some e => if e.version = version ∧ now - e.timestamp < st.ttl then some e.value else none
  | none => none

/-- Embeds `TemplateCache.set`. -/
def cacheSet (cache : List (String × CacheEntry)) (key : String) (v : CVal)
    (version : String) (now : Nat) : List (String × CacheEntry) :=
  assocSet cache key ⟨v, now, version⟩

/-- Embeds `TemplateCache.invalidate` (`pop(key, None)`). -/
def cacheInvalidate (cache : List (String × CacheEntry)) (key : String) :
    List (String × CacheEntry) :=
  cache.filter fun e => e.1 ≠ key

/-- The md5 content hash of `_load_template`, modelled by an injective
stand-in: the content itself (hash collisions are out of model). -/
def contentHash (content : String) : String :=
  content

/-- Record one dependency edge (`self.dependencies[name].add(dep)`). -/
def depsAdd (deps : List (String × List String)) (name dep : String) :
    List (String × List String) :=
  assocSet deps name (setAdd ((deps.lookup name).getD []) dep)

/-- Embeds `AdvancedTemplateSystem._load_template`, with the parsed YAML
dict and the raw file content as parameters (the `user.` namespacing of
files under `.ccdebug` is applied by the caller through `name`). -/
def loadTemplate (st : TSysState) (name : String) (data : TData) (content : String) :
    TSysState :=
  let deps0 :=
    match data.extendsKey with
    | some p => depsAdd st.deps name p
    | none => st.deps
  let deps1 :=
    match data.includesKey with
    | some l => l.foldl (fun d i => depsAdd d name i) deps0
    | none => deps0
  { st with
    templates := assocSet st.templates name data
    versions := assocSet st.versions name (contentHash content)
    deps := deps1 }

/-- Embeds `AdvancedTemplateSystem._has_circular_dependency` (fuelled: the
source recursion is bounded by the visited set growing on every call). -/
def hasCircularDependency (fuel : Nat) (st : TSysState) (name : String)
    (visited : List String) : Bool :=
  match fuel with
  | 0 => false
  | fuel + 1 =>
    if name ∈ visited then true
    else
      ((st.deps.lookup name).getD []).any fun dep =>
        hasCircularDependency fuel st dep (name :: visited)

/-- Embeds `AdvancedTemplateSystem._resolve_dependencies`: flag each template
with a circular dependency, print the diagnostic (out of model) and clear its
dependency set. -/
def resolveDependencies (fuel : Nat) (st : TSysState) : TSysState :=
  st.templates.foldl
    (fun s nt =>
      if hasCircularDependency fuel s nt.1 [] then
        { s with deps := assocSet s.deps nt.1 [] }
      else s)
    st

/-- Embeds `AdvancedTemplateSystem._get_dependents` (fuelled; the source
recursion is unbounded on cyclic reverse edges). -/
def getDependents (fuel : Nat) (st : TSysState) (name : String) : List String :=
  match fuel with
  | 0 => []
  | fuel + 1 =>
    st.deps.foldl
      (fun acc nd =>
        if name ∈ nd.2 then
          (getDependents fuel st nd.1).foldl setAdd (setAdd acc nd.1)
        else acc)
      []

/-- Embeds `AdvancedTemplateSystem._resolve_template`.  `fuel` models the
recursion depth; `none` means the recursion exceeded every bound (Python
recurses until `RecursionError`).  The inner `Option TData` is the source's
`None` for an unknown template.  State is threaded for the cache writes; the
`for include_name in resolved['includes']` loop is the fold over `incs`. -/
def resolveTemplate : Nat → TSysState → Nat → String →
    Option (Option TData × TSysState)
  | 0, _, _, _ => none
  | fuel + 1, st, now, name =>
    let version := (st.versions.lookup name).getD ""
    match cacheGet st ("resolved_" ++ name) version now with
    | some (.resolved d) => some (some d, st)
    | some (.compiled _) => some (none, st)   -- unreachable: resolved_ keys hold resolved data
    | none =>
      match st.templates.lookup name with
      | none => some (none, st)
      | some t =>
        let afterParent :=
          match t.extendsKey with
          | some parentName =>
            (resolveTemplate fuel st now parentName).map
              fun pst : Option TData × TSysState =>
              match pst.1 with
              | some parent =>
                if parent.truthy then
                  let merged := TData.update parent t
                  let childTpl := "\n\x7b% extends \"" ++ parentName ++ "_base\" %\x7d\n" ++
                    t.templateKey.getD "" ++ "\n"
                  let merged :=
                    if parent.templateKey.isSome ∧ t.templateKey.isSome then
                      { merged with templateKey := some childTpl }
                    else merged
                  (merged, pst.2)
                else (t, pst.2)
              | none => (t, pst.2)
          | none => some (t, st)
        match afterParent with
        | none => none
        | some (resolved1, st1) =>
          let afterIncludes :=
            match resolved1.includesKey with
            | some incs =>
              incs.foldl
                (fun acc incName =>
                  match acc with
                  | none => none
                  | some (cs, s) =>
                    match resolveTemplate fuel s now incName with
                    | none => none
                    | some (d?, s1) =>
                      match d? with
                      | some d =>
                        if d.truthy ∧ d.templateKey.isSome then
                          some (cs ++ [d.templateKey.getD ""], s1)
                        else some (cs, s1)
                      | none => some (cs, s1))
                (some ([], st1))
            | none => some ([], st1)
          match afterIncludes with
          | none => none
          | some (contents, st2) =>
            let joined := String.intercalate "\n" contents ++ "\n" ++
              resolved1.templateKey.getD ""
            let resolved2 :=
              if resolved1.includesKey.isSome ∧ contents ≠ [] then
                { resolved1 with templateKey := some joined }
              else resolved1
            let newCache :=
              cacheSet st2.cache ("resolved_" ++ name) (.resolved resolved2) version now
            some (some resolved2, { st2 with cache := newCache })

/-- Embeds `AdvancedTemplateSystem.reload_template`: invalidate the bare
template name, reload the file, then invalidate every (bare) dependent
name. -/
def reloadTemplate (fuel : Nat) (st : TSysState) (name : String) (data : TData)
    (content : String) : TSysState :=
  let st1 := { st with cache := cacheInvalidate st.cache name }
  let st2 := loadTemplate st1 name data content
  (getDependents fuel st2 name).foldl
    (fun s dep =>
      if (s.templates.lookup dep).isSome then
        { s with cache := cacheInvalidate s.cache dep }
      else s)
    st2

/-- The empty template system state with the default TTL of 3600 seconds. -/
def emptyTSys : TSysState :=
  ⟨[], 3600, [], [], []⟩

/-- Embeds `reload_all_templates` over a list of (name, parsed data, raw
content) files: clear everything, load each file, then run the cycle
check. -/
def reloadAllTemplates (fuel : Nat) (files : List (String × TData × String)) : TSysState :=
  resolveDependencies fuel
    (files.foldl (fun s f => loadTemplate s f.1 f.2.1 f.2.2) emptyTSys)

/-- Embeds `AdvancedTemplateSystem.get_template`: compiled-cache lookup,
resolve, `TemplateNotFound` on falsy data (surfaced as `Except.error name`),
compile (modelled as the template string) and cache. -/
def getTemplate (fuel : Nat) (st : TSysState) (now : Nat) (name : String) :
    Option (Except String (String × TSysState)) :=
  let version := (st.versions.lookup name).getD ""
  match cacheGet st ("compiled_" ++ name) version now with
  | some (.compiled c) => some (.ok (c, st))
  | some (.resolved _) => some (.ok ("", st))   -- unreachable: compiled_ keys hold compiled units
  | none =>
    match resolveTemplate fuel st now name with
    | none => none
    | some (td?, st1) =>
      match td? with
      | none => some (.error name)
      | some td =>
        if td.truthy then
          let tstr := td.templateKey.getD ""
          let newCache := cacheSet st1.cache ("compiled_" ++ name) (.compiled tstr) version now
          some (.ok (tstr, { st1 with cache := newCache }))
        else some (.error name)

/-- The `_template` metadata block injected into the context by `render`. -/
structure TemplateMeta where
  name : String
  version : String
  agent : String
  language : String
  deriving Repr, DecidableEq

/-- A context value: a caller-provided string or the injected metadata
block. -/
inductive CtxVal where
  | str (s : String)
  | meta (m : TemplateMeta)
  deriving Repr, DecidableEq

/-- Embeds `AdvancedTemplateSystem.render`.  `jr` is the external Jinja2
engine's `template.render(**context)`, modelled as a function of the
compiled template and the context (its injected globals — among them the
wall-clock `now` — live inside `jr`).  The returned context is the caller's
dict after the source's `context['_template'] = {...}` assignment. -/
def render (fuel : Nat) (st : TSysState) (now : Nat)
    (jr : String → List (String × CtxVal) → String) (name : String)
    (ctx : List (String × CtxVal)) :
    Option (Except String (String × TSysState × List (String × CtxVal))) :=
  match getTemplate fuel st now name with
  | none => none
  | some (.error e) => some (.error e)
  | some (.ok (tpl, st1)) =>
    match resolveTemplate fuel st1 now name with
    | none => none
    | some (td?, st2) =>
      match td? with
      | none => some (.error "AttributeError")   -- `None.get` would raise
      | some td =>
        let meta := TemplateMeta.mk name (td.versionKey.getD "1.0.0")
          (td.agentKey.getD "general-purpose") (td.languageKey.getD "en")
        let ctx2 := assocSet ctx "_template" (.meta meta)
        some (.ok (jr tpl ctx2, st2, ctx2))

/-! Specification-side definitions and concrete scenario inputs used by the
claim theorems. -/

/-- Decidable equality on `Except`, for evaluating the error-propagation
claims. -/
instance {ε α : Type} [DecidableEq ε] [DecidableEq α] : DecidableEq (Except ε α) := fun
  | .ok a, .ok b => if h : a = b then isTrue (by rw [h]) else isFalse (by simp [h])
  | .error a, .error b => if h : a = b then isTrue (by rw [h]) else isFalse (by simp [h])
  | .ok _, .error _ => isFalse (by simp)
  | .error _, .ok _ => isFalse (by simp)

/-- Apostrophe as a one-character string. -/
def apos : String := String.singleton (Char.ofNat 39)

/-- The spec example input: a TS2322 assignability error line. -/
def tsInput : String :=
  "TS2322: Type " ++ apos ++ "string" ++ apos ++ " is not assignable to type " ++
    apos ++ "number" ++ apos ++ "."

/-- A minimal well-formed Python traceback (one frame plus error line). -/
def tbInput : String :=
  "Traceback (most recent call last):\n  File \"a.py\", line 1, in mm\n    x\nValueError: boom"

/-- The spec example substring for extraction. -/
def sub5 : String := "File \"x.py\", line 12, in f"

/-- Whether extraction returned normally. -/
def exOk : Except String ExtractedInfo → Bool
  | .ok _ => true
  | .error _ => false

/-- The empty environment record. -/
def emptyEnvInfo : EnvInfo := ⟨none, none, none, none⟩

/-- The all-empty extraction result. -/
def emptyExtractedInfo : ExtractedInfo :=
  ⟨[], "unknown", [], [], [], [], [], [], [], [], emptyEnvInfo, [], []⟩

/-- The returned extraction data (all-empty on the error branch). -/
def exInfo : Except String ExtractedInfo → ExtractedInfo
  | .ok i => i
  | .error _ => emptyExtractedInfo

/-- The multiset of (category, stored match item) pairs of a detection
result, the quantity the chunking-equivalence claim compares. -/
def matchPairs (ms : List ErrorMatch) : List (ErrorCategory × PyFound) :=
  ms.flatMap fun m => m.matchList.map fun f => (m.category, f)

/-- The accumulated weighted score of one category: the sum over the
catalog of `weight * len(matches)` of that category's patterns. -/
def catScore (patterns : List ErrorPattern) (text : List Char) (cat : ErrorCategory) : ℚ :=
  (patterns.map fun p =>
    if p.category = cat then p.weight * ((patternMatches p text).length : ℚ) else 0).sum

/-- The total accumulated score over all categories. -/
def totalScore (patterns : List ErrorPattern) (text : List Char) : ℚ :=
  (patterns.map fun p => p.weight * ((patternMatches p text).length : ℚ)).sum

/-- Index in the catalog of the first pattern of a category that matched the
text: the position that fixes the category's rank among equal confidences. -/
def firstHitIdx (patterns : List ErrorPattern) (text : List Char) (cat : ErrorCategory) :
    Nat :=
  patterns.findIdx fun p => p.category = cat && !(patternMatches p text).isEmpty

/-- Template data carrying only an `extends` key. -/
def tdOnlyExtends (p : String) : TData := ⟨some p, none, none, none, none, none⟩

/-- Template data carrying only a `template` body. -/
def tdOnlyTemplate (t : String) : TData := ⟨none, none, some t, none, none, none⟩

/-- The system state after loading two templates that `extends` each other
(the A extends B, B extends A cycle), including the load-time cycle check. -/
def cyclicAB : TSysState :=
  reloadAllTemplates 10
    [("a", tdOnlyExtends "b", "asrc"), ("b", tdOnlyExtends "a", "bsrc")]

/-- Cache-invalidation scenario, step 0: a base template with a body and a
child that extends it. -/
def c2St0 : TSysState :=
  reloadAllTemplates 10
    [("base", tdOnlyTemplate "BASE v1", "hash-b1"), ("child", tdOnlyExtends "base", "hash-c")]

/-- Step 1: the state after resolving the child once (resolved data now
cached). -/
def c2St1 : TSysState :=
  ((resolveTemplate 10 c2St0 0 "child").map fun x => x.2).getD emptyTSys

/-- Step 2: the state after reloading the base with a new body (new content
hash). -/
def c2St2 : TSysState :=
  reloadTemplate 10 c2St1 "base" (tdOnlyTemplate "BASE v2") "hash-b2"

/-- Render scenario: one template with a plain body. -/
def c9St : TSysState :=
  ⟨[], 3600, [("rep", tdOnlyTemplate "body")], [("rep", "h1")], []⟩

/-- A caller context that already binds the `_template` key. -/
def c9Ctx : List (String × CtxVal) := [("_template", .str "sentinel")]

/-- A concrete external renderer (returns the compiled template source). -/
def c9Jr : String → List (String × CtxVal) → String := fun tpl _ => tpl

/-- Success test for a `render` result. -/
def renderIsOk : Option (Except String (String × TSysState × List (String × CtxVal))) → Bool
  | some (.ok _) => true
  | _ => false

/-- The context a `render` result left behind (empty on failure). -/
def renderCtx : Option (Except String (String × TSysState × List (String × CtxVal))) →
    List (String × CtxVal)
  | some (.ok x) => x.2.2
  | _ => []

/-- The output text of a `render` result. -/
def renderOut : Option (Except String (String × TSysState × List (String × CtxVal))) →
    String
  | some (.ok x) => x.1
  | _ => ""

/-- Concrete merge input for the streaming-merge claim: two matches of one
category (with duplicated info values and distinct severities) and one of
another. -/
def c10In : List ErrorMatch :=
  [⟨.python, 1/2, [.str "x"], [("k", ["a", "a"])], "high"⟩,
   ⟨.python, 1/4, [], [("k", ["b", "a"])], "low"⟩,
   ⟨.build, 3/4, [], [], "medium"⟩]

/-- The per-category group of a match list: all its matches of one
category, in order. -/
def catGroup (ms : List ErrorMatch) (cat : ErrorCategory) : List ErrorMatch :=
  ms.filter fun x => decide (x.category = cat)

/-- Concatenation, in first-seen order, of every value list stored under key
`k` across a group of matches. -/
def concatInfo (g : List ErrorMatch) (k : String) : List String :=
  g.flatMap fun x => (x.extractedInfo.filter fun kv => decide (kv.1 = k)).flatMap
    fun kv => kv.2

/-- Whether any match of the group carries key `k` in its extracted info. -/
def infoKeyPresent (g : List ErrorMatch) (k : String) : Bool :=
  g.any fun x => x.extractedInfo.any fun kv => decide (kv.1 = k)

/-- The whitespace characters (exactly those `Char.isWhitespace` accepts). -/
def wsChars : List Char := [' ', Char.ofNat 9, Char.ofNat 13, Char.ofNat 10]

/-- Conservative test for whether a regex can match some all-whitespace
string: a necessary condition for the matcher to succeed anywhere inside
whitespace-only text (anchors and nullable constructs count as
satisfiable). -/
def canWS (fl : Flags) : RE → Bool
  | .eps => true
  | .lit c => wsChars.any (litAccepts fl c)
  | .cls neg items => wsChars.any (clsAccepts fl neg items)
  | .dot => true
  | .seq a b => canWS fl a && canWS fl b
  | .alt a b => canWS fl a || canWS fl b
  | .star _ _ => true
  | .plus _ a => canWS fl a
  | .opt _ _ => true
  | .grp _ a => canWS fl a
  | .bol => true
  | .eol => true
  | .eolS => true
  | .look a => canWS fl a

/-! Supporting lemmas. -/

/-- State components of the template system that resolution leaves intact:
everything except `resolved_`-prefixed cache entries. -/
def tsysInv (a b : TSysState) : Prop :=
  a.templates = b.templates ∧ a.versions = b.versions ∧ a.ttl = b.ttl ∧
  a.deps = b.deps ∧
  ∀ key : String, (∀ pre : String, key ≠ "resolved_" ++ pre) →
    a.cache.lookup key = b.cache.lookup key

/-- A whitespace character is one of the four `wsChars`. -/
theorem mem_wsChars_of_isWhitespace {c : Char} (h : c.isWhitespace = true) :
    c ∈ wsChars := by
  by_cases h1 : c = ' '
  · subst h1; decide
  by_cases h2 : c = Char.ofNat 9
  · subst h2; decide
  by_cases h3 : c = Char.ofNat 13
  · subst h3; decide
  by_cases h4 : c = Char.ofNat 10
  · subst h4; decide
  exfalso
  simp only [Char.isWhitespace, h1, decide_eq_true_eq, Bool.or_eq_true,
    decide_eq_true_eq, false_or] at h
  rcases h with (h | h) | h
  · exact h2 (by rw [h])
  · exact h3 (by rw [h])
  · exact h4 (by rw [h])

/-- Soundness of `canWS`: on whitespace-only text, a successful match of `r`
forces `canWS fl r`. -/
theorem mmatch_ws_sound {fl : Flags} {text : List Char}
    (hws : ∀ c ∈ text, c.isWhitespace) :
    ∀ fuel r pos caps, mmatch fl text fuel r pos caps ≠ [] → canWS fl r = true := by
  intro fuel
  induction fuel with
  | zero => intro r pos caps h; simp [mmatch] at h
  | succ n ih =>
    intro r pos caps h
    cases r with
    | eps => rfl
    | lit c =>
      simp only [mmatch] at h
      cases hg : text.get? pos with
      | none => rw [hg] at h; simp at h
      | some t =>
        rw [hg] at h
        by_cases ha : litAccepts fl c t = true
        · have ht := mem_wsChars_of_isWhitespace (hws t (List.get?_mem hg))
          simp only [canWS, List.any_eq_true]
          exact ⟨t, ht, ha⟩
        · simp [ha] at h
    | cls neg items =>
      simp only [mmatch] at h
      cases hg : text.get? pos with
      | none => rw [hg] at h; simp at h
      | some t =>
        rw [hg] at h
        by_cases ha : clsAccepts fl neg items t = true
        · have ht := mem_wsChars_of_isWhitespace (hws t (List.get?_mem hg))
          simp only [canWS, List.any_eq_true]
          exact ⟨t, ht, ha⟩
        · simp [ha] at h
    | dot => rfl
    | seq a b =>
      simp only [mmatch] at h
      have hl : mmatch fl text n a pos caps ≠ [] := by
        intro e
        exact h (by simp [e])
      have hx : ∃ x ∈ mmatch fl text n a pos caps, mmatch fl text n b x.1 x.2 ≠ [] := by
        by_contra hc
        push_neg at hc
        exact h (List.bind_eq_nil.mpr hc)
      obtain ⟨x, -, hfx⟩ := hx
      simp only [canWS, Bool.and_eq_true]
      exact ⟨ih a pos caps hl, ih b x.1 x.2 hfx⟩
    | alt a b =>
      simp only [mmatch] at h
      by_cases ha : mmatch fl text n a pos caps = []
      · have hb : mmatch fl text n b pos caps ≠ [] := by
          intro e
          exact h (by simp [ha, e])
        simp only [canWS, Bool.or_eq_true]
        exact Or.inr (ih b pos caps hb)
      · simp only [canWS, Bool.or_eq_true]
        exact Or.inl (ih a pos caps ha)
    | star lz a => rfl
    | plus lz a =>
      simp only [mmatch] at h
      have hl : mmatch fl text n a pos caps ≠ [] := by
        intro e
        exact h (by simp [e])
      exact ih a pos caps hl
    | opt lz a => rfl
    | grp idx a =>
      simp only [mmatch] at h
      have hl : mmatch fl text n a pos caps ≠ [] := by
        intro e
        exact h (by simp [e])
      exact ih a pos caps hl
    | bol => rfl
    | eol => rfl
    | eolS => rfl
    | look a =>
      simp only [mmatch] at h
      by_cases he : (mmatch fl text n a pos caps).isEmpty
      · simp [he] at h
      · exact ih a pos caps (by simpa [List.isEmpty_iff] using he)

/-- Consumption of a successful `tryPyFile` is positive. -/
theorem tryPyFile_pos {s : List Char} {gn : String × Nat} (h : tryPyFile s = some gn) :
    0 < gn.2 := by
  unfold tryPyFile at h
  repeat' split at h <;> simp_all
  obtain ⟨-, -, -, hgn⟩ := h
  subst hgn
  exact Nat.succ_pos _

/-- Consumption of a successful `tryLineNum` is positive. -/
theorem tryLineNum_pos {s : List Char} {gn : String × Nat} (h : tryLineNum s = some gn) :
    0 < gn.2 := by
  unfold tryLineNum at h
  repeat' split at h <;> simp_all
  obtain ⟨-, -, hgn⟩ := h
  subst hgn
  exact Nat.add_pos_left (Nat.add_pos_left (by norm_num) _) _

/-- One unbounded-recursion step of `_resolve_template`: with a cold cache,
a template whose data `extends` a parent resolves only if the parent
resolves one fuel level down. -/
theorem resolveTemplate_extends_none {fuel : Nat} {st : TSysState} {now : Nat}
    {name parentName : String} {t : TData}
    (hcache : cacheGet st ("resolved_" ++ name) ((st.versions.lookup name).getD "") now
      = none)
    (htempl : st.templates.lookup name = some t)
    (hext : t.extendsKey = some parentName)
    (hrec : resolveTemplate fuel st now parentName = none) :
    resolveTemplate (fuel + 1) st now name = none := by
  simp only [resolveTemplate]
  rw [hcache, htempl]
  simp [hext, hrec]

/-- On whitespace-only text a pattern whose `canWS` is false matches at no
position. -/
theorem tryMatchAt_ws_none {fl : Flags} {r : RE} (hr : canWS fl r = false)
    {text : List Char} (hws : ∀ c ∈ text, c.isWhitespace) (pos : Nat) :
    tryMatchAt fl r text pos = none := by
  unfold tryMatchAt
  have h : mmatch fl text (matchFuel r text) r pos (initCaps r) = [] := by
    by_contra hne
    rw [mmatch_ws_sound hws _ _ _ _ hne] at hr
    exact absurd hr (by simp)
  rw [h]
  rfl

/-- `findall` is empty on whitespace-only text for a `canWS`-false
pattern. -/
theorem findAllFrom_ws_nil {fl : Flags} {r : RE} (hr : canWS fl r = false)
    {text : List Char} (hws : ∀ c ∈ text, c.isWhitespace) :
    ∀ fuel pos, findAllFrom fl r text fuel pos = [] := by
  intro fuel
  induction fuel with
  | zero => intro pos; rfl
  | succ n ih =>
    intro pos
    rw [findAllFrom]
    rw [tryMatchAt_ws_none hr hws]
    by_cases hp : text.length < pos
    · simp [hp]
    · simp [hp, ih]

/-- `search` fails on whitespace-only text for a `canWS`-false pattern. -/
theorem searchFrom_ws_none {fl : Flags} {r : RE} (hr : canWS fl r = false)
    {text : List Char} (hws : ∀ c ∈ text, c.isWhitespace) :
    ∀ fuel pos, searchFrom fl r text fuel pos = none := by
  intro fuel
  induction fuel with
  | zero => intro pos; rfl
  | succ n ih =>
    intro pos
    rw [searchFrom]
    rw [tryMatchAt_ws_none hr hws]
    by_cases hp : text.length < pos
    · simp [hp]
    · simp [hp, ih]

/-- The per-pattern match list of `detect_multi_label` is empty on
whitespace-only text. -/
theorem patternMatches_ws_nil {p : ErrorPattern} (hp : canWS p.flags p.re = false)
    {text : List Char} (hws : ∀ c ∈ text, c.isWhitespace) :
    patternMatches p text = [] := by
  unfold patternMatches ErrorPattern.findall ErrorPattern.search reFindAll reFindIter
    reSearch
  rw [findAllFrom_ws_nil hp hws, searchFrom_ws_none hp hws]
  simp

/-- The scoring fold of `detect_multi_label` leaves the accumulator
untouched when no pattern matches. -/
theorem foldl_accum_of_no_match {text : List Char} :
    ∀ (ps : List ErrorPattern) (acc : List (ErrorCategory × CatData)),
      (∀ p ∈ ps, patternMatches p text = []) →
      ps.foldl (accumPattern text) acc = acc := by
  intro ps
  induction ps with
  | nil => intro acc _; rfl
  | cons p ps ih =>
    intro acc hall
    have hp : patternMatches p text = [] := hall p (by simp)
    have : accumPattern text acc p = acc := by
      unfold accumPattern
      simp [hp]
    rw [List.foldl_cons, this]
    exact ih acc fun q hq => hall q (by simp [hq])

/-- Membership in the first-occurrence deduplication helper. -/
theorem mem_dedupFirstAux {α : Type} [DecidableEq α] :
    ∀ (l seen : List α) (x : α), x ∈ dedupFirstAux seen l ↔ x ∈ l ∧ x ∉ seen := by
  intro l
  induction l with
  | nil => intro seen x; simp [dedupFirstAux]
  | cons a as ih =>
    intro seen x
    by_cases ha : a ∈ seen
    · rw [dedupFirstAux, if_pos ha, ih]
      constructor
      · rintro ⟨h1, h2⟩
        exact ⟨List.mem_cons_of_mem _ h1, h2⟩
      · rintro ⟨h1, h2⟩
        rcases List.mem_cons.mp h1 with h1 | h1
        · exact absurd (h1 ▸ ha) h2
        · exact ⟨h1, h2⟩
    · rw [dedupFirstAux, if_neg ha]
      constructor
      · intro h
        rcases List.mem_cons.mp h with h | h
        · exact ⟨h ▸ List.mem_cons_self a as, h ▸ ha⟩
        · obtain ⟨h1, h2⟩ := (ih _ x).mp h
          refine ⟨List.mem_cons_of_mem _ h1, fun hx => h2 ?_⟩
          exact List.mem_append_left _ hx
      · rintro ⟨h1, h2⟩
        rcases List.mem_cons.mp h1 with h1 | h1
        · exact h1 ▸ List.mem_cons_self a _
        · by_cases hxa : x = a
          · exact hxa ▸ List.mem_cons_self a _
          · refine List.mem_cons_of_mem _ ((ih _ x).mpr ⟨h1, fun hx => ?_⟩)
            rcases List.mem_append.mp hx with hx | hx
            · exact h2 hx
            · exact hxa (List.mem_singleton.mp hx)

theorem mem_dedupFirst {α : Type} [DecidableEq α] (l : List α) (x : α) :
    x ∈ dedupFirst l ↔ x ∈ l := by
  simp [dedupFirst, mem_dedupFirstAux]

/-- Lookup of a cons cell in an association list. -/
theorem lookup_cons_pair {α β : Type} [DecidableEq α] (a k : α) (v : β)
    (rest : List (α × β)) :
    List.lookup a ((k, v) :: rest) = if a = k then some v else List.lookup a rest := by
  by_cases h : a = k
  · simp [List.lookup, h]
  · have hb : (a == k) = false := beq_eq_false_iff_ne.mpr h
    simp [List.lookup, hb, h]

theorem infoAppend_lookup (info : List (String × List String)) (k : String)
    (vs : List String) (k2 : String) :
    (infoAppend info k vs).lookup k2 =
      if k2 = k then some ((info.lookup k).getD [] ++ vs) else info.lookup k2 := by
  induction info with
  | nil => by_cases h : k2 = k <;> simp [infoAppend, lookup_cons_pair, h]
  | cons kv rest ih =>
    obtain ⟨k1, v1⟩ := kv
    by_cases hk : k1 = k
    · subst hk
      by_cases h2 : k2 = k1 <;> simp [infoAppend, lookup_cons_pair, h2]
    · by_cases h2 : k2 = k1
      · subst h2
        simp [infoAppend, hk, lookup_cons_pair, Ne.symm hk, ih]
      · by_cases h3 : k2 = k
        · subst h3
          simp [infoAppend, hk, lookup_cons_pair, h2, ih, Ne.symm hk]
        · simp [infoAppend, hk, lookup_cons_pair, h2, ih, h3]

theorem foldl_infoAppend_lookup (kvs : List (String × List String)) :
    ∀ (mi : List (String × List String)) (k : String),
      (kvs.foldl (fun mi kv => infoAppend mi kv.1 kv.2) mi).lookup k =
        if kvs.any (fun kv => decide (kv.1 = k)) then
          some ((mi.lookup k).getD [] ++
            (kvs.filter (fun kv => decide (kv.1 = k))).flatMap fun kv => kv.2)
        else mi.lookup k := by
  induction kvs with
  | nil => intro mi k; simp
  | cons kv rest ih =>
    obtain ⟨k1, v1⟩ := kv
    intro mi k
    rw [List.foldl_cons, ih]
    by_cases hk : k1 = k
    · subst hk
      by_cases hr : rest.any (fun kv => decide (kv.1 = k1)) = true
      · simp [hr, infoAppend_lookup, List.filter_cons, List.append_assoc]
      · rw [Bool.not_eq_true] at hr
        have hfil : rest.filter (fun kv => decide (kv.1 = k1)) = [] :=
          List.filter_eq_nil_iff.mpr (by
            intro x hx
            have := List.any_eq_false.mp hr x hx
            simpa using this)
        simp [hr, hfil, infoAppend_lookup, List.filter_cons]
    · have hd : (decide (k1 = k)) = false := by simp [hk]
      have hor : ((k1, v1) :: rest).any (fun kv => decide (kv.1 = k)) =
          rest.any (fun kv => decide (kv.1 = k)) := by
        simp [hk]
      have hflt : ((k1, v1) :: rest).filter (fun kv => decide (kv.1 = k)) =
          rest.filter (fun kv => decide (kv.1 = k)) :=
        List.filter_cons_of_neg (by simp [hk])
      rw [hor, hflt, infoAppend_lookup, if_neg (fun h : k = k1 => hk h.symm)]

theorem foldl_group_info_lookup (g : List ErrorMatch) :
    ∀ (mi : List (String × List String)) (k : String),
      (g.foldl
          (fun mi m => m.extractedInfo.foldl (fun mi kv => infoAppend mi kv.1 kv.2) mi)
          mi).lookup k =
        if infoKeyPresent g k then some ((mi.lookup k).getD [] ++ concatInfo g k)
        else mi.lookup k := by
  induction g with
  | nil => intro mi k; simp [infoKeyPresent, concatInfo]
  | cons m g ih =>
    intro mi k
    rw [List.foldl_cons, ih, foldl_infoAppend_lookup]
    simp only [infoKeyPresent, concatInfo, List.any_cons, List.flatMap_cons]
    by_cases hm : m.extractedInfo.any (fun kv => decide (kv.1 = k)) = true
    · by_cases hg : g.any (fun x => x.extractedInfo.any fun kv => decide (kv.1 = k)) = true
      · simp [hm, hg, List.append_assoc]
      · rw [Bool.not_eq_true] at hg
        have hcg : (g.flatMap fun x =>
            (x.extractedInfo.filter fun kv => decide (kv.1 = k)).flatMap fun kv => kv.2) = [] := by
          rw [List.flatMap_eq_nil_iff]
          intro x hx
          have hx2 := List.any_eq_false.mp hg x hx
          rw [Bool.not_eq_true] at hx2
          have hfil : (x.extractedInfo.filter fun kv => decide (kv.1 = k)) = [] :=
            List.filter_eq_nil_iff.mpr (fun kv hkv => List.any_eq_false.mp hx2 kv hkv)
          simp [hfil]
        simp [hm, hg, hcg]
    · rw [Bool.not_eq_true] at hm
      have hfil : (m.extractedInfo.filter fun kv => decide (kv.1 = k)) = [] :=
        List.filter_eq_nil_iff.mpr (by
          intro x hx
          have := List.any_eq_false.mp hm x hx
          simpa using this)
      by_cases hg : g.any (fun x => x.extractedInfo.any fun kv => decide (kv.1 = k)) = true <;>
        simp [hm, hfil, hg]

theorem lookup_map_dedup (l : List (String × List String)) (k : String) :
    (l.map fun kv => (kv.1, dedupFirst kv.2)).lookup k = (l.lookup k).map dedupFirst := by
  induction l with
  | nil => simp
  | cons kv rest ih =>
    obtain ⟨k1, v1⟩ := kv
    by_cases h : k = k1 <;> simp [lookup_cons_pair, h, ih]

theorem pyMaxBy_spec {α : Type} (key : α → Nat) :
    ∀ (l : List α) (v : α), pyMaxBy key l = some v → v ∈ l ∧ ∀ x ∈ l, key x ≤ key v := by
  have main : ∀ (xs : List α) (x0 : α),
      (xs.foldl (fun acc y => if key acc < key y then y else acc) x0) ∈ x0 :: xs ∧
      ∀ x ∈ x0 :: xs,
        key x ≤ key (xs.foldl (fun acc y => if key acc < key y then y else acc) x0) := by
    intro xs
    induction xs with
    | nil => intro x0; simp
    | cons y ys ih =>
      intro x0
      rw [List.foldl_cons]
      by_cases h : key x0 < key y
      · rw [if_pos h]
        obtain ⟨h1, h2⟩ := ih y
        constructor
        · exact List.mem_cons_of_mem _ h1
        · intro x hx
          rcases List.mem_cons.mp hx with e | e
          · rw [e]
            exact le_of_lt (lt_of_lt_of_le h (h2 y (List.mem_cons_self _ _)))
          · exact h2 x e
      · rw [if_neg h]
        obtain ⟨h1, h2⟩ := ih x0
        constructor
        · rcases List.mem_cons.mp h1 with e | e
          · rw [e]
            exact List.mem_cons_self _ _
          · exact List.mem_cons_of_mem _ (List.mem_cons_of_mem _ e)
        · intro x hx
          rcases List.mem_cons.mp hx with e | e
          · exact h2 x (by rw [e]; exact List.mem_cons_self _ _)
          · rcases List.mem_cons.mp e with e2 | e2
            · rw [e2]
              exact le_trans (le_of_not_lt h) (h2 x0 (List.mem_cons_self _ _))
            · exact h2 x (List.mem_cons_of_mem _ e2)
  intro l v h
  cases l with
  | nil => simp [pyMaxBy] at h
  | cons x xs =>
    simp only [pyMaxBy, Option.some.injEq] at h
    exact h ▸ main xs x

theorem insertDesc_perm (m : ErrorMatch) (l : List ErrorMatch) :
    (insertDesc m l).Perm (m :: l) := by
  induction l with
  | nil => simp [insertDesc]
  | cons x xs ih =>
    rw [insertDesc]
    by_cases h : m.confidence < x.confidence
    · rw [if_pos h]
      exact (ih.cons x).trans (List.Perm.swap m x xs)
    · rw [if_neg h]

theorem sortByConfDesc_perm (l : List ErrorMatch) : (sortByConfDesc l).Perm l := by
  induction l with
  | nil => simp [sortByConfDesc]
  | cons x xs ih =>
    exact (insertDesc_perm x (sortByConfDesc xs)).trans (ih.cons x)

theorem mem_sortByConfDesc {m : ErrorMatch} {l : List ErrorMatch} :
    m ∈ sortByConfDesc l ↔ m ∈ l :=
  (sortByConfDesc_perm l).mem_iff

theorem insertDesc_sorted (m : ErrorMatch) {l : List ErrorMatch}
    (h : l.Pairwise fun a b => b.confidence ≤ a.confidence) :
    (insertDesc m l).Pairwise fun a b => b.confidence ≤ a.confidence := by
  induction l with
  | nil => simp [insertDesc]
  | cons x xs ih =>
    rw [List.pairwise_cons] at h
    obtain ⟨hx, hxs⟩ := h
    rw [insertDesc]
    by_cases hc : m.confidence < x.confidence
    · rw [if_pos hc]
      rw [List.pairwise_cons]
      refine ⟨fun y hy => ?_, ih hxs⟩
      rcases List.mem_cons.mp ((insertDesc_perm m xs).mem_iff.mp hy) with e | e
      · rw [e]
        exact le_of_lt hc
      · exact hx y e
    · rw [if_neg hc]
      rw [List.pairwise_cons]
      refine ⟨fun y hy => ?_, List.Pairwise.cons hx hxs⟩
      rcases List.mem_cons.mp hy with e | e
      · rw [e]
        exact le_of_not_lt hc
      · exact le_trans (hx y e) (le_of_not_lt hc)

theorem sortByConfDesc_sorted (l : List ErrorMatch) :
    (sortByConfDesc l).Pairwise fun a b => b.confidence ≤ a.confidence := by
  induction l with
  | nil => simp [sortByConfDesc]
  | cons x xs ih => exact insertDesc_sorted x ih

theorem groupAppend_lookup (acc : List (ErrorCategory × List ErrorMatch))
    (m : ErrorMatch) (c : ErrorCategory) :
    (groupAppend acc m).lookup c =
      if c = m.category then some ((acc.lookup c).getD [] ++ [m])
      else acc.lookup c := by
  induction acc with
  | nil => by_cases h : c = m.category <;> simp [groupAppend, lookup_cons_pair, h]
  | cons e rest ih =>
    obtain ⟨c1, l1⟩ := e
    by_cases he : c1 = m.category
    · by_cases hc : c = c1
      · have hcm : c = m.category := hc.trans he
        simp [groupAppend, he, lookup_cons_pair, hc, hcm]
      · have hcm : ¬c = m.category := fun h => hc (h.trans he.symm)
        simp [groupAppend, he, lookup_cons_pair, hc, hcm]
    · by_cases hc : c = c1
      · have hcm : ¬c = m.category := fun h => he (hc.symm.trans h)
        simp [groupAppend, he, lookup_cons_pair, hc, hcm, ih]
      · simp [groupAppend, he, lookup_cons_pair, hc, ih]

theorem catGroup_cons (m : ErrorMatch) (ms : List ErrorMatch) (c : ErrorCategory) :
    catGroup (m :: ms) c =
      if m.category = c then m :: catGroup ms c else catGroup ms c := by
  by_cases h : m.category = c
  · simp [catGroup, List.filter_cons, h]
  · simp [catGroup, List.filter_cons, h]

theorem foldl_groupAppend_lookup (ms : List ErrorMatch) :
    ∀ (acc : List (ErrorCategory × List ErrorMatch)) (c : ErrorCategory),
      (ms.foldl groupAppend acc).lookup c =
        if (acc.lookup c).isSome || !(catGroup ms c).isEmpty then
          some ((acc.lookup c).getD [] ++ catGroup ms c)
        else none := by
  induction ms with
  | nil =>
    intro acc c
    simp only [List.foldl_nil, catGroup, List.filter_nil, List.isEmpty_nil,
      Bool.not_true, Bool.or_false]
    cases h : acc.lookup c <;> simp [h]
  | cons m ms ih =>
    intro acc c
    rw [List.foldl_cons, ih, groupAppend_lookup, catGroup_cons]
    by_cases hc : c = m.category
    · rw [if_pos hc, if_pos hc.symm]
      simp [List.append_assoc]
    · rw [if_neg hc, if_neg (fun h : m.category = c => hc h.symm)]

theorem groupAppend_keys (acc : List (ErrorCategory × List ErrorMatch)) (m : ErrorMatch) :
    (groupAppend acc m).map Prod.fst =
      if m.category ∈ acc.map Prod.fst then acc.map Prod.fst
      else acc.map Prod.fst ++ [m.category] := by
  induction acc with
  | nil => simp [groupAppend]
  | cons e rest ih =>
    obtain ⟨c1, l1⟩ := e
    by_cases he : c1 = m.category
    · subst he
      simp [groupAppend]
    · have hne : ¬m.category = c1 := fun h => he h.symm
      simp only [groupAppend, if_neg he, List.map_cons, ih]
      by_cases hm : m.category ∈ rest.map Prod.fst
      · simp [hm, hne]
      · simp [hm, hne]

theorem foldl_groupAppend_keys_nodup (ms : List ErrorMatch) :
    ∀ (acc : List (ErrorCategory × List ErrorMatch)),
      (acc.map Prod.fst).Nodup → ((ms.foldl groupAppend acc).map Prod.fst).Nodup := by
  induction ms with
  | nil => intro acc h; simpa using h
  | cons m ms ih =>
    intro acc h
    rw [List.foldl_cons]
    refine ih _ ?_
    rw [groupAppend_keys]
    by_cases hm : m.category ∈ acc.map Prod.fst
    · simpa [hm] using h
    · rw [if_neg hm]
      exact List.Nodup.append h (List.nodup_singleton _) (by simpa using hm)

theorem lookup_of_mem_nodup {β : Type} :
    ∀ {l : List (ErrorCategory × β)}, (l.map Prod.fst).Nodup →
      ∀ {e : ErrorCategory × β}, e ∈ l → l.lookup e.1 = some e.2 := by
  intro l
  induction l with
  | nil => intro _ e he; simp at he
  | cons x xs ih =>
    intro h e he
    rw [List.map_cons, List.nodup_cons] at h
    rcases List.mem_cons.mp he with he | he
    · subst he
      simp [List.lookup]
    · have hne : e.1 ≠ x.1 := by
        intro hc
        exact h.1 (hc ▸ List.mem_map_of_mem Prod.fst he)
      rw [show (x :: xs) = (x.1, x.2) :: xs by rfl, lookup_cons_pair, if_neg hne]
      exact ih h.2 he

theorem mergeMatches_cat_sub (grouped : List (ErrorCategory × List ErrorMatch))
    (f : (ErrorCategory × List ErrorMatch) → Option ErrorMatch)
    (hf : ∀ e m, f e = some m → m.category = e.1) :
    ∀ m ∈ grouped.filterMap f, m.category ∈ grouped.map Prod.fst := by
  induction grouped with
  | nil => simp
  | cons e rest ih =>
    intro m hm
    rw [List.filterMap_cons] at hm
    cases hfe : f e with
    | none =>
      rw [hfe] at hm
      exact List.mem_cons_of_mem _ (ih m hm)
    | some m0 =>
      rw [hfe] at hm
      rcases List.mem_cons.mp hm with hm | hm
      · exact hm ▸ (hf e m0 hfe) ▸ List.mem_cons_self _ _
      · exact List.mem_cons_of_mem _ (ih m hm)

theorem filterMap_map_cat_nodup (grouped : List (ErrorCategory × List ErrorMatch))
    (f : (ErrorCategory × List ErrorMatch) → Option ErrorMatch)
    (hf : ∀ e m, f e = some m → m.category = e.1)
    (hn : (grouped.map Prod.fst).Nodup) :
    ((grouped.filterMap f).map ErrorMatch.category).Nodup := by
  induction grouped with
  | nil => simp
  | cons e rest ih =>
    rw [List.map_cons, List.nodup_cons] at hn
    rw [List.filterMap_cons]
    cases hfe : f e with
    | none => exact ih hn.2
    | some m0 =>
      rw [List.map_cons, List.nodup_cons]
      refine ⟨fun hmem => ?_, ih hn.2⟩
      rw [List.mem_map] at hmem
      obtain ⟨m1, hm1, hcat⟩ := hmem
      have hsub := mergeMatches_cat_sub rest f hf m1 hm1
      rw [hcat, hf e m0 hfe] at hsub
      exact hn.1 hsub

theorem mem_grouped_spec (ms : List ErrorMatch) (e : ErrorCategory × List ErrorMatch)
    (he : e ∈ ms.foldl groupAppend []) :
    e.2 = catGroup ms e.1 ∧ catGroup ms e.1 ≠ [] := by
  have hkeys := foldl_groupAppend_keys_nodup ms [] (by simp)
  have hlk := lookup_of_mem_nodup hkeys he
  rw [foldl_groupAppend_lookup] at hlk
  simp only [List.lookup_nil, Option.isSome_none, Bool.false_or, Option.getD_none,
    List.nil_append] at hlk
  cases hemp : (catGroup ms e.1).isEmpty with
  | true => rw [hemp] at hlk; simp at hlk
  | false =>
    rw [hemp] at hlk
    simp only [Bool.not_false, if_true, Option.some.injEq] at hlk
    refine ⟨hlk.symm, ?_⟩
    intro hnil
    rw [hnil] at hemp
    simp at hemp

theorem mergeOne_inv (c : ErrorCategory) (g : List ErrorMatch) (m : ErrorMatch)
    (h : mergeOne (c, g) = some m) :
    m.category = c ∧
    m.confidence = (g.map fun x => x.confidence).sum / (g.length : ℚ) ∧
    m.matchList = [] ∧
    pyMaxBy sevRank (g.map fun x => x.severity) = some m.severity ∧
    m.extractedInfo = (g.foldl
        (fun mi x => x.extractedInfo.foldl (fun mi kv => infoAppend mi kv.1 kv.2) mi)
        []).map fun kv => (kv.1, dedupFirst kv.2) := by
  cases g with
  | nil => simp [mergeOne] at h
  | cons a t =>
    simp only [mergeOne, List.map_cons, pyMaxBy, Option.some.injEq] at h
    rw [← h]
    refine ⟨rfl, rfl, rfl, ?_, rfl⟩
    simp [pyMaxBy]

theorem mergeOne_cat (e : ErrorCategory × List ErrorMatch) (m : ErrorMatch)
    (h : mergeOne e = some m) : m.category = e.1 := by
  obtain ⟨c, g⟩ := e
  exact (mergeOne_inv c g m h).1

theorem upsertCat_lookup (acc : List (ErrorCategory × CatData)) (cat : ErrorCategory)
    (f : CatData → CatData) (c : ErrorCategory) :
    (upsertCat acc cat f).lookup c =
      if c = cat then some (f ((acc.lookup c).getD ⟨0, [], []⟩)) else acc.lookup c := by
  induction acc with
  | nil => by_cases h : c = cat <;> simp [upsertCat, lookup_cons_pair, h]
  | cons e rest ih =>
    obtain ⟨c1, d1⟩ := e
    by_cases he : c1 = cat
    · by_cases hc : c = c1
      · have hcm : c = cat := hc.trans he
        simp [upsertCat, he, lookup_cons_pair, hc, hcm]
      · have hcm : ¬c = cat := fun h => hc (h.trans he.symm)
        simp [upsertCat, he, lookup_cons_pair, hc, hcm]
    · by_cases hc : c = c1
      · have hcm : ¬c = cat := fun h => he (hc.symm.trans h)
        simp [upsertCat, he, lookup_cons_pair, hc, hcm, ih]
      · simp [upsertCat, he, lookup_cons_pair, hc, ih]

theorem upsertCat_keys (acc : List (ErrorCategory × CatData)) (cat : ErrorCategory)
    (f : CatData → CatData) :
    (upsertCat acc cat f).map Prod.fst =
      if cat ∈ acc.map Prod.fst then acc.map Prod.fst
      else acc.map Prod.fst ++ [cat] := by
  induction acc with
  | nil => simp [upsertCat]
  | cons e rest ih =>
    obtain ⟨c1, d1⟩ := e
    by_cases he : c1 = cat
    · subst he
      simp [upsertCat]
    · have hne : ¬cat = c1 := fun h => he h.symm
      simp only [upsertCat, if_neg he, List.map_cons, ih]
      by_cases hm : cat ∈ rest.map Prod.fst
      · simp [hm, hne]
      · simp [hm, hne]

theorem accumPattern_keys (text : List Char) (acc : List (ErrorCategory × CatData))
    (p : ErrorPattern) :
    (accumPattern text acc p).map Prod.fst =
      if patternMatches p text = [] then acc.map Prod.fst
      else if p.category ∈ acc.map Prod.fst then acc.map Prod.fst
      else acc.map Prod.fst ++ [p.category] := by
  unfold accumPattern
  by_cases hm : patternMatches p text = []
  · simp [hm]
  · simp [hm, upsertCat_keys]

theorem foldl_accumPattern_keys_nodup (text : List Char) (ps : List ErrorPattern) :
    ∀ (acc : List (ErrorCategory × CatData)),
      (acc.map Prod.fst).Nodup → ((ps.foldl (accumPattern text) acc).map Prod.fst).Nodup := by
  induction ps with
  | nil => intro acc h; simpa using h
  | cons p ps ih =>
    intro acc h
    rw [List.foldl_cons]
    refine ih _ ?_
    rw [accumPattern_keys]
    by_cases hm : patternMatches p text = []
    · simpa [hm] using h
    · rw [if_neg hm]
      by_cases hc : p.category ∈ acc.map Prod.fst
      · simpa [hc] using h
      · rw [if_neg hc]
        exact List.Nodup.append h (List.nodup_singleton _) (by simpa using hc)

theorem score_getD (o : Option CatData) :
    (o.getD ⟨0, [], []⟩).score = (o.map CatData.score).getD 0 := by
  cases o <;> rfl

theorem catScore_cons (p : ErrorPattern) (ps : List ErrorPattern) (text : List Char)
    (c : ErrorCategory) :
    catScore (p :: ps) text c =
      (if p.category = c then p.weight * ((patternMatches p text).length : ℚ) else 0) +
        catScore ps text c := by
  simp [catScore]

theorem accumPattern_lookup (text : List Char) (acc : List (ErrorCategory × CatData))
    (p : ErrorPattern) (c : ErrorCategory) :
    (accumPattern text acc p).lookup c =
      if patternMatches p text = [] then acc.lookup c
      else if c = p.category then
        some ⟨((acc.lookup c).getD ⟨0, [], []⟩).score +
                p.weight * ((patternMatches p text).length : ℚ),
              ((acc.lookup c).getD ⟨0, [], []⟩).matchList ++ patternMatches p text,
              updateInfo p (patternMatches p text) (((acc.lookup c).getD ⟨0, [], []⟩).info)⟩
      else acc.lookup c := by
  unfold accumPattern
  by_cases hm : patternMatches p text = []
  · simp [hm]
  · simp [hm, upsertCat_lookup]

theorem foldl_accumPattern_score (text : List Char) (ps : List ErrorPattern) :
    ∀ (acc : List (ErrorCategory × CatData)) (c : ErrorCategory),
      ((ps.foldl (accumPattern text) acc).lookup c).map CatData.score =
        if (acc.lookup c).isSome ||
            ps.any (fun p => decide (p.category = c) && !(patternMatches p text).isEmpty) then
          some (((acc.lookup c).map CatData.score).getD 0 + catScore ps text c)
        else none := by
  induction ps with
  | nil =>
    intro acc c
    simp only [List.foldl_nil, List.any_nil, Bool.or_false]
    cases h : acc.lookup c <;> simp [h, catScore]
  | cons p ps ih =>
    intro acc c
    rw [List.foldl_cons, ih, accumPattern_lookup, catScore_cons]
    by_cases hm : patternMatches p text = []
    · rw [if_pos hm]
      have h0 : ((patternMatches p text).length : ℚ) = 0 := by rw [hm]; rfl
      have hterm : (if p.category = c then
          p.weight * ((patternMatches p text).length : ℚ) else 0) = 0 := by
        rw [h0]
        by_cases h : p.category = c <;> simp [h]
      have hany : ((p :: ps).any
          fun p => decide (p.category = c) && !(patternMatches p text).isEmpty) =
          ps.any (fun p => decide (p.category = c) && !(patternMatches p text).isEmpty) := by
        simp [List.any_cons, hm]
      rw [hterm, hany, zero_add]
    · rw [if_neg hm]
      by_cases hc : c = p.category
      · rw [if_pos hc]
        have hhit : (decide (p.category = c) && !(patternMatches p text).isEmpty) = true := by
          simp [hc.symm, hm]
        have hany : ((p :: ps).any
            fun p => decide (p.category = c) && !(patternMatches p text).isEmpty) = true := by
          simp [List.any_cons, hhit]
        rw [hany]
        have hif : (if p.category = c then
            p.weight * ((patternMatches p text).length : ℚ) else 0) =
            p.weight * ((patternMatches p text).length : ℚ) := if_pos hc.symm
        rw [hif]
        simp only [Option.isSome_some, Bool.true_or, Bool.or_true, if_true, if_pos rfl,
          Option.map_some', Option.getD_some, score_getD]
        congr 1
        ring
      · rw [if_neg hc]
        have hterm : (if p.category = c then
            p.weight * ((patternMatches p text).length : ℚ) else 0) = 0 :=
          if_neg (fun h : p.category = c => hc h.symm)
        have hpc : ¬p.category = c := fun h => hc h.symm
        have hany : ((p :: ps).any
            fun p => decide (p.category = c) && !(patternMatches p text).isEmpty) =
            ps.any (fun p => decide (p.category = c) && !(patternMatches p text).isEmpty) := by
          simp [List.any_cons, hpc]
        rw [hterm, hany, zero_add]

theorem upsertCat_score_sum (acc : List (ErrorCategory × CatData)) (cat : ErrorCategory)
    (f : CatData → CatData) (δ : ℚ) (hf : ∀ d, (f d).score = d.score + δ) :
    ((upsertCat acc cat f).map fun cd => cd.2.score).sum =
      ((acc.map fun cd => cd.2.score).sum) + δ := by
  induction acc with
  | nil => simp [upsertCat, hf]
  | cons e rest ih =>
    obtain ⟨c, d⟩ := e
    by_cases hc : c = cat
    · simp only [upsertCat, if_pos hc, List.map_cons, List.sum_cons, hf]
      ring
    · simp only [upsertCat, if_neg hc, List.map_cons, List.sum_cons, ih]
      ring

theorem totalScore_cons (p : ErrorPattern) (ps : List ErrorPattern) (text : List Char) :
    totalScore (p :: ps) text =
      p.weight * ((patternMatches p text).length : ℚ) + totalScore ps text := by
  simp [totalScore]

theorem foldl_accumPattern_total (text : List Char) (ps : List ErrorPattern) :
    ∀ (acc : List (ErrorCategory × CatData)),
      ((ps.foldl (accumPattern text) acc).map fun cd => cd.2.score).sum =
        ((acc.map fun cd => cd.2.score).sum) + totalScore ps text := by
  induction ps with
  | nil => intro acc; simp [totalScore]
  | cons p ps ih =>
    intro acc
    rw [List.foldl_cons, ih, totalScore_cons]
    by_cases hm : patternMatches p text = []
    · have h0 : ((patternMatches p text).length : ℚ) = 0 := by rw [hm]; rfl
      unfold accumPattern
      rw [if_pos hm, h0]
      ring
    · unfold accumPattern
      simp only [if_neg hm]
      rw [upsertCat_score_sum _ _ _ (p.weight * ((patternMatches p text).length : ℚ))
        (fun d => rfl)]
      ring

theorem foldl_accumPattern_keys_spec (text : List Char) (ps : List ErrorPattern) :
    ∀ (done : List ErrorPattern) (acc : List (ErrorCategory × CatData)),
      (∀ c, c ∈ acc.map Prod.fst ↔ firstHitIdx done text c < done.length) →
      (acc.map Prod.fst).Pairwise
        (fun c1 c2 => firstHitIdx done text c1 < firstHitIdx done text c2) →
      (∀ c, c ∈ (ps.foldl (accumPattern text) acc).map Prod.fst ↔
          firstHitIdx (done ++ ps) text c < (done ++ ps).length) ∧
      ((ps.foldl (accumPattern text) acc).map Prod.fst).Pairwise
        (fun c1 c2 =>
          firstHitIdx (done ++ ps) text c1 < firstHitIdx (done ++ ps) text c2) := by
  induction ps with
  | nil =>
    intro done acc h1 h2
    rw [List.foldl_nil, List.append_nil]
    exact ⟨h1, h2⟩
  | cons p ps ih =>
    intro done acc h1 h2
    rw [List.foldl_cons]
    have hsplit : done ++ p :: ps = (done ++ [p]) ++ ps := by simp
    rw [hsplit]
    have fhiA : ∀ c, firstHitIdx done text c < done.length →
        firstHitIdx (done ++ [p]) text c = firstHitIdx done text c := by
      intro c h
      unfold firstHitIdx at h ⊢
      rw [List.findIdx_append, if_pos h]
    have fhiB : ∀ c, ¬firstHitIdx done text c < done.length →
        (decide (p.category = c) && !(patternMatches p text).isEmpty) = true →
        firstHitIdx (done ++ [p]) text c = done.length := by
      intro c h hq
      unfold firstHitIdx at h ⊢
      rw [List.findIdx_append, if_neg h]
      have hv : (fun q : ErrorPattern =>
          decide (q.category = c) && !(patternMatches q text).isEmpty) p = true := hq
      simp [List.findIdx_cons, hv]
    have fhiC : ∀ c, ¬firstHitIdx done text c < done.length →
        (decide (p.category = c) && !(patternMatches p text).isEmpty) = false →
        firstHitIdx (done ++ [p]) text c = done.length + 1 := by
      intro c h hq
      unfold firstHitIdx at h ⊢
      rw [List.findIdx_append, if_neg h]
      have hv : (fun q : ErrorPattern =>
          decide (q.category = c) && !(patternMatches q text).isEmpty) p = false := hq
      simp [List.findIdx_cons, hv]
      omega
    have hlen : (done ++ [p]).length = done.length + 1 := by simp
    refine ih (done ++ [p]) (accumPattern text acc p) ?_ ?_
    · intro c
      rw [accumPattern_keys, hlen]
      by_cases hm : patternMatches p text = []
      · rw [if_pos hm]
        have hq : (decide (p.category = c) && !(patternMatches p text).isEmpty) = false := by
          simp [hm]
        rw [h1 c]
        constructor
        · intro h
          rw [fhiA c h]
          exact Nat.lt_succ_of_lt h
        · intro h
          by_contra hno
          rw [fhiC c hno hq] at h
          exact absurd h (lt_irrefl _)
      · rw [if_neg hm]
        by_cases hcc : c = p.category
        · have hq : (decide (p.category = c) && !(patternMatches p text).isEmpty) = true := by
            simp [hcc, hm]
          constructor
          · intro _
            by_cases hd : firstHitIdx done text c < done.length
            · rw [fhiA c hd]
              exact Nat.lt_succ_of_lt hd
            · rw [fhiB c hd hq]
              exact Nat.lt_succ_self _
          · intro _
            by_cases hin : p.category ∈ acc.map Prod.fst
            · rw [if_pos hin, hcc]
              exact hin
            · rw [if_neg hin, hcc]
              exact List.mem_append_right _ (List.mem_singleton.mpr rfl)
        · have hq : (decide (p.category = c) && !(patternMatches p text).isEmpty) = false := by
            have : ¬p.category = c := fun h => hcc h.symm
            simp [this]
          have hmem : (c ∈ (if p.category ∈ acc.map Prod.fst then acc.map Prod.fst
              else acc.map Prod.fst ++ [p.category])) ↔ c ∈ acc.map Prod.fst := by
            by_cases hin : p.category ∈ acc.map Prod.fst
            · rw [if_pos hin]
            · rw [if_neg hin]
              constructor
              · intro h
                rcases List.mem_append.mp h with h | h
                · exact h
                · exact absurd (List.mem_singleton.mp h) hcc
              · exact fun h => List.mem_append_left _ h
          rw [hmem, h1 c]
          constructor
          · intro h
            rw [fhiA c h]
            exact Nat.lt_succ_of_lt h
          · intro h
            by_contra hno
            rw [fhiC c hno hq] at h
            exact absurd h (lt_irrefl _)
    · have hold : ∀ c ∈ acc.map Prod.fst,
          firstHitIdx (done ++ [p]) text c = firstHitIdx done text c :=
        fun c hc => fhiA c ((h1 c).mp hc)
      have hpres : (acc.map Prod.fst).Pairwise
          (fun c1 c2 => firstHitIdx (done ++ [p]) text c1 <
            firstHitIdx (done ++ [p]) text c2) := by
        refine List.Pairwise.imp_of_mem ?_ h2
        intro c1 c2 hc1 hc2 h
        rw [hold c1 hc1, hold c2 hc2]
        exact h
      rw [accumPattern_keys]
      by_cases hm : patternMatches p text = []
      · rw [if_pos hm]
        exact hpres
      · rw [if_neg hm]
        by_cases hin : p.category ∈ acc.map Prod.fst
        · rw [if_pos hin]
          exact hpres
        · rw [if_neg hin]
          rw [List.pairwise_append]
          refine ⟨hpres, List.pairwise_singleton _ _, ?_⟩
          intro c1 hc1 c2 hc2
          rw [List.mem_singleton] at hc2
          have hq : (decide (p.category = p.category) &&
              !(patternMatches p text).isEmpty) = true := by
            simp [hm]
          have hno : ¬firstHitIdx done text p.category < done.length :=
            fun h => hin ((h1 p.category).mpr h)
          rw [hc2, hold c1 hc1, fhiB p.category hno hq]
          exact (h1 c1).mp hc1

theorem pairwise_filterMap_rel {α β : Type} (f : α → Option β) (R : α → α → Prop)
    (S : β → β → Prop) {l : List α} (hl : l.Pairwise R)
    (h : ∀ a b x y, R a b → f a = some x → f b = some y → S x y) :
    (l.filterMap f).Pairwise S := by
  induction l with
  | nil => simp
  | cons a rest ih =>
    rw [List.pairwise_cons] at hl
    rw [List.filterMap_cons]
    cases hfa : f a with
    | none => exact ih hl.2
    | some x =>
      rw [List.pairwise_cons]
      refine ⟨?_, ih hl.2⟩
      intro y hy
      obtain ⟨b, hb, hfb⟩ := List.mem_filterMap.mp hy
      exact h a b x y (hl.1 b hb) hfa hfb

theorem insertDesc_stable (P : ErrorMatch → ErrorMatch → Prop) (m : ErrorMatch) :
    ∀ (l : List ErrorMatch),
      l.Pairwise (fun a b => b.confidence ≤ a.confidence ∧
        (b.confidence = a.confidence → P a b)) →
      (∀ y ∈ l, m.confidence = y.confidence → P m y) →
      (insertDesc m l).Pairwise (fun a b => b.confidence ≤ a.confidence ∧
        (b.confidence = a.confidence → P a b)) := by
  intro l
  induction l with
  | nil => intro _ _; simp [insertDesc]
  | cons x xs ih =>
    intro hl hm
    rw [List.pairwise_cons] at hl
    rw [insertDesc]
    by_cases hc : m.confidence < x.confidence
    · rw [if_pos hc]
      rw [List.pairwise_cons]
      refine ⟨?_, ih hl.2 (fun y hy => hm y (List.mem_cons_of_mem _ hy))⟩
      intro y hy
      rcases List.mem_cons.mp ((insertDesc_perm m xs).mem_iff.mp hy) with e | e
      · rw [e]
        exact ⟨le_of_lt hc, fun he => absurd (he ▸ hc) (lt_irrefl _)⟩
      · exact hl.1 y e
    · rw [if_neg hc]
      rw [List.pairwise_cons]
      refine ⟨?_, List.Pairwise.cons hl.1 hl.2⟩
      intro y hy
      rcases List.mem_cons.mp hy with e | e
      · rw [e]
        exact ⟨le_of_not_lt hc, fun he => hm x (List.mem_cons_self _ _) he.symm⟩
      · have hyx := hl.1 y e
        refine ⟨le_trans hyx.1 (le_of_not_lt hc), fun he => ?_⟩
        exact hm y (List.mem_cons_of_mem _ e) he.symm

theorem sortByConfDesc_stable (P : ErrorMatch → ErrorMatch → Prop) :
    ∀ (l : List ErrorMatch),
      l.Pairwise (fun a b => a.confidence = b.confidence → P a b) →
      (sortByConfDesc l).Pairwise (fun a b => b.confidence ≤ a.confidence ∧
        (b.confidence = a.confidence → P a b)) := by
  intro l
  induction l with
  | nil => intro _; simp [sortByConfDesc]
  | cons x xs ih =>
    intro h
    rw [List.pairwise_cons] at h
    rw [sortByConfDesc]
    exact insertDesc_stable P x (sortByConfDesc xs) (ih h.2)
      (fun y hy he => h.1 y (mem_sortByConfDesc.mp hy) he)

theorem catScore_nonneg (ps : List ErrorPattern) (text : List Char) (c : ErrorCategory)
    (hw : ∀ p ∈ ps, 0 ≤ p.weight) : 0 ≤ catScore ps text c := by
  unfold catScore
  apply List.sum_nonneg
  intro x hx
  rw [List.mem_map] at hx
  obtain ⟨p, hp, rfl⟩ := hx
  by_cases h : p.category = c
  · rw [if_pos h]
    exact mul_nonneg (hw p hp) (by positivity)
  · rw [if_neg h]

theorem catScore_le_totalScore (ps : List ErrorPattern) (text : List Char)
    (c : ErrorCategory) (hw : ∀ p ∈ ps, 0 ≤ p.weight) :
    catScore ps text c ≤ totalScore ps text := by
  unfold catScore totalScore
  apply List.sum_le_sum
  intro p hp
  by_cases h : p.category = c
  · rw [if_pos h]
  · rw [if_neg h]
    exact mul_nonneg (hw p hp) (by positivity)

theorem scores_keys_pairwise (text : List Char) (ps : List ErrorPattern) :
    ((ps.foldl (accumPattern text) []).map Prod.fst).Pairwise
      (fun c1 c2 => firstHitIdx ps text c1 < firstHitIdx ps text c2) := by
  have h := foldl_accumPattern_keys_spec text ps [] []
    (by
      intro c
      simp [firstHitIdx])
    (by simp)
  rw [List.nil_append] at h
  exact h.2

theorem detectML_spec (patterns : List ErrorPattern) (errorText : String) (threshold : ℚ)
    (hw : ∀ p ∈ patterns, 0 ≤ p.weight) (hne : errorText ≠ "") :
    (∀ m ∈ detectML patterns errorText threshold,
        m.confidence = catScore patterns errorText.data m.category /
          totalScore patterns errorText.data ∧
        0 ≤ m.confidence ∧ m.confidence ≤ 1 ∧ threshold ≤ m.confidence) ∧
    (detectML patterns errorText threshold).Pairwise
      (fun a b => b.confidence ≤ a.confidence ∧
        (b.confidence = a.confidence →
          firstHitIdx patterns errorText.data a.category <
            firstHitIdx patterns errorText.data b.category)) := by
  have hdml : detectML patterns errorText threshold =
      sortByConfDesc
        (if 0 < ((patterns.foldl (accumPattern errorText.data) []).map
            fun cd => cd.2.score).sum then
          (patterns.foldl (accumPattern errorText.data) []).filterMap fun cd =>
            if threshold ≤ cd.2.score /
                ((patterns.foldl (accumPattern errorText.data) []).map
                  fun cd => cd.2.score).sum then
              some ⟨cd.1, cd.2.score /
                  ((patterns.foldl (accumPattern errorText.data) []).map
                    fun cd => cd.2.score).sum,
                cd.2.matchList, cd.2.info,
                calcSeverity errorText.data cd.1 (cd.2.score /
                  ((patterns.foldl (accumPattern errorText.data) []).map
                    fun cd => cd.2.score).sum)⟩
            else none
        else []) := by
    unfold detectML
    rw [if_neg hne]
  have htot_eq : ((patterns.foldl (accumPattern errorText.data) []).map
      fun cd => cd.2.score).sum = totalScore patterns errorText.data := by
    rw [foldl_accumPattern_total]
    simp
  by_cases hpos : 0 < ((patterns.foldl (accumPattern errorText.data) []).map
      fun cd => cd.2.score).sum
  case neg =>
    rw [hdml, if_neg hpos]
    constructor
    · intro m hm
      simp [sortByConfDesc] at hm
    · simp [sortByConfDesc]
  case pos =>
    rw [hdml, if_pos hpos]
    have hkeysnodup : ((patterns.foldl (accumPattern errorText.data) []).map
        Prod.fst).Nodup :=
      foldl_accumPattern_keys_nodup errorText.data patterns [] (by simp)
    have hscore : ∀ cd ∈ patterns.foldl (accumPattern errorText.data) [],
        cd.2.score = catScore patterns errorText.data cd.1 := by
      intro cd hcd
      have hl := lookup_of_mem_nodup hkeysnodup hcd
      have hch := foldl_accumPattern_score errorText.data patterns [] cd.1
      rw [hl] at hch
      by_cases hc : (([] : List (ErrorCategory × CatData)).lookup cd.1).isSome ||
          patterns.any (fun p => decide (p.category = cd.1) &&
            !(patternMatches p errorText.data).isEmpty)
      · rw [if_pos hc] at hch
        simp only [Option.map_some', Option.some.injEq] at hch
        simpa using hch
      · rw [if_neg hc] at hch
        simp at hch
    have hFinv : ∀ (cd : ErrorCategory × CatData) (m : ErrorMatch),
        (if threshold ≤ cd.2.score /
            ((patterns.foldl (accumPattern errorText.data) []).map
              fun cd => cd.2.score).sum then
          some (ErrorMatch.mk cd.1 (cd.2.score /
              ((patterns.foldl (accumPattern errorText.data) []).map
                fun cd => cd.2.score).sum)
            cd.2.matchList cd.2.info
            (calcSeverity errorText.data cd.1 (cd.2.score /
              ((patterns.foldl (accumPattern errorText.data) []).map
                fun cd => cd.2.score).sum)))
        else none) = some m →
        m.category = cd.1 ∧
        m.confidence = cd.2.score /
          ((patterns.foldl (accumPattern errorText.data) []).map
            fun cd => cd.2.score).sum ∧
        threshold ≤ m.confidence := by
      intro cd m h
      by_cases ht : threshold ≤ cd.2.score /
          ((patterns.foldl (accumPattern errorText.data) []).map
            fun cd => cd.2.score).sum
      · rw [if_pos ht, Option.some.injEq] at h
        rw [← h]
        exact ⟨rfl, rfl, ht⟩
      · rw [if_neg ht] at h
        exact absurd h (by simp)
    constructor
    · intro m hm
      obtain ⟨cd, hcd, hfcd⟩ := List.mem_filterMap.mp (mem_sortByConfDesc.mp hm)
      obtain ⟨hcat, hconf, hth⟩ := hFinv cd m hfcd
      have hcs := hscore cd hcd
      refine ⟨?_, ?_, ?_, hth⟩
      · rw [hconf, hcs, htot_eq, hcat]
      · rw [hconf]
        exact div_nonneg (hcs ▸ catScore_nonneg patterns errorText.data cd.1 hw)
          (le_of_lt hpos)
      · rw [hconf]
        rw [div_le_one hpos]
        rw [hcs, htot_eq]
        exact catScore_le_totalScore patterns errorText.data cd.1 hw
    · have hker : (patterns.foldl (accumPattern errorText.data) []).Pairwise
          (fun e1 e2 => firstHitIdx patterns errorText.data e1.1 <
            firstHitIdx patterns errorText.data e2.1) := by
        have h := scores_keys_pairwise errorText.data patterns
        rw [List.pairwise_map] at h
        exact h
      have hres := pairwise_filterMap_rel _ _
        (fun x y : ErrorMatch => firstHitIdx patterns errorText.data x.category <
          firstHitIdx patterns errorText.data y.category) hker
        (fun a b x y hR hfa hfb => by
          show firstHitIdx patterns errorText.data x.category <
            firstHitIdx patterns errorText.data y.category
          rw [(hFinv a x hfa).1, (hFinv b y hfb).1]
          exact hR)
      refine sortByConfDesc_stable _ _ (hres.imp ?_)
      intro a b h _
      exact h

theorem sortByConfDesc_of_sorted :
    ∀ (l : List ErrorMatch), l.Pairwise (fun a b => b.confidence ≤ a.confidence) →
      sortByConfDesc l = l := by
  intro l
  induction l with
  | nil => intro _; rfl
  | cons x xs ih =>
    intro h
    rw [List.pairwise_cons] at h
    rw [sortByConfDesc, ih h.2]
    cases xs with
    | nil => rfl
    | cons y ys =>
      rw [insertDesc, if_neg (not_lt_of_le (h.1 y (List.mem_cons_self _ _)))]

theorem groupAppend_of_not_mem (acc : List (ErrorCategory × List ErrorMatch))
    (m : ErrorMatch) (h : m.category ∉ acc.map Prod.fst) :
    groupAppend acc m = acc ++ [(m.category, [m])] := by
  induction acc with
  | nil => rfl
  | cons e rest ih =>
    obtain ⟨c, l⟩ := e
    rw [List.map_cons, List.mem_cons] at h
    push_neg at h
    rw [groupAppend, if_neg (fun hc : c = m.category => h.1 hc.symm)]
    rw [ih h.2]
    rfl

theorem foldl_groupAppend_of_nodup :
    ∀ (ms : List ErrorMatch) (acc : List (ErrorCategory × List ErrorMatch)),
      (∀ m ∈ ms, m.category ∉ acc.map Prod.fst) →
      (ms.map ErrorMatch.category).Nodup →
      ms.foldl groupAppend acc = acc ++ ms.map (fun m => (m.category, [m])) := by
  intro ms
  induction ms with
  | nil => intro acc _ _; simp
  | cons m ms ih =>
    intro acc hdisj hnd
    rw [List.map_cons, List.nodup_cons] at hnd
    rw [List.foldl_cons, groupAppend_of_not_mem acc m (hdisj m (List.mem_cons_self _ _))]
    rw [ih _ ?_ hnd.2]
    · simp
    · intro m2 hm2
      rw [List.map_append]
      intro hmem
      rcases List.mem_append.mp hmem with h | h
      · exact hdisj m2 (List.mem_cons_of_mem _ hm2) h
      · simp only [List.map_cons, List.map_nil, List.mem_singleton] at h
        exact hnd.1 (h ▸ List.mem_map_of_mem ErrorMatch.category hm2)

theorem mergeOne_singleton (c : ErrorCategory) (m : ErrorMatch) :
    mergeOne (c, [m]) =
      some (ErrorMatch.mk c m.confidence []
        ((m.extractedInfo.foldl (fun mi kv => infoAppend mi kv.1 kv.2) []).map
          fun kv => (kv.1, dedupFirst kv.2)) m.severity) := by
  simp [mergeOne, pyMaxBy]

theorem filterMap_eq_map_of_some {α β : Type} (f : α → Option β) (h : α → β) :
    ∀ (l : List α), (∀ x ∈ l, f x = some (h x)) → l.filterMap f = l.map h := by
  intro l
  induction l with
  | nil => intro _; rfl
  | cons a as ih =>
    intro hf
    rw [List.filterMap_cons, hf a (List.mem_cons_self _ _), List.map_cons,
      ih (fun x hx => hf x (List.mem_cons_of_mem _ hx))]

theorem mergeMatches_of_nodup_sorted (ms : List ErrorMatch)
    (hnd : (ms.map ErrorMatch.category).Nodup)
    (hs : ms.Pairwise fun a b => b.confidence ≤ a.confidence) :
    (mergeMatches ms).map (fun m => (m.category, m.confidence, m.severity)) =
      ms.map (fun m => (m.category, m.confidence, m.severity)) ∧
    ∀ m ∈ mergeMatches ms, m.matchList = [] := by
  have hgr : ms.foldl groupAppend [] = ms.map (fun m => (m.category, [m])) := by
    rw [foldl_groupAppend_of_nodup ms [] (by simp) hnd]
    rfl
  have hmap : (ms.foldl groupAppend []).filterMap mergeOne =
      ms.map (fun m => ErrorMatch.mk m.category m.confidence []
        ((m.extractedInfo.foldl (fun mi kv => infoAppend mi kv.1 kv.2) []).map
          fun kv => (kv.1, dedupFirst kv.2)) m.severity) := by
    rw [hgr, List.filterMap_map]
    exact filterMap_eq_map_of_some _ _ ms
      (fun x _ => mergeOne_singleton x.category x)
  have hsorted2 : (ms.map (fun m => ErrorMatch.mk m.category m.confidence []
      ((m.extractedInfo.foldl (fun mi kv => infoAppend mi kv.1 kv.2) []).map
        fun kv => (kv.1, dedupFirst kv.2)) m.severity)).Pairwise
      (fun a b => b.confidence ≤ a.confidence) := by
    rw [List.pairwise_map]
    exact hs
  have hmm : mergeMatches ms = ms.map (fun m => ErrorMatch.mk m.category m.confidence []
      ((m.extractedInfo.foldl (fun mi kv => infoAppend mi kv.1 kv.2) []).map
        fun kv => (kv.1, dedupFirst kv.2)) m.severity) := by
    unfold mergeMatches
    rw [hmap, sortByConfDesc_of_sorted _ hsorted2]
  constructor
  · rw [hmm, List.map_map]
    congr 1
  · intro m hm
    rw [hmm] at hm
    obtain ⟨x, _, hx⟩ := List.mem_map.mp hm
    rw [← hx]

theorem filterMapCat_nodup {β : Type} (grouped : List (ErrorCategory × β))
    (f : (ErrorCategory × β) → Option ErrorMatch)
    (hf : ∀ e m, f e = some m → m.category = e.1)
    (hn : (grouped.map Prod.fst).Nodup) :
    ((grouped.filterMap f).map ErrorMatch.category).Nodup := by
  have hsub : ∀ (l : List (ErrorCategory × β)), ∀ m ∈ l.filterMap f,
      m.category ∈ l.map Prod.fst := by
    intro l
    induction l with
    | nil => simp
    | cons e rest ih =>
      intro m hm
      rw [List.filterMap_cons] at hm
      cases hfe : f e with
      | none =>
        rw [hfe] at hm
        exact List.mem_cons_of_mem _ (ih m hm)
      | some m0 =>
        rw [hfe] at hm
        rcases List.mem_cons.mp hm with hm | hm
        · exact hm ▸ (hf e m0 hfe) ▸ List.mem_cons_self _ _
        · exact List.mem_cons_of_mem _ (ih m hm)
  induction grouped with
  | nil => simp
  | cons e rest ih =>
    rw [List.map_cons, List.nodup_cons] at hn
    rw [List.filterMap_cons]
    cases hfe : f e with
    | none => exact ih hn.2
    | some m0 =>
      rw [List.map_cons, List.nodup_cons]
      refine ⟨fun hmem => ?_, ih hn.2⟩
      rw [List.mem_map] at hmem
      obtain ⟨m1, hm1, hcat⟩ := hmem
      have hs := hsub rest m1 hm1
      rw [hcat, hf e m0 hfe] at hs
      exact hn.1 hs

theorem detectML_cats_nodup (patterns : List ErrorPattern) (errorText : String)
    (threshold : ℚ) :
    ((detectML patterns errorText threshold).map ErrorMatch.category).Nodup := by
  by_cases hne : errorText = ""
  · simp [detectML, hne]
  · have hdml : detectML patterns errorText threshold =
        sortByConfDesc
          (if 0 < ((patterns.foldl (accumPattern errorText.data) []).map
              fun cd => cd.2.score).sum then
            (patterns.foldl (accumPattern errorText.data) []).filterMap fun cd =>
              if threshold ≤ cd.2.score /
                  ((patterns.foldl (accumPattern errorText.data) []).map
                    fun cd => cd.2.score).sum then
                some ⟨cd.1, cd.2.score /
                    ((patterns.foldl (accumPattern errorText.data) []).map
                      fun cd => cd.2.score).sum,
                  cd.2.matchList, cd.2.info,
                  calcSeverity errorText.data cd.1 (cd.2.score /
                    ((patterns.foldl (accumPattern errorText.data) []).map
                      fun cd => cd.2.score).sum)⟩
              else none
          else []) := by
      unfold detectML
      rw [if_neg hne]
    rw [hdml]
    by_cases hpos : 0 < ((patterns.foldl (accumPattern errorText.data) []).map
        fun cd => cd.2.score).sum
    · rw [if_pos hpos]
      set T := ((patterns.foldl (accumPattern errorText.data) []).map
        fun cd => cd.2.score).sum with hT
      set F := fun cd : ErrorCategory × CatData =>
        if threshold ≤ cd.2.score / T then
          some (ErrorMatch.mk cd.1 (cd.2.score / T) cd.2.matchList cd.2.info
            (calcSeverity errorText.data cd.1 (cd.2.score / T)))
        else none with hF
      have hf : ∀ e m, F e = some m → m.category = e.1 := by
        intro e m h
        rw [hF] at h
        simp only at h
        by_cases ht : threshold ≤ e.2.score / T
        · rw [if_pos ht, Option.some.injEq] at h
          rw [← h]
        · rw [if_neg ht] at h
          exact absurd h (by simp)
      have hnodup := filterMapCat_nodup (patterns.foldl (accumPattern errorText.data) [])
        F hf (foldl_accumPattern_keys_nodup errorText.data patterns [] (by simp))
      exact ((sortByConfDesc_perm _).map _).nodup_iff.mpr hnodup
    · rw [if_neg hpos]
      simp [sortByConfDesc]

theorem chunked_single {α : Type} (l : List α) (n : Nat) (h0 : l ≠ [])
    (hle : l.length ≤ n) (hn : n ≠ 0) : chunked l n = [l] := by
  unfold chunked
  rw [if_neg hn]
  cases l with
  | nil => exact absurd rfl h0
  | cons a as =>
    rw [show (a :: as).length + 1 = (as.length + 1) + 1 from rfl]
    rw [chunkedAux]
    rw [List.take_of_length_le hle, List.drop_eq_nil_of_le hle]
    rw [show chunkedAux n (as.length + 1) ([] : List α) = [] from rfl]

theorem streamDetect_single (content : String) (chunkSize : Nat) (h0 : content ≠ "")
    (hle : content.length ≤ chunkSize) (hn : chunkSize ≠ 0) :
    streamDetect content chunkSize =
      mergeMatches (detectMultiLabel content defaultThreshold) := by
  have hd0 : content.data ≠ [] := by
    intro h
    apply h0
    cases content
    simp_all
  have hdl : content.data.length ≤ chunkSize := hle
  unfold streamDetect
  rw [chunked_single content.data chunkSize hd0 hdl hn]
  simp only [List.foldl_cons, List.foldl_nil, List.drop_nil, List.nil_append]

theorem initPatterns_weights_nonneg : ∀ p ∈ initPatterns, 0 ≤ p.weight := by
  with_unfolding_all decide

theorem short_name_notin_extractFunctions (text : List Char) (s : String)
    (h : ¬1 < s.length) : s ∉ extractFunctions text := by
  intro hmem
  rw [extractFunctions, mem_dedupFirst] at hmem
  obtain ⟨l, _, hl⟩ := List.mem_flatMap.mp hmem
  have hp := List.of_mem_filter hl
  rw [Bool.and_eq_true, decide_eq_true_eq, decide_eq_true_eq] at hp
  exact h hp.2

theorem lineNumScanAux_mem_of_first (g : String) (n : Nat) :
    ∀ (k : Nat) (s : List Char) (fuel : Nat), s.length < fuel →
      tryLineNum (s.drop k) = some (g, n) →
      (∀ j < k, tryLineNum (s.drop j) = none) →
      g ∈ lineNumScanAux fuel s := by
  intro k
  induction k with
  | zero =>
    intro s fuel hf hk _
    cases s with
    | nil => rw [List.drop_nil] at hk; simp [tryLineNum, ciPre] at hk
    | cons c rest =>
      cases fuel with
      | zero => exact absurd hf (by omega)
      | succ f =>
        rw [List.drop_zero] at hk
        rw [lineNumScanAux, hk]
        exact List.mem_cons_self _ _
  | succ k ih =>
    intro s fuel hf hk hbefore
    cases s with
    | nil => rw [List.drop_nil] at hk; simp [tryLineNum, ciPre] at hk
    | cons c rest =>
      cases fuel with
      | zero => exact absurd hf (by omega)
      | succ f =>
        have h0 : tryLineNum (c :: rest) = none := by
          have := hbefore 0 (Nat.succ_pos k)
          rwa [List.drop_zero] at this
        rw [lineNumScanAux, h0]
        refine ih rest f (by simpa using Nat.lt_of_succ_lt_succ hf) ?_ ?_
        · rw [← List.drop_succ_cons]
          exact hk
        · intro j hj
          have := hbefore (j + 1) (Nat.succ_lt_succ hj)
          rwa [List.drop_succ_cons] at this

theorem pyFileScanAux_mem_of_first (g : String) (n : Nat) :
    ∀ (k : Nat) (s : List Char) (fuel : Nat), s.length < fuel →
      tryPyFile (s.drop k) = some (g, n) →
      (∀ j < k, tryPyFile (s.drop j) = none) →
      g ∈ pyFileScanAux fuel s := by
  intro k
  induction k with
  | zero =>
    intro s fuel hf hk _
    cases s with
    | nil => rw [List.drop_nil] at hk; simp [tryPyFile, ciPre] at hk
    | cons c rest =>
      cases fuel with
      | zero => exact absurd hf (by omega)
      | succ f =>
        rw [List.drop_zero] at hk
        rw [pyFileScanAux, hk]
        exact List.mem_cons_self _ _
  | succ k ih =>
    intro s fuel hf hk hbefore
    cases s with
    | nil => rw [List.drop_nil] at hk; simp [tryPyFile, ciPre] at hk
    | cons c rest =>
      cases fuel with
      | zero => exact absurd hf (by omega)
      | succ f =>
        have h0 : tryPyFile (c :: rest) = none := by
          have := hbefore 0 (Nat.succ_pos k)
          rwa [List.drop_zero] at this
        rw [pyFileScanAux, h0]
        refine ih rest f (by simpa using Nat.lt_of_succ_lt_succ hf) ?_ ?_
        · rw [← List.drop_succ_cons]
          exact hk
        · intro j hj
          have := hbefore (j + 1) (Nat.succ_lt_succ hj)
          rwa [List.drop_succ_cons] at this

theorem tryPyFile_sub5 (v : List Char) :
    tryPyFile ((sub5.data ++ v).drop 0) = some ("x.py", 11) := rfl

theorem tryLineNum_sub5 (v : List Char) :
    tryLineNum ((sub5.data ++ v).drop 13) = some ("12", 7) := rfl

/-- Every position of a `takeWhile` prefix satisfies the predicate in the
underlying list. -/
theorem takeWhile_pred_at {α : Type} (p : α → Bool) (l : List α) (i : Nat)
    (h : i < (l.takeWhile p).length) :
    ∃ a, l[i]? = some a ∧ p a = true := by
  have hpre : l.takeWhile p <+: l := List.takeWhile_prefix p
  have hi : i < l.length := lt_of_lt_of_le h hpre.length_le
  have he : (l.takeWhile p)[i] = l[i] := hpre.getElem h
  refine ⟨l[i], List.getElem?_eq_getElem hi, ?_⟩
  rw [← he]
  exact List.mem_takeWhile_imp (List.getElem_mem h)

theorem pre_getElem_fact {α : Type} {l1 l2 : List α} (h : l1 <+: l2) (i : Nat)
    (hi : i < l1.length) : l2[i]? = l1[i]? := by
  rw [List.getElem?_eq_getElem hi,
    List.getElem?_eq_getElem (lt_of_lt_of_le hi h.length_le), h.getElem hi]

/-- A successful case-insensitive literal match fixes each covered character
up to `toLower`. -/
theorem ciPre_get : ∀ (pat s : List Char), ciPre pat s = true → ∀ i, i < pat.length →
    ∃ c p, s[i]? = some c ∧ pat[i]? = some p ∧ c.toLower = p.toLower := by
  intro pat
  induction pat with
  | nil => intro s _ i hi; exact absurd hi (by simp)
  | cons p ps ih =>
    intro s h i hi
    cases s with
    | nil => simp [ciPre] at h
    | cons c cs =>
      simp only [ciPre, Bool.and_eq_true, decide_eq_true_eq] at h
      cases i with
      | zero => exact ⟨c, p, by simp, by simp, h.1⟩
      | succ j =>
        obtain ⟨c2, p2, hc2, hp2, he⟩ := ih cs h.2 j (by simpa using Nat.lt_of_succ_lt_succ hi)
        exact ⟨c2, p2, by simpa using hc2, by simpa using hp2, he⟩

/-- Positional anatomy of a successful `tryLineNum` match: the literal
occupies positions 0–3, a non-empty whitespace run follows, then a
non-empty digit run, and the consumption is their total length. -/
theorem tryLineNum_some_facts {s : List Char} {g : String} {n : Nat}
    (h : tryLineNum s = some (g, n)) :
    ∃ w m,
      ciPre "line".data s = true ∧ 0 < w ∧
      (∀ i, i < w → ∃ a, s[4 + i]? = some a ∧ a.isWhitespace = true) ∧
      0 < m ∧
      (∀ i, i < m → ∃ a, s[4 + w + i]? = some a ∧ a.isDigit = true) ∧
      n = 4 + w + m := by
  rw [tryLineNum] at h
  split at h
  case isFalse => simp at h
  case isTrue hci =>
  try simp only at h
  split at h
  case isFalse => simp at h
  case isTrue hw =>
  split at h
  case isFalse => simp at h
  case isTrue hm =>
  simp only [Option.some.injEq, Prod.mk.injEq] at h
  refine ⟨((s.drop 4).takeWhile Char.isWhitespace).length,
    (((s.drop 4).drop ((s.drop 4).takeWhile Char.isWhitespace).length).takeWhile
      Char.isDigit).length,
    hci, hw, ?_, hm, ?_, h.2.symm⟩
  · intro i hi
    obtain ⟨a, ha, hpa⟩ := takeWhile_pred_at Char.isWhitespace (s.drop 4) i hi
    rw [List.getElem?_drop] at ha
    exact ⟨a, ha, hpa⟩
  · intro i hi
    obtain ⟨a, ha, hpa⟩ := takeWhile_pred_at Char.isDigit
      ((s.drop 4).drop ((s.drop 4).takeWhile Char.isWhitespace).length) i hi
    rw [List.getElem?_drop, List.getElem?_drop] at ha
    rw [← Nat.add_assoc] at ha
    exact ⟨a, ha, hpa⟩

/-- Positional anatomy of a successful `tryPyFile` match: literal at 0–3, a
non-empty whitespace run, an opening quote, a quote-free group of length at
least 4 whose last three characters case-insensitively spell `.py` (so its
third-from-last character lowers to a dot), and a closing quote; the
consumption runs exactly through the closing quote. -/
theorem tryPyFile_some_facts {s : List Char} {g : String} {n : Nat}
    (h : tryPyFile s = some (g, n)) :
    ∃ w m,
      ciPre "File".data s = true ∧ 0 < w ∧
      (∀ i, i < w → ∃ a, s[4 + i]? = some a ∧ a.isWhitespace = true) ∧
      s[4 + w]? = some dqc ∧
      (∀ i, i < m → ∃ a, s[4 + w + 1 + i]? = some a ∧ ¬ a = dqc) ∧
      s[4 + w + 1 + m]? = some dqc ∧
      4 ≤ m ∧
      (∃ a, s[4 + w + 1 + (m - 3)]? = some a ∧ a.toLower = Char.toLower '.') ∧
      n = 4 + w + 1 + m + 1 := by
  rw [tryPyFile] at h
  split at h
  · rename_i hci
    try simp only at h
    split at h
    · rename_i hw
      split at h
      · rename_i c rest2 heq
        split at h
        · rename_i hcq
          try simp only at h
          split at h
          · rename_i q tail heq2
            split at h
            · rename_i hcond
              simp only [Option.some.injEq, Prod.mk.injEq] at h
              simp only [Bool.and_eq_true, decide_eq_true_eq] at hcond
              obtain ⟨⟨hqd, hm4⟩, hsuf⟩ := hcond
              set W := ((s.drop 4).takeWhile Char.isWhitespace).length with hWdef
              set SEG := rest2.takeWhile (fun d => d ≠ dqc) with hSEGdef
              have hws : ∀ i, i < W → ∃ a, s[4 + i]? = some a ∧ a.isWhitespace = true := by
                intro i hi
                obtain ⟨a, ha, hpa⟩ := takeWhile_pred_at Char.isWhitespace (s.drop 4) i hi
                rw [List.getElem?_drop] at ha
                exact ⟨a, ha, hpa⟩
              have hq1 : s[4 + W]? = some dqc := by
                have h0 : ((s.drop 4).drop W)[0]? = some c := by rw [heq]; simp
                rw [List.getElem?_drop, List.getElem?_drop] at h0
                rw [hcq] at h0
                simpa using h0
              have hrest2 : rest2 = s.drop (4 + W + 1) := by
                have h0 := congrArg List.tail heq
                rw [List.tail_drop, List.drop_drop] at h0
                simp only [List.tail_cons] at h0
                rw [← Nat.add_assoc] at h0
                exact h0.symm
              have hsegel : ∀ i, i < SEG.length →
                  ∃ a, s[4 + W + 1 + i]? = some a ∧ ¬ a = dqc := by
                intro i hi
                obtain ⟨a, ha, hpa⟩ := takeWhile_pred_at (fun d => d ≠ dqc) rest2 i hi
                rw [hrest2, List.getElem?_drop] at ha
                exact ⟨a, ha, by simpa using hpa⟩
              have hclose : s[4 + W + 1 + SEG.length]? = some dqc := by
                have h0 : (rest2.drop SEG.length)[0]? = some q := by rw [heq2]; simp
                rw [hrest2, List.drop_drop, List.getElem?_drop] at h0
                rw [hqd] at h0
                simpa [Nat.add_assoc] using h0
              have hsufa : ∃ a, s[4 + W + 1 + (SEG.length - 3)]? = some a ∧
                  a.toLower = Char.toLower '.' := by
                rw [ciSuffix, Bool.and_eq_true, decide_eq_true_eq] at hsuf
                obtain ⟨h3, hciS⟩ := hsuf
                obtain ⟨c0, p0, hc0, hp0, hlow⟩ :=
                  ciPre_get ".py".data (SEG.drop (SEG.length - 3)) hciS 0 (by simp)
                have hp0v : p0 = '.' := by
                  have hd : (".py".data)[0]? = some '.' := by decide
                  rw [hd] at hp0
                  exact (Option.some.inj hp0).symm
                rw [List.getElem?_drop, Nat.add_zero] at hc0
                have hpre : SEG <+: rest2 := List.takeWhile_prefix _
                have hlt : SEG.length - 3 < SEG.length := by omega
                have hth := pre_getElem_fact hpre (SEG.length - 3) hlt
                rw [← hth, hrest2, List.getElem?_drop] at hc0
                exact ⟨c0, hc0, by rw [hlow, hp0v]⟩
              exact ⟨W, SEG.length, hci, hw, hws, hq1, hsegel, hclose, hm4, hsufa, h.2.symm⟩
            · simp at h
          · simp at h
        · simp at h
      · simp at h
    · simp at h
  · simp at h

/-- Reading a character of the text at or after the start of the embedded
occurrence of `sub5` lands in `sub5` (within its 26 characters). -/
theorem getElem_pre_sub5 (u v : List Char) (i : Nat) (h1 : u.length ≤ i)
    (h2 : i - u.length < 26) :
    (u ++ (sub5.data ++ v))[i]? = sub5.data[i - u.length]? := by
  rw [List.getElem?_append_right h1]
  exact List.getElem?_append_left (by
    have e : sub5.data.length = 26 := rfl
    omega)

/-- No `line\s+(\d+)` match that starts inside a non-empty prefix can
consume past the prefix into the embedded `sub5` occurrence: the literal
cannot overlap the initial `F`, and neither a whitespace run nor a digit
run can absorb it. -/
theorem tryLineNum_crossing (u v : List Char) (hu : u ≠ []) (g : String) (n : Nat)
    (h : tryLineNum (u ++ (sub5.data ++ v)) = some (g, n)) : n ≤ u.length := by
  by_contra hn
  push_neg at hn
  obtain ⟨w, m, hci, hw, hws, hm, hdig, hneq⟩ := tryLineNum_some_facts h
  have hL : 1 ≤ u.length := by
    cases u with
    | nil => exact absurd rfl hu
    | cons a b => simp
  have hF : (u ++ (sub5.data ++ v))[u.length]? = some 'F' := by
    rw [getElem_pre_sub5 u v u.length le_rfl (by omega), Nat.sub_self]
    decide
  rcases Nat.lt_or_ge u.length 4 with h4 | h4
  · obtain ⟨c0, p0, hc0, hp0, hlow⟩ := ciPre_get "line".data (u ++ (sub5.data ++ v)) hci
      u.length (by have e : ("line".data).length = 4 := rfl; omega)
    rw [hF] at hc0
    rw [← Option.some.inj hc0] at hlow
    rcases (by omega : u.length = 1 ∨ u.length = 2 ∨ u.length = 3) with h1 | h1 | h1
    · rw [h1] at hp0
      have hd : ("line".data)[1]? = some 'i' := by decide
      rw [hd] at hp0
      rw [← Option.some.inj hp0] at hlow
      exact absurd hlow (by decide)
    · rw [h1] at hp0
      have hd : ("line".data)[2]? = some 'n' := by decide
      rw [hd] at hp0
      rw [← Option.some.inj hp0] at hlow
      exact absurd hlow (by decide)
    · rw [h1] at hp0
      have hd : ("line".data)[3]? = some 'e' := by decide
      rw [hd] at hp0
      rw [← Option.some.inj hp0] at hlow
      exact absurd hlow (by decide)
  · rcases Nat.lt_or_ge u.length (4 + w) with h5 | h5
    · obtain ⟨a, ha, hpa⟩ := hws (u.length - 4) (by omega)
      have he : 4 + (u.length - 4) = u.length := by omega
      rw [he, hF] at ha
      rw [← Option.some.inj ha] at hpa
      exact absurd hpa (by decide)
    · obtain ⟨a, ha, hpa⟩ := hdig (u.length - (4 + w)) (by omega)
      have he : 4 + w + (u.length - (4 + w)) = u.length := by omega
      rw [he, hF] at ha
      rw [← Option.some.inj ha] at hpa
      exact absurd hpa (by decide)

/-- No `File\s+"([^\"]+\.py)"` match that starts inside a non-empty prefix
can consume past the prefix into the embedded `sub5` occurrence: the
literal cannot overlap the initial `F`, the whitespace run cannot absorb
it, the opening quote cannot sit on it, and a closing quote at or beyond it
could only be the quote before `x.py` — which would force the group to end
in `e ` rather than a case-insensitive `.py`. -/
theorem tryPyFile_crossing (u v : List Char) (hu : u ≠ []) (g : String) (n : Nat)
    (h : tryPyFile (u ++ (sub5.data ++ v)) = some (g, n)) : n ≤ u.length := by
  by_contra hn
  push_neg at hn
  obtain ⟨w, m, hci, hw, hws, hq1, hsegel, hclose, hm4, hsufa, hneq⟩ := tryPyFile_some_facts h
  have hL : 1 ≤ u.length := by
    cases u with
    | nil => exact absurd rfl hu
    | cons a b => simp
  have hF : (u ++ (sub5.data ++ v))[u.length]? = some 'F' := by
    rw [getElem_pre_sub5 u v u.length le_rfl (by omega), Nat.sub_self]
    decide
  rcases Nat.lt_or_ge u.length 4 with h4 | h4
  · obtain ⟨c0, p0, hc0, hp0, hlow⟩ := ciPre_get "File".data (u ++ (sub5.data ++ v)) hci
      u.length (by have e : ("File".data).length = 4 := rfl; omega)
    rw [hF] at hc0
    rw [← Option.some.inj hc0] at hlow
    rcases (by omega : u.length = 1 ∨ u.length = 2 ∨ u.length = 3) with h1 | h1 | h1
    · rw [h1] at hp0
      have hd : ("File".data)[1]? = some 'i' := by decide
      rw [hd] at hp0
      rw [← Option.some.inj hp0] at hlow
      exact absurd hlow (by decide)
    · rw [h1] at hp0
      have hd : ("File".data)[2]? = some 'l' := by decide
      rw [hd] at hp0
      rw [← Option.some.inj hp0] at hlow
      exact absurd hlow (by decide)
    · rw [h1] at hp0
      have hd : ("File".data)[3]? = some 'e' := by decide
      rw [hd] at hp0
      rw [← Option.some.inj hp0] at hlow
      exact absurd hlow (by decide)
  · rcases Nat.lt_or_ge u.length (4 + w) with h5 | h5
    · obtain ⟨a, ha, hpa⟩ := hws (u.length - 4) (by omega)
      have he : 4 + (u.length - 4) = u.length := by omega
      rw [he, hF] at ha
      rw [← Option.some.inj ha] at hpa
      exact absurd hpa (by decide)
    · rcases Nat.lt_or_ge (4 + w) u.length with h6 | h6
      · have hQle : 4 + w + 1 + m ≤ u.length + 5 := by
          by_contra hQ
          push_neg at hQ
          obtain ⟨a, ha, hpa⟩ := hsegel (u.length + 5 - (4 + w + 1)) (by omega)
          have he : 4 + w + 1 + (u.length + 5 - (4 + w + 1)) = u.length + 5 := by omega
          rw [he] at ha
          have hq5 : (u ++ (sub5.data ++ v))[u.length + 5]? = some dqc := by
            rw [getElem_pre_sub5 u v (u.length + 5) (by omega) (by omega)]
            have e5 : u.length + 5 - u.length = 5 := by omega
            rw [e5]
            decide
          rw [hq5] at ha
          rw [← Option.some.inj ha] at hpa
          exact hpa rfl
        have hQge : u.length ≤ 4 + w + 1 + m := by omega
        have hched := getElem_pre_sub5 u v (4 + w + 1 + m) hQge (by omega)
        rw [hclose] at hched
        have hQ5 : 4 + w + 1 + m = u.length + 5 := by
          rcases (by omega : 4 + w + 1 + m - u.length = 0 ∨ 4 + w + 1 + m - u.length = 1 ∨
              4 + w + 1 + m - u.length = 2 ∨ 4 + w + 1 + m - u.length = 3 ∨
              4 + w + 1 + m - u.length = 4 ∨ 4 + w + 1 + m - u.length = 5) with
            he | he | he | he | he | he <;> rw [he] at hched
          · exact absurd hched (by decide)
          · exact absurd hched (by decide)
          · exact absurd hched (by decide)
          · exact absurd hched (by decide)
          · exact absurd hched (by decide)
          · omega
        obtain ⟨a, ha, hlow⟩ := hsufa
        have he : 4 + w + 1 + (m - 3) = u.length + 2 := by omega
        rw [he] at ha
        have hl2 : (u ++ (sub5.data ++ v))[u.length + 2]? = some 'l' := by
          rw [getElem_pre_sub5 u v (u.length + 2) (by omega) (by omega)]
          have e2 : u.length + 2 - u.length = 2 := by omega
          rw [e2]
          decide
        rw [hl2] at ha
        rw [← Option.some.inj ha] at hlow
        exact absurd hlow (by decide)
      · have he : 4 + w = u.length := by omega
        rw [he, hF] at hq1
        exact absurd (Option.some.inj hq1) (by decide)

/-- The `File\s+"([^\"]+\.py)"` scan of any text embedding `sub5` emits
`x.py`: by induction on fuel, every match starting before the occurrence
stops at or before its start (`tryPyFile_crossing`), so the scan eventually
reaches the occurrence and matches it. -/
theorem pyFileScanAux_mem_pre :
    ∀ (fuel : Nat) (u v : List Char), (u ++ (sub5.data ++ v)).length < fuel →
      "x.py" ∈ pyFileScanAux fuel (u ++ (sub5.data ++ v)) := by
  intro fuel
  induction fuel with
  | zero => intro u v hf; exact absurd hf (by omega)
  | succ f ih =>
    intro u v hf
    cases u with
    | nil =>
      rw [List.nil_append] at hf ⊢
      exact pyFileScanAux_mem_of_first "x.py" 11 0 (sub5.data ++ v) (f + 1)
        hf (tryPyFile_sub5 v) (fun j hj => absurd hj (Nat.not_lt_zero j))
    | cons c u2 =>
      rw [List.cons_append] at hf ⊢
      cases htry : tryPyFile (c :: (u2 ++ (sub5.data ++ v))) with
      | none =>
        rw [pyFileScanAux, htry]
        refine ih u2 v ?_
        simp only [List.length_cons] at hf
        omega
      | some gn =>
        have hcross : gn.2 ≤ (c :: u2).length := by
          obtain ⟨g, n⟩ := gn
          exact tryPyFile_crossing (c :: u2) v (by simp) g n
            (by rw [List.cons_append]; exact htry)
        have hpos : 0 < gn.2 := tryPyFile_pos htry
        rw [pyFileScanAux, htry]
        refine List.mem_cons_of_mem _ ?_
        have hdrop : (c :: (u2 ++ (sub5.data ++ v))).drop gn.2
            = ((c :: u2).drop gn.2) ++ (sub5.data ++ v) := by
          rw [← List.cons_append]
          exact List.drop_append_of_le_length hcross
        rw [hdrop]
        refine ih ((c :: u2).drop gn.2) v ?_
        rw [List.length_append, List.length_drop]
        simp only [List.length_cons] at hf hcross ⊢
        rw [List.length_append] at hf
        omega

/-- The `line\s+(\d+)` scan of any text embedding `sub5` emits `12`, by the
same induction with `tryLineNum_crossing`. -/
theorem lineNumScanAux_mem_pre :
    ∀ (fuel : Nat) (u v : List Char), (u ++ (sub5.data ++ v)).length < fuel →
      "12" ∈ lineNumScanAux fuel (u ++ (sub5.data ++ v)) := by
  intro fuel
  induction fuel with
  | zero => intro u v hf; exact absurd hf (by omega)
  | succ f ih =>
    intro u v hf
    cases u with
    | nil =>
      rw [List.nil_append] at hf ⊢
      refine lineNumScanAux_mem_of_first "12" 7 13 (sub5.data ++ v) (f + 1)
        hf (tryLineNum_sub5 v) ?_
      intro j hj
      interval_cases j <;> rfl
    | cons c u2 =>
      rw [List.cons_append] at hf ⊢
      cases htry : tryLineNum (c :: (u2 ++ (sub5.data ++ v))) with
      | none =>
        rw [lineNumScanAux, htry]
        refine ih u2 v ?_
        simp only [List.length_cons] at hf
        omega
      | some gn =>
        have hcross : gn.2 ≤ (c :: u2).length := by
          obtain ⟨g, n⟩ := gn
          exact tryLineNum_crossing (c :: u2) v (by simp) g n
            (by rw [List.cons_append]; exact htry)
        have hpos : 0 < gn.2 := tryLineNum_pos htry
        rw [lineNumScanAux, htry]
        refine List.mem_cons_of_mem _ ?_
        have hdrop : (c :: (u2 ++ (sub5.data ++ v))).drop gn.2
            = ((c :: u2).drop gn.2) ++ (sub5.data ++ v) := by
          rw [← List.cons_append]
          exact List.drop_append_of_le_length hcross
        rw [hdrop]
        refine ih ((c :: u2).drop gn.2) v ?_
        rw [List.length_append, List.length_drop]
        simp only [List.length_cons] at hf hcross ⊢
        rw [List.length_append] at hf
        omega

theorem mem_pyFileScan_sub5 (u v : List Char) :
    "x.py" ∈ pyFileScan (u ++ (sub5.data ++ v)) := by
  unfold pyFileScan
  exact pyFileScanAux_mem_pre _ u v (Nat.lt_succ_self _)

theorem mem_lineNumScan_sub5 (u v : List Char) :
    "12" ∈ lineNumScan (u ++ (sub5.data ++ v)) := by
  unfold lineNumScan
  exact lineNumScanAux_mem_pre _ u v (Nat.lt_succ_self _)

theorem mem_extractFilesAdvanced_sub5 (u v : List Char) :
    "x.py" ∈ extractFilesAdvanced (u ++ (sub5.data ++ v)) := by
  rw [extractFilesAdvanced, List.mem_filter]
  refine ⟨?_, by with_unfolding_all decide⟩
  rw [mem_dedupFirst]
  exact List.mem_append_right _ (mem_pyFileScan_sub5 u v)

theorem mem_extractLineNumbersAdvanced_sub5 (u v : List Char) :
    12 ∈ extractLineNumbersAdvanced (u ++ (sub5.data ++ v)) := by
  rw [extractLineNumbersAdvanced, mem_dedupFirst]
  refine List.mem_filterMap.mpr ⟨"12", ?_, by with_unfolding_all decide⟩
  exact List.mem_append_left _ (mem_lineNumScan_sub5 u v)

theorem except_bind_ok {A B : Type} (e : Except String A) (f : A → Except String B)
    (b : B) (h : e >>= f = .ok b) : ∃ a, e = .ok a ∧ f a = .ok b := by
  cases e with
  | error err => simp [Bind.bind, Except.bind] at h
  | ok a =>
    refine ⟨a, rfl, ?_⟩
    simpa [Bind.bind, Except.bind] using h

theorem mergeInfoKey_fields (info : ExtractedInfo) (k : String) (vs : List String) :
    (mergeInfoKey info k vs).files = info.files ∧
    (mergeInfoKey info k vs).lineNumbers = info.lineNumbers ∧
    (mergeInfoKey info k vs).functions = info.functions := by
  rw [mergeInfoKey]
  by_cases h : k ∈ fixedInfoKeys
  · rw [if_pos h]
    exact ⟨rfl, rfl, rfl⟩
  · rw [if_neg h]
    exact ⟨rfl, rfl, rfl⟩

theorem foldl_mergeInfoKey_fields (kvs : List (String × List String)) :
    ∀ (acc : ExtractedInfo),
      ((kvs.foldl (fun acc kv => mergeInfoKey acc kv.1 kv.2) acc)).files = acc.files ∧
      ((kvs.foldl (fun acc kv => mergeInfoKey acc kv.1 kv.2) acc)).lineNumbers =
        acc.lineNumbers ∧
      ((kvs.foldl (fun acc kv => mergeInfoKey acc kv.1 kv.2) acc)).functions =
        acc.functions := by
  induction kvs with
  | nil => intro acc; exact ⟨rfl, rfl, rfl⟩
  | cons kv rest ih =>
    intro acc
    rw [List.foldl_cons]
    obtain ⟨h1, h2, h3⟩ := ih (mergeInfoKey acc kv.1 kv.2)
    obtain ⟨g1, g2, g3⟩ := mergeInfoKey_fields acc kv.1 kv.2
    exact ⟨h1.trans g1, h2.trans g2, h3.trans g3⟩

theorem foldl_matches_mergeInfo_fields (ms : List ErrorMatch) :
    ∀ (acc : ExtractedInfo),
      ((ms.foldl (fun acc m => m.extractedInfo.foldl
          (fun acc kv => mergeInfoKey acc kv.1 kv.2) acc) acc)).files = acc.files ∧
      ((ms.foldl (fun acc m => m.extractedInfo.foldl
          (fun acc kv => mergeInfoKey acc kv.1 kv.2) acc) acc)).lineNumbers =
        acc.lineNumbers ∧
      ((ms.foldl (fun acc m => m.extractedInfo.foldl
          (fun acc kv => mergeInfoKey acc kv.1 kv.2) acc) acc)).functions =
        acc.functions := by
  induction ms with
  | nil => intro acc; exact ⟨rfl, rfl, rfl⟩
  | cons m ms ih =>
    intro acc
    rw [List.foldl_cons]
    obtain ⟨h1, h2, h3⟩ := ih (m.extractedInfo.foldl
      (fun acc kv => mergeInfoKey acc kv.1 kv.2) acc)
    obtain ⟨g1, g2, g3⟩ := foldl_mergeInfoKey_fields m.extractedInfo acc
    exact ⟨h1.trans g1, h2.trans g2, h3.trans g3⟩

theorem extractOk_fields (t : String) (info : ExtractedInfo)
    (h : extractComprehensiveInfo t = .ok info) :
    info.files = dedupFirst (extractFilesAdvanced t.data) ∧
    info.lineNumbers = dedupFirst (extractLineNumbersAdvanced t.data) ∧
    info.functions = dedupFirst (extractFunctions t.data) := by
  unfold extractComprehensiveInfo at h
  try simp only at h
  obtain ⟨sugg, hs, h2⟩ := except_bind_ok _ _ _ h
  try simp only at h2
  obtain ⟨dt, hdt, h3⟩ := except_bind_ok _ _ _ h2
  simp only [pure, Except.pure, Except.ok.injEq] at h3
  obtain ⟨f1, f2, f3⟩ := foldl_matches_mergeInfo_fields
    (detectMultiLabel t defaultThreshold)
    { errorCategories := (detectMultiLabel t defaultThreshold).map
        fun m => (m.category.value, m.confidence)
      severity := match detectMultiLabel t defaultThreshold with
        | [] => "unknown" | m :: _ => m.severity
      files := extractFilesAdvanced t.data
      lineNumbers := extractLineNumbersAdvanced t.data
      functions := extractFunctions t.data
      varNames := extractVariables t.data
      urls := extractUrls t.data
      stackTraces := extractStackTraces t.data
      errorCodes := extractErrorCodesAdvanced t.data
      timestamps := extractTimestamps t.data
      environment := extractEnvironmentInfo t.data
      suggestions := sugg
      extra := [] }
  rw [← h3]
  refine ⟨?_, ?_, ?_⟩
  · simp only [f1]
  · simp only [f2]
  · simp only [f3]

theorem tsysInv_refl (a : TSysState) : tsysInv a a :=
  ⟨rfl, rfl, rfl, rfl, fun _ _ => rfl⟩

theorem tsysInv_trans {a b c : TSysState} (h1 : tsysInv a b) (h2 : tsysInv b c) :
    tsysInv a c := by
  obtain ⟨t1, v1, l1, d1, c1⟩ := h1
  obtain ⟨t2, v2, l2, d2, c2⟩ := h2
  exact ⟨t1.trans t2, v1.trans v2, l1.trans l2, d1.trans d2,
    fun k hk => (c1 k hk).trans (c2 k hk)⟩

theorem assocSet_lookup {β : Type} (l : List (String × β)) (k : String) (v : β)
    (k2 : String) :
    (assocSet l k v).lookup k2 = if k2 = k then some v else l.lookup k2 := by
  induction l with
  | nil => by_cases h : k2 = k <;> simp [assocSet, lookup_cons_pair, h]
  | cons e rest ih =>
    obtain ⟨k0, v0⟩ := e
    by_cases h0 : k0 = k
    · subst h0
      by_cases h2 : k2 = k0 <;> simp [assocSet, lookup_cons_pair, h2]
    · by_cases h2 : k2 = k0
      · subst h2
        simp [assocSet, h0, lookup_cons_pair, Ne.symm h0]
      · by_cases h3 : k2 = k
        · subst h3
          simp [assocSet, h0, lookup_cons_pair, h2, ih]
        · simp [assocSet, h0, lookup_cons_pair, h2, ih, h3]

theorem assocSet_idem {β : Type} (l : List (String × β)) (k : String) (v : β) :
    assocSet (assocSet l k v) k v = assocSet l k v := by
  induction l with
  | nil => simp [assocSet]
  | cons e rest ih =>
    obtain ⟨k0, v0⟩ := e
    by_cases h0 : k0 = k
    · simp [assocSet, h0]
    · simp [assocSet, h0, ih]

theorem compiled_ne_resolved (a pre : String) : "compiled_" ++ a ≠ "resolved_" ++ pre := by
  intro h
  have h2 := congrArg (fun s : String => s.data.head?) h
  simp only at h2
  rw [show ("compiled_" ++ a).data = 'c' :: ("ompiled_".data ++ a.data) by
    rw [String.data_append]; rfl] at h2
  rw [show ("resolved_" ++ pre).data = 'r' :: ("esolved_".data ++ pre.data) by
    rw [String.data_append]; rfl] at h2
  simp at h2

theorem foldl_step_inv {α : Type}
    (step : Option (List String × TSysState) → α → Option (List String × TSysState))
    (hnone : ∀ x, step none x = none)
    (hsome : ∀ cs s x, step (some (cs, s)) x = none ∨
      ∃ cs' s', step (some (cs, s)) x = some (cs', s') ∧ tsysInv s' s) :
    ∀ (l : List α) (cs0 : List String) (s0 : TSysState) (cs : List String)
      (s' : TSysState),
      l.foldl step (some (cs0, s0)) = some (cs, s') → tsysInv s' s0 := by
  have hfoldnone : ∀ (l : List α), l.foldl step none = none := by
    intro l
    induction l with
    | nil => rfl
    | cons a as ih => rw [List.foldl_cons, hnone]; exact ih
  intro l
  induction l with
  | nil =>
    intro cs0 s0 cs s' h
    rw [List.foldl_nil, Option.some.injEq, Prod.mk.injEq] at h
    rw [← h.2]
    exact tsysInv_refl s0
  | cons a as ih =>
    intro cs0 s0 cs s' h
    rw [List.foldl_cons] at h
    rcases hsome cs0 s0 a with hr | ⟨cs1, s1, hr, hinv⟩
    · rw [hr, hfoldnone] at h
      exact absurd h (by simp)
    · rw [hr] at h
      exact tsysInv_trans (ih cs1 s1 cs s' h) hinv

theorem resolveTemplate_state_spec (fuel : Nat) :
    ∀ (st : TSysState) (now : Nat) (name : String) (td? : Option TData)
      (st' : TSysState),
      resolveTemplate fuel st now name = some (td?, st') →
      tsysInv st' st ∧
      (∀ td, td? = some td → 0 < st.ttl →
        cacheGet st' ("resolved_" ++ name) ((st'.versions.lookup name).getD "") now =
          some (.resolved td)) := by
  induction fuel with
  | zero =>
    intro st now name td? st' h
    rw [resolveTemplate] at h
    exact absurd h (by simp)
  | succ f ih =>
    intro st now name td? st' h
    rw [resolveTemplate] at h
    simp only at h
    split at h
    case h_1 d heq =>
      rw [Option.some.injEq, Prod.mk.injEq] at h
      obtain ⟨h1, h2⟩ := h
      subst h2
      refine ⟨tsysInv_refl st, ?_⟩
      intro td htd _
      rw [← h1, Option.some.injEq] at htd
      rw [← htd]
      exact heq
    case h_2 s heq =>
      rw [Option.some.injEq, Prod.mk.injEq] at h
      obtain ⟨h1, h2⟩ := h
      subst h2
      refine ⟨tsysInv_refl st, ?_⟩
      intro td htd _
      rw [← h1] at htd
      exact absurd htd (by simp)
    case h_3 heq =>
      split at h
      case h_1 heqT =>
        rw [Option.some.injEq, Prod.mk.injEq] at h
        obtain ⟨h1, h2⟩ := h
        subst h2
        refine ⟨tsysInv_refl st, ?_⟩
        intro td htd _
        rw [← h1] at htd
        exact absurd htd (by simp)
      case h_2 t heqT =>
        split at h
        case h_1 heqAP =>
          exact absurd h (by simp)
        case h_2 resolved1 st1 heqAP =>
          have hinv1 : tsysInv st1 st := by
            clear h
            split at heqAP
            case h_1 xo p hext =>
              cases hrec : resolveTemplate f st now p with
              | none =>
                rw [hrec] at heqAP
                exact absurd heqAP (by simp)
              | some pst =>
                rw [hrec, Option.map_some', Option.some.injEq] at heqAP
                have hrecinv : tsysInv pst.2 st :=
                  (ih st now p pst.1 pst.2 (by rw [hrec])).1
                split at heqAP
                case h_1 parent hp =>
                  split at heqAP
                  · rw [Prod.mk.injEq] at heqAP
                    rw [← heqAP.2]
                    exact hrecinv
                  · rw [Prod.mk.injEq] at heqAP
                    rw [← heqAP.2]
                    exact hrecinv
                case h_2 hp =>
                  rw [Prod.mk.injEq] at heqAP
                  rw [← heqAP.2]
                  exact hrecinv
            case h_2 xo hext =>
              rw [Option.some.injEq, Prod.mk.injEq] at heqAP
              rw [← heqAP.2]
              exact tsysInv_refl st
          split at h
          case h_1 heqAI =>
            exact absurd h (by simp)
          case h_2 contents st2 heqAI =>
            have hinv2 : tsysInv st2 st1 := by
              clear h
              split at heqAI
              case h_1 xi incs hinc =>
                refine foldl_step_inv _ (fun x => rfl) ?_ incs [] st1 contents st2 heqAI
                intro cs s x
                cases hrec2 : resolveTemplate f s now x with
                | none =>
                  left
                  simp only [hrec2]
                | some pr =>
                  obtain ⟨d?, sx⟩ := pr
                  right
                  have hrinv : tsysInv sx s := (ih s now x d? sx hrec2).1
                  cases d? with
                  | none => exact ⟨cs, sx, by simp only [hrec2], hrinv⟩
                  | some d =>
                    by_cases hd : d.truthy = true ∧ d.templateKey.isSome = true
                    · exact ⟨cs ++ [d.templateKey.getD ""], sx,
                        by simp only [hrec2]; rw [if_pos hd], hrinv⟩
                    · exact ⟨cs, sx, by simp only [hrec2]; rw [if_neg hd], hrinv⟩
              case h_2 xi hinc =>
                rw [Option.some.injEq, Prod.mk.injEq] at heqAI
                rw [← heqAI.2]
                exact tsysInv_refl st1
            rw [Option.some.injEq, Prod.mk.injEq] at h
            obtain ⟨h1, h2⟩ := h
            subst h2
            constructor
            · refine tsysInv_trans (tsysInv_trans ?_ hinv2) hinv1
              refine ⟨rfl, rfl, rfl, rfl, ?_⟩
              intro key hk
              simp only [cacheSet]
              rw [assocSet_lookup, if_neg (hk name)]
            · intro td htd httl
              rw [← h1, Option.some.injEq] at htd
              rw [← htd]
              have hver : st2.versions = st.versions := hinv2.2.1.trans hinv1.2.1
              have httl2 : st2.ttl = st.ttl := hinv2.2.2.1.trans hinv1.2.2.1
              simp [cacheGet, cacheSet, assocSet_lookup, hver, httl2, httl, Nat.sub_self]

theorem getTemplate_caches (fuel : Nat) (st : TSysState) (now : Nat) (name : String)
    (tpl : String) (st1 : TSysState) (httl : 0 < st.ttl)
    (h : getTemplate fuel st now name = some (.ok (tpl, st1))) :
    st1.versions = st.versions ∧ st1.ttl = st.ttl ∧
    ∃ v, cacheGet st1 ("compiled_" ++ name) ((st1.versions.lookup name).getD "") now =
        some v ∧
      (v = .compiled tpl ∨ ∃ d, v = .resolved d ∧ tpl = "") := by
  rw [getTemplate] at h
  split at h
  case h_1 c heqc =>
    rw [Option.some.injEq, Except.ok.injEq, Prod.mk.injEq] at h
    obtain ⟨h1, h2⟩ := h
    subst h2
    refine ⟨rfl, rfl, .compiled c, heqc, ?_⟩
    left
    rw [h1]
  case h_2 x heqc =>
    rw [Option.some.injEq, Except.ok.injEq, Prod.mk.injEq] at h
    obtain ⟨h1, h2⟩ := h
    subst h2
    exact ⟨rfl, rfl, .resolved x, heqc, Or.inr ⟨x, rfl, h1.symm⟩⟩
  case h_3 heqc =>
    cases hrt : resolveTemplate fuel st now name with
    | none =>
      rw [hrt] at h
      exact absurd h (by simp)
    | some pr =>
      obtain ⟨td?, st1'⟩ := pr
      rw [hrt] at h
      cases td? with
      | none => exact absurd h (by simp)
      | some td =>
        obtain ⟨hT, hV, hL, hD, hC⟩ :=
          (resolveTemplate_state_spec fuel st now name (some td) st1' hrt).1
        by_cases htr : td.truthy = true
        · simp only [htr, if_true] at h
          rw [Option.some.injEq, Except.ok.injEq, Prod.mk.injEq] at h
          obtain ⟨h1, h2⟩ := h
          subst h2
          refine ⟨hV, hL, ?_⟩
          refine ⟨.compiled (td.templateKey.getD ""), ?_, ?_⟩
          · show cacheGet _ ("compiled_" ++ name) _ now = _
            unfold cacheGet
            simp only [cacheSet]
            rw [assocSet_lookup, if_pos rfl]
            simp only [hV, hL]
            simp [Nat.sub_self, httl]
          · left
            rw [h1]
        · simp only [htr, Bool.false_eq_true, if_false] at h
          exact absurd h (by simp)

/-! Claim theorems. -/

/-- C7: classification of an empty or whitespace-only input returns the
empty list at every confidence threshold — the empty string through the
early return, whitespace-only text because no catalog pattern can match
inside whitespace. -/
theorem detect_whitespace_empty (text : String) (threshold : ℚ)
    (hws : ∀ c ∈ text.data, c.isWhitespace) :
    detectMultiLabel text threshold = [] := by
  unfold detectMultiLabel detectML
  by_cases he : text = ""
  · simp [he]
  · have hcan : ∀ p ∈ initPatterns, canWS p.flags p.re = false := by
      with_unfolding_all decide
    have hall : ∀ p ∈ initPatterns, patternMatches p text.data = [] := fun p hp =>
      patternMatches_ws_nil (hcan p hp) hws
    simp only [he, if_false, foldl_accum_of_no_match initPatterns [] hall]
    simp [sortByConfDesc]

/-- C7 witness: a concrete whitespace-only input. -/
theorem detect_whitespace_empty_witness :
    (∀ c ∈ (" ").data, c.isWhitespace) ∧ detectMultiLabel " " (3 / 10) = [] :=
  ⟨by decide, detect_whitespace_empty " " (3 / 10) (by decide)⟩

/-- C1: the claim asserts that resolving a template terminates in bounded
time even across an `extends` cycle, the cycle being broken by emptying the
dependency set.  The code does empty the `dependencies` index of the flagged
template (first conjunct), but `_resolve_template` never consults that
index: it recurses on the raw `extends` keys, so on the A-extends-B,
B-extends-A state the resolution exhausts every recursion bound (second
conjunct: no fuel suffices; Python recurses until `RecursionError`). -/
theorem resolve_template_cycle_unbounded :
    cyclicAB.deps.lookup "a" = some [] ∧
    ∀ fuel, resolveTemplate fuel cyclicAB 0 "a" = none ∧
      resolveTemplate fuel cyclicAB 0 "b" = none := by
  refine ⟨by with_unfolding_all decide, fun fuel => ?_⟩
  induction fuel with
  | zero => exact ⟨rfl, rfl⟩
  | succ n ih =>
    refine
      ⟨resolveTemplate_extends_none (t := tdOnlyExtends "b") ?_ ?_ rfl ih.2,
       resolveTemplate_extends_none (t := tdOnlyExtends "a") ?_ ?_ rfl ih.1⟩
    · with_unfolding_all decide
    · with_unfolding_all decide
    · with_unfolding_all decide
    · with_unfolding_all decide

/-- C2: the claim asserts that reloading a base template invalidates the
cached resolved entries of every dependent, so a later resolve of the child
sees the new base content.  In the code `reload_template` invalidates the
bare names (`base`, `child`) while the cache stores entries under
`resolved_base`/`resolved_child`, so after reloading the base with body
`BASE v2` the child still resolves to the stale cached body `BASE v1`
(first conjunct) even though the template store already holds `BASE v2`
(second conjunct). -/
theorem reload_template_dependents_stale :
    ((resolveTemplate 10 c2St2 0 "child").map fun x => x.1.map fun d => d.templateKey) =
      some (some (some "BASE v1")) ∧
    (c2St2.templates.lookup "base").map (fun d => d.templateKey) =
      some (some "BASE v2") := by
  with_unfolding_all decide

/-- C6: on the input `TS2322: Type (string) is not assignable to type
(number).`, classification returns a typescript match whose extracted info
has error_code 2322 and whose severity is high or critical. -/
theorem detect_ts2322_example :
    ∃ m ∈ detectMultiLabel tsInput defaultThreshold,
      m.category = .typescript ∧ m.extractedInfo.lookup "error_code" = some ["2322"] ∧
        (m.severity = "high" ∨ m.severity = "critical") := by
  set_option maxRecDepth 100000 in with_unfolding_all decide

/-- C8: the claim asserts classification and extraction never raise on any
input.  Classification indeed cannot raise, but the final de-duplication
loop of `extract_comprehensive_info` applies `dict.fromkeys` to the
`stack_traces` list, whose elements are dicts — unhashable — so extraction
raises `TypeError` on any input containing a parseable stack trace, here a
minimal one-frame Python traceback (the repository's own
`test_stack_trace_extraction` exercises exactly this path). -/
theorem extract_traceback_raises :
    extractComprehensiveInfo tbInput = .error "TypeError: unhashable type: dict" := by
  set_option maxRecDepth 100000 in with_unfolding_all decide

/-- C3 counterexample: the claim asserts chunked streaming yields the same
multiset of (category, matched text) pairs as direct classification; but
`_merge_matches` drops the raw matches (merged matches carry an empty
list), so already for a single-chunk scan of the TS2322 example the pair
multisets differ. -/
theorem stream_detect_pairs_not_preserved :
    ¬ (matchPairs (streamDetect tsInput 4096)).Perm
        (matchPairs (detectMultiLabel tsInput defaultThreshold)) := by
  set_option maxRecDepth 100000 in with_unfolding_all decide

/-- C5 counterexample: the claim asserts extraction on text containing
`File "x.py", line 12, in f` reports file x.py, line 12 and function f; on
exactly that input the files and line numbers are found but the function
list omits `f`, because `_extract_functions` discards names of length one. -/
theorem extract_sub5_functions_missing :
    exOk (extractComprehensiveInfo sub5) = true ∧
    "x.py" ∈ (exInfo (extractComprehensiveInfo sub5)).files ∧
    12 ∈ (exInfo (extractComprehensiveInfo sub5)).lineNumbers ∧
    "f" ∉ (exInfo (extractComprehensiveInfo sub5)).functions := by
  set_option maxRecDepth 100000 in with_unfolding_all decide

/-- C9 counterexample: the claim asserts rendering performs no hidden
mutation; but `render` assigns `context[_template]` on the caller's context
dict, so rendering with a context that already binds `_template` returns a
context different from the one passed in. -/
theorem render_mutates_context :
    renderIsOk (render 5 c9St 0 c9Jr "rep" c9Ctx) = true ∧
    renderCtx (render 5 c9St 0 c9Jr "rep" c9Ctx) ≠ c9Ctx := by
  with_unfolding_all decide

/-- C10: `_merge_matches` outputs each category at most once; the merged
match of a category carries the arithmetic-mean confidence of that
category's per-chunk matches, an emptied raw-match list, a severity drawn
from the group and maximal under the order low < medium < high < critical,
and per-key extracted info equal to the first-seen-order de-duplication of
the concatenated group infos; the output is sorted by descending
confidence. -/
theorem merge_matches_spec (ms : List ErrorMatch)
    (hsev : ∀ m ∈ ms, m.severity ∈ ["low", "medium", "high", "critical"]) :
    ((mergeMatches ms).map ErrorMatch.category).Nodup ∧
    (mergeMatches ms).Pairwise (fun a b => b.confidence ≤ a.confidence) ∧
    ∀ m ∈ mergeMatches ms,
      catGroup ms m.category ≠ [] ∧
      m.confidence = ((catGroup ms m.category).map fun x => x.confidence).sum /
        ((catGroup ms m.category).length : ℚ) ∧
      m.matchList = [] ∧
      m.severity ∈ (catGroup ms m.category).map (fun x => x.severity) ∧
      (∀ x ∈ catGroup ms m.category, sevRank x.severity ≤ sevRank m.severity) ∧
      (∀ k : String, m.extractedInfo.lookup k =
        if infoKeyPresent (catGroup ms m.category) k then
          some (dedupFirst (concatInfo (catGroup ms m.category) k))
        else none) := by
  have hkeys : ((ms.foldl groupAppend []).map Prod.fst).Nodup :=
    foldl_groupAppend_keys_nodup ms [] (by simp)
  refine ⟨?_, ?_, ?_⟩
  · have h1 : (((ms.foldl groupAppend []).filterMap mergeOne).map
        ErrorMatch.category).Nodup :=
      filterMap_map_cat_nodup _ mergeOne mergeOne_cat hkeys
    have hp : ((mergeMatches ms).map ErrorMatch.category).Perm
        (((ms.foldl groupAppend []).filterMap mergeOne).map ErrorMatch.category) := by
      unfold mergeMatches
      exact (sortByConfDesc_perm _).map _
    exact hp.nodup_iff.mpr h1
  · unfold mergeMatches
    exact sortByConfDesc_sorted _
  · intro m hm
    unfold mergeMatches at hm
    obtain ⟨e, he, hfe⟩ := List.mem_filterMap.mp (mem_sortByConfDesc.mp hm)
    obtain ⟨c, g⟩ := e
    obtain ⟨hg2, hgne⟩ := mem_grouped_spec ms (c, g) he
    simp only at hg2
    subst hg2
    obtain ⟨hcat, hconf, hml, hsevmax, hinfo⟩ := mergeOne_inv c _ m hfe
    rw [hcat]
    obtain ⟨hsmem, hsmax⟩ := pyMaxBy_spec sevRank _ m.severity hsevmax
    refine ⟨hgne, hconf, hml, hsmem, ?_, ?_⟩
    · intro x hx
      exact hsmax x.severity (List.mem_map_of_mem _ hx)
    · intro k
      rw [hinfo, lookup_map_dedup, foldl_group_info_lookup]
      by_cases hp : infoKeyPresent (catGroup ms c) k = true
      · simp [hp]
      · simp [hp]

theorem merge_matches_spec_witness :
    (∀ m ∈ c10In, m.severity ∈ ["low", "medium", "high", "critical"]) ∧
    (((mergeMatches c10In).map ErrorMatch.category).Nodup ∧
    (mergeMatches c10In).Pairwise (fun a b => b.confidence ≤ a.confidence) ∧
    ∀ m ∈ mergeMatches c10In,
      catGroup c10In m.category ≠ [] ∧
      m.confidence = ((catGroup c10In m.category).map fun x => x.confidence).sum /
        ((catGroup c10In m.category).length : ℚ) ∧
      m.matchList = [] ∧
      m.severity ∈ (catGroup c10In m.category).map (fun x => x.severity) ∧
      (∀ x ∈ catGroup c10In m.category, sevRank x.severity ≤ sevRank m.severity) ∧
      (∀ k : String, m.extractedInfo.lookup k =
        if infoKeyPresent (catGroup c10In m.category) k then
          some (dedupFirst (concatInfo (catGroup c10In m.category) k))
        else none)) :=
  ⟨by decide, merge_matches_spec c10In (by decide)⟩

/-- C4: on non-empty input, every match `detect_multi_label` returns has
confidence equal to its category's accumulated weighted score divided by the
sum of all categories' scores, lying in [0, 1] and at least the threshold,
and the returned list is ordered by descending confidence with ties broken
by the category's first-hit position in the catalog (its declaration
order). -/
theorem detect_confidence_order (errorText : String) (threshold : ℚ)
    (hne : errorText ≠ "") :
    (∀ m ∈ detectMultiLabel errorText threshold,
        m.confidence = catScore initPatterns errorText.data m.category /
          totalScore initPatterns errorText.data ∧
        0 ≤ m.confidence ∧ m.confidence ≤ 1 ∧ threshold ≤ m.confidence) ∧
    (detectMultiLabel errorText threshold).Pairwise
      (fun a b => b.confidence ≤ a.confidence ∧
        (b.confidence = a.confidence →
          firstHitIdx initPatterns errorText.data a.category <
            firstHitIdx initPatterns errorText.data b.category)) := by
  have hw : ∀ p ∈ initPatterns, 0 ≤ p.weight := by
    with_unfolding_all decide
  exact detectML_spec initPatterns errorText threshold hw hne

theorem detect_confidence_order_witness :
    "x" ≠ "" ∧
    ((∀ m ∈ detectMultiLabel "x" (3/10),
        m.confidence = catScore initPatterns ("x").data m.category /
          totalScore initPatterns ("x").data ∧
        0 ≤ m.confidence ∧ m.confidence ≤ 1 ∧ (3/10 : ℚ) ≤ m.confidence) ∧
    (detectMultiLabel "x" (3/10)).Pairwise
      (fun a b => b.confidence ≤ a.confidence ∧
        (b.confidence = a.confidence →
          firstHitIdx initPatterns ("x").data a.category <
            firstHitIdx initPatterns ("x").data b.category))) :=
  ⟨by decide, detect_confidence_order "x" (3/10) (by decide)⟩

/-- C3 (amended): streaming is not raw-match-preserving (the merge step
empties each match list — see the counterexample), but scanning input that
fits in one chunk is classification followed by `_merge_matches`: it yields
the same categories, confidences and severities in the same order as
`detect_multi_label` on the whole input, with every raw match list
emptied. -/
theorem stream_detect_single_chunk (content : String) (chunkSize : Nat)
    (h0 : content ≠ "") (hle : content.length ≤ chunkSize) :
    streamDetect content chunkSize =
      mergeMatches (detectMultiLabel content defaultThreshold) ∧
    (streamDetect content chunkSize).map
        (fun m => (m.category, m.confidence, m.severity)) =
      (detectMultiLabel content defaultThreshold).map
        (fun m => (m.category, m.confidence, m.severity)) ∧
    ∀ m ∈ streamDetect content chunkSize, m.matchList = [] := by
  have hn : chunkSize ≠ 0 := by
    intro h
    rw [h] at hle
    have hz : content.length = 0 := Nat.le_zero.mp hle
    apply h0
    cases content
    simp_all
  have heq := streamDetect_single content chunkSize h0 hle hn
  have hnd : ((detectMultiLabel content defaultThreshold).map ErrorMatch.category).Nodup :=
    detectML_cats_nodup initPatterns content defaultThreshold
  have hsorted : (detectMultiLabel content defaultThreshold).Pairwise
      (fun a b => b.confidence ≤ a.confidence) := by
    have h := (detectML_spec initPatterns content defaultThreshold
      initPatterns_weights_nonneg h0).2
    exact h.imp (fun h => h.1)
  obtain ⟨hproj, hempty⟩ := mergeMatches_of_nodup_sorted _ hnd hsorted
  refine ⟨heq, ?_, ?_⟩
  · rw [heq]
    exact hproj
  · rw [heq]
    exact hempty

theorem stream_detect_single_chunk_witness :
    ("x" : String) ≠ "" ∧ ("x" : String).length ≤ 4096 ∧
    (streamDetect "x" 4096 =
      mergeMatches (detectMultiLabel "x" defaultThreshold) ∧
    (streamDetect "x" 4096).map
        (fun m => (m.category, m.confidence, m.severity)) =
      (detectMultiLabel "x" defaultThreshold).map
        (fun m => (m.category, m.confidence, m.severity)) ∧
    ∀ m ∈ streamDetect "x" 4096, m.matchList = []) :=
  ⟨by decide, by decide, stream_detect_single_chunk "x" 4096 (by decide) (by decide)⟩

/-- C5 (amended): on any input that contains `File "x.py", line 12, in f`
as a substring — arbitrary text may precede and follow it — whenever
extraction succeeds its files list contains x.py and its line-number list
contains 12 (no match starting in the preceding text can consume into the
occurrence); but the functions list never contains `f` on any input,
because `_extract_functions` keeps only names longer than one character
(see the counterexample). -/
theorem extract_sub5_universal (pre post : String) (info : ExtractedInfo)
    (h : extractComprehensiveInfo (pre ++ sub5 ++ post) = .ok info) :
    "x.py" ∈ info.files ∧ 12 ∈ info.lineNumbers ∧ "f" ∉ info.functions := by
  obtain ⟨f1, f2, f3⟩ := extractOk_fields (pre ++ sub5 ++ post) info h
  have hdata : (pre ++ sub5 ++ post).data = pre.data ++ (sub5.data ++ post.data) := by
    rw [String.data_append, String.data_append, List.append_assoc]
  refine ⟨?_, ?_, ?_⟩
  · rw [f1, mem_dedupFirst, hdata]
    exact mem_extractFilesAdvanced_sub5 pre.data post.data
  · rw [f2, mem_dedupFirst, hdata]
    exact mem_extractLineNumbersAdvanced_sub5 pre.data post.data
  · rw [f3, mem_dedupFirst]
    exact short_name_notin_extractFunctions _ _ (by decide)

theorem extract_sub5_universal_witness :
    ∃ info, extractComprehensiveInfo ("" ++ sub5 ++ "") = .ok info ∧
      ("x.py" ∈ info.files ∧ 12 ∈ info.lineNumbers ∧ "f" ∉ info.functions) := by
  cases hh : extractComprehensiveInfo ("" ++ sub5 ++ "") with
  | error e =>
    exfalso
    have hok : exOk (extractComprehensiveInfo ("" ++ sub5 ++ "")) = true := by
      set_option maxRecDepth 100000 in with_unfolding_all decide
    rw [hh] at hok
    simp [exOk] at hok
  | ok info => exact ⟨info, rfl, extract_sub5_universal "" "" info hh⟩

/-- C9 (amended): rendering is not pure — it writes the `_template` key into
the caller's context dict (see the counterexample) and caches into the
system state; but the effect is idempotent: re-rendering with the state and
context a successful render returned reproduces the same output, the same
state and the same context. -/
theorem render_repeat_stable (fuel : Nat) (st : TSysState) (now : Nat)
    (jr : String → List (String × CtxVal) → String) (name : String)
    (ctx : List (String × CtxVal)) (out : String) (st2 : TSysState)
    (ctx2 : List (String × CtxVal)) (httl : 0 < st.ttl)
    (h : render fuel st now jr name ctx = some (.ok (out, st2, ctx2))) :
    render fuel st2 now jr name ctx2 = some (.ok (out, st2, ctx2)) := by
  rw [render] at h
  split at h
  case h_1 hgt => exact absurd h (by simp)
  case h_2 e hgt => exact absurd h (by simp)
  case h_3 tpl st1 hgt =>
    split at h
    case h_1 hrt => exact absurd h (by simp)
    case h_2 td? stM hrt =>
      split at h
      case h_1 htd => exact absurd h (by simp)
      case h_2 td =>
        simp only [Option.some.injEq, Except.ok.injEq, Prod.mk.injEq] at h
        obtain ⟨hout, hstM, hctx⟩ := h
        obtain ⟨hV1, hL1, v, hv, hvdisj⟩ :=
          getTemplate_caches fuel st now name tpl st1 httl hgt
        have httl1 : 0 < st1.ttl := by rw [hL1]; exact httl
        obtain ⟨⟨hTM, hVM, hLM, hDM, hCM⟩, hcacheM⟩ :=
          resolveTemplate_state_spec fuel st1 now name (some td) stM hrt
        have hres := hcacheM td rfl httl1
        have hcg2 : cacheGet st2 ("compiled_" ++ name)
            ((st2.versions.lookup name).getD "") now = some v := by
          rw [← hstM]
          unfold cacheGet at hv ⊢
          rw [hCM _ (fun pre => compiled_ne_resolved name pre), hVM, hLM]
          exact hv
        have hgt2 : getTemplate fuel st2 now name = some (.ok (tpl, st2)) := by
          rcases hvdisj with hveq | ⟨d, hveq, htpl⟩
          · rw [hveq] at hcg2
            rw [getTemplate]
            simp only [hcg2]
          · rw [hveq] at hcg2
            rw [htpl, getTemplate]
            simp only [hcg2]
        have hrt2 : resolveTemplate fuel st2 now name = some (some td, st2) := by
          cases fuel with
          | zero =>
            rw [resolveTemplate] at hrt
            exact absurd hrt (by simp)
          | succ f =>
            rw [resolveTemplate]
            have hres2 : cacheGet st2 ("resolved_" ++ name)
                ((st2.versions.lookup name).getD "") now = some (.resolved td) := by
              rw [← hstM]
              exact hres
            simp only [hres2]
        simp only [render, hgt2, hrt2]
        rw [← hctx, assocSet_idem]
        rw [hout, hctx]

theorem render_repeat_stable_witness :
    0 < c9St.ttl ∧ ∃ out st2 ctx2,
      render 5 c9St 0 c9Jr "rep" c9Ctx = some (.ok (out, st2, ctx2)) ∧
      render 5 st2 0 c9Jr "rep" ctx2 = some (.ok (out, st2, ctx2)) := by
  refine ⟨by decide, ?_⟩
  cases hh : render 5 c9St 0 c9Jr "rep" c9Ctx with
  | none =>
    exfalso
    have hok : renderIsOk (render 5 c9St 0 c9Jr "rep" c9Ctx) = true := by
      with_unfolding_all decide
    rw [hh] at hok
    simp [renderIsOk] at hok
  | some r =>
    cases r with
    | error e =>
      exfalso
      have hok : renderIsOk (render 5 c9St 0 c9Jr "rep" c9Ctx) = true := by
        with_unfolding_all decide
      rw [hh] at hok
      simp [renderIsOk] at hok
    | ok pr =>
      obtain ⟨out, st2, ctx2⟩ := pr
      exact ⟨out, st2, ctx2, rfl,
        render_repeat_stable 5 c9St 0 c9Jr "rep" c9Ctx out st2 ctx2 (by decide) hh⟩

end CCDbg
